import Mathlib

/-!
# Verification of the UK CGT calculator engine (`src/lib/cgt-engine.js`)

Shallow embedding of the matching / tax-year reporting engine.

Modelling conventions:
* JS numbers are modelled as exact rationals `ℚ`.  `Math.round(x)` on a real
  number is `⌊x + 1/2⌋` (round-half-up, including for negatives), which is the
  definition used for `round2dp`.
* Dates are calendar triples `(year, month, day)`; a `Date` produced by
  `new Date(y, m, d)` is local midnight of that day, so `getTime()` ordering,
  same-day comparison and `getDaysDifference` coincide with the civil
  day-number arithmetic in `SDate.toDays` (the timezone is taken to be UTC,
  so that the table dates `new Date("YYYY-MM-DD")`, parsed as UTC midnight,
  and transaction dates, parsed as local midnight, agree).
* A tax-year label `"2023/24"` is represented by its start year `2023 : ℤ`;
  the JS string formatting `` `${y}/${(y+1).slice(-2)}` `` is injective and
  order-isomorphic to the start year for the four-digit years the engine
  handles, in both `localeCompare` sorts in the source.
* Instrument symbols are opaque identifiers; the source upper-cases and trims
  the symbol string, producing an opaque key used for equality and a final
  lexicographic sort; we model symbols as `ℕ` with its order.
* `parseDate` is modelled abstractly: a raw record carries the parsed date
  (`Option SDate`), with `none` for an unparseable date.  The string-format
  heuristics of `parseDate` are presentation concerns not touched by a claim.
* The normaliser's id string `` `txn-${index}-${Date.now()}` `` is modelled by
  the original index `idx`; the `Date.now()` suffix (an opaque timestamp that
  is never read back by the engine) is dropped from the id and the run
  timestamp is threaded as the explicit `now` parameter of `calculate`, which
  the source reads only in `generatedAt` (and inside the opaque id strings).
* Display-only passthrough fields with no influence on any computation
  (`assetName`, `currency`/`originalCurrency`, `priceSource`, the formatted
  `message` / `explanation` strings, and `section104History`) are omitted;
  every field read by the engine itself is kept.
-/

namespace CGT

/-! ## Calendar dates -/

/-- A calendar date (`new Date(y, m-1, d)` in the source, local midnight);
`m` is 1-based here (the source's `getMonth()` is 0-based). -/
structure SDate where
  y : ℤ
  m : ℤ
  d : ℤ
deriving DecidableEq, Repr, Inhabited

/-- Civil day number (days since 1970-01-01, Gregorian calendar).
`date1 < date2`, `isSameDay` and `getDaysDifference` in the source all reduce
to arithmetic on this number, because every `Date` the engine builds is a
plain midnight. -/
def SDate.toDays (dt : SDate) : ℤ :=
  let y := if dt.m ≤ 2 then dt.y - 1 else dt.y
  let era := y / 400
  let yoe := y - era * 400
  let mp := (dt.m + 9) % 12
  let doy := (153 * mp + 2) / 5 + dt.d - 1
  let doe := yoe * 365 + yoe / 4 - yoe / 100 + doy
  era * 146097 + doe - 719468

/-- `isSameDay` compares year, month and day of the two dates. -/
def isSameDay (date1 date2 : SDate) : Prop :=
  date1.y = date2.y ∧ date1.m = date2.m ∧ date1.d = date2.d

instance : DecidableRel isSameDay := fun _ _ => by
  unfold isSameDay; infer_instance

/-- `getDaysDifference`: whole days from `date1` to `date2`
(`Math.round((t2 - t1) / 86400000)` on midnight dates). -/
def getDaysDifference (date1 date2 : SDate) : ℤ :=
  date2.toDays - date1.toDays

/-! ## Numeric helpers -/

/-- `round2dp`: `Math.round(num * 100) / 100`; JS `Math.round x = ⌊x + 1/2⌋`. -/
def round2dp (num : ℚ) : ℚ :=
  ((⌊num * 100 + 1 / 2⌋ : ℤ) : ℚ) / 100

/-- JS `v || dflt` on a number field: `none` models a missing / non-numeric
value (`parseFloat` gives `NaN`), and both `NaN` and `0` are falsy. -/
def jsOr (v : Option ℚ) (dflt : ℚ) : ℚ :=
  match v with
  | none => dflt
  | some x => if x = 0 then dflt else x

/-- JS `a || b || dflt` (two-level falsy fallback chain for the rate fields). -/
def jsOr2 (a b : Option ℚ) (dflt : ℚ) : ℚ :=
  match a with
  | none => jsOr b dflt
  | some x => if x = 0 then jsOr b dflt else x

/-! ## Tax-year table -/

/-- One entry of `TAX_YEARS`.  `startDate`/`endDate` are the `start`/`end`
fields (`end` is a Lean keyword).  Optional fields are absent (`undefined`)
for years without a mid-year rate change. -/
structure TaxYearConfig where
  startDate : SDate
  endDate : SDate
  annualExemption : ℚ
  rateChangeDate : Option SDate := none
  basicRateSharesPre : Option ℚ := none
  higherRateSharesPre : Option ℚ := none
  basicRateSharesPost : Option ℚ := none
  higherRateSharesPost : Option ℚ := none
  basicRateShares : ℚ
  higherRateShares : ℚ
  basicRateProperty : ℚ
  higherRateProperty : ℚ
deriving DecidableEq, Repr

/-- The `TAX_YEARS` table, in source (insertion) order; a label `"YYYY/YY"`
is represented by its start year. -/
def TAX_YEARS : List (ℤ × TaxYearConfig) :=
  [ (2025, { startDate := ⟨2025, 4, 6⟩, endDate := ⟨2026, 4, 5⟩,
             annualExemption := 3000,
             basicRateShares := 10/100, higherRateShares := 20/100,
             basicRateProperty := 18/100, higherRateProperty := 24/100 }),
    (2024, { startDate := ⟨2024, 4, 6⟩, endDate := ⟨2025, 4, 5⟩,
             annualExemption := 3000,
             rateChangeDate := some ⟨2024, 10, 30⟩,
             basicRateSharesPre := some (10/100),
             higherRateSharesPre := some (20/100),
             basicRateSharesPost := some (18/100),
             higherRateSharesPost := some (24/100),
             basicRateShares := 18/100, higherRateShares := 24/100,
             basicRateProperty := 18/100, higherRateProperty := 24/100 }),
    (2023, { startDate := ⟨2023, 4, 6⟩, endDate := ⟨2024, 4, 5⟩,
             annualExemption := 6000,
             basicRateShares := 10/100, higherRateShares := 20/100,
             basicRateProperty := 18/100, higherRateProperty := 28/100 }),
    (2022, { startDate := ⟨2022, 4, 6⟩, endDate := ⟨2023, 4, 5⟩,
             annualExemption := 12300,
             basicRateShares := 10/100, higherRateShares := 20/100,
             basicRateProperty := 18/100, higherRateProperty := 28/100 }),
    (2021, { startDate := ⟨2021, 4, 6⟩, endDate := ⟨2022, 4, 5⟩,
             annualExemption := 12300,
             basicRateShares := 10/100, higherRateShares := 20/100,
             basicRateProperty := 18/100, higherRateProperty := 28/100 }),
    (2020, { startDate := ⟨2020, 4, 6⟩, endDate := ⟨2021, 4, 5⟩,
             annualExemption := 12300,
             basicRateShares := 10/100, higherRateShares := 20/100,
             basicRateProperty := 18/100, higherRateProperty := 28/100 }),
    (2019, { startDate := ⟨2019, 4, 6⟩, endDate := ⟨2020, 4, 5⟩,
             annualExemption := 12000,
             basicRateShares := 10/100, higherRateShares := 20/100,
             basicRateProperty := 18/100, higherRateProperty := 28/100 }),
    (2018, { startDate := ⟨2018, 4, 6⟩, endDate := ⟨2019, 4, 5⟩,
             annualExemption := 11700,
             basicRateShares := 10/100, higherRateShares := 20/100,
             basicRateProperty := 18/100, higherRateProperty := 28/100 }),
    (2017, { startDate := ⟨2017, 4, 6⟩, endDate := ⟨2018, 4, 5⟩,
             annualExemption := 11300,
             basicRateShares := 10/100, higherRateShares := 20/100,
             basicRateProperty := 18/100, higherRateProperty := 28/100 }) ]

/-- The start year of the dynamically derived fallback label in `getTaxYear`:
before April 6 the date belongs to the previous year's tax year
(source months are 0-based: `month < 3 || (month === 3 && day < 6)`). -/
def fallbackStartYear (date : SDate) : ℤ :=
  if date.m < 4 ∨ (date.m = 4 ∧ date.d < 6) then date.y - 1 else date.y

/-- `getTaxYear`: first table entry whose `[start, end]` range contains the
date, else the dynamically generated fallback year (label from the April-6
rule, default exemption 11300 and standard rates) with a console warning. -/
def getTaxYear (date : SDate) : ℤ × TaxYearConfig :=
  match TAX_YEARS.find? (fun e =>
      decide (e.2.startDate.toDays ≤ date.toDays ∧
              date.toDays ≤ e.2.endDate.toDays)) with
  | some e => e
  | none =>
    let taxYearStart := fallbackStartYear date
    (taxYearStart,
     { startDate := ⟨taxYearStart, 4, 6⟩, endDate := ⟨taxYearStart + 1, 4, 5⟩,
       annualExemption := 11300,
       basicRateShares := 10/100, higherRateShares := 20/100,
       basicRateProperty := 18/100, higherRateProperty := 28/100 })

/-! ## Transactions and normalisation -/

/-- Transaction type after `t.type.toUpperCase()`: `"BUY"`, `"SELL"`, or
anything else (ignored by the per-symbol filters). -/
inductive TxnType
  | buy
  | sell
  | other
deriving DecidableEq, Repr

/-- A raw input record, as seen after `parseDate` / `parseFloat`:
`none` in `date` models an unparseable date, `none` in a numeric field models
a missing or non-numeric (`NaN`) value, `none` in `totalAmount` models
`null`. -/
structure RawTxn where
  date : Option SDate
  typ : TxnType
  symbol : ℕ
  quantity : Option ℚ
  pricePerUnit : Option ℚ
  totalAmount : Option ℚ
  fees : Option ℚ
  exchangeRate : Option ℚ
  broker : Option String
deriving DecidableEq, Repr

/-- A normalised transaction.  `idx` is the record's position in the raw
input (the source id string is `` `txn-${idx}-${Date.now()}` ``). -/
structure Txn where
  idx : ℕ
  date : SDate
  typ : TxnType
  symbol : ℕ
  quantity : ℚ
  pricePerUnit : ℚ
  totalAmount : Option ℚ
  fees : ℚ
  exchangeRate : ℚ
  broker : String
  remainingQty : ℚ
deriving DecidableEq, Repr

/-- Pair each element with its index starting at `i` (`Array.map`'s
`(t, index)` callback argument). -/
def withIdx {α : Type} : ℕ → List α → List (ℕ × α)
  | _, [] => []
  | i, a :: as => (i, a) :: withIdx (i + 1) as

/-- JS `t.broker || "Unknown"` (absent and empty string are falsy). -/
def jsStrOr (v : Option String) (dflt : String) : String :=
  match v with
  | none => dflt
  | some s => if s = "" then dflt else s

/-- Chronological order on transactions
(`(a, b) => a.date.getTime() - b.date.getTime()`). -/
def dateLe (a b : Txn) : Prop := a.date.toDays ≤ b.date.toDays

instance : DecidableRel dateLe := fun _ _ => Int.decLe _ _

instance : IsTotal Txn dateLe := ⟨fun _ _ => Int.le_total _ _⟩

instance : IsTrans Txn dateLe := ⟨fun _ _ _ => Int.le_trans⟩

/-- The body of the normaliser's `map` callback: `null` for an unparseable
date, otherwise the canonical transaction. -/
def normalizeOne (p : ℕ × RawTxn) : Option Txn :=
  match p.2.date with
  | none => none
  | some parsedDate =>
    some { idx := p.1
           date := parsedDate
           typ := p.2.typ
           symbol := p.2.symbol
           quantity := |jsOr p.2.quantity 0|
           pricePerUnit := jsOr p.2.pricePerUnit 0
           totalAmount := p.2.totalAmount
           fees := jsOr p.2.fees 0
           exchangeRate := jsOr p.2.exchangeRate 1
           broker := jsStrOr p.2.broker "Unknown"
           remainingQty := |jsOr p.2.quantity 0| }

/-- `normalizeTransactions`: drop records with unparseable dates, coerce the
numeric fields, drop non-positive quantities, and stable-sort by date.
(JS `Array.prototype.sort` is required to be stable, and
`List.insertionSort` is the stable sort for the same comparator.) -/
def normalizeTransactions (l : List RawTxn) : List Txn :=
  (((withIdx 0 l).filterMap normalizeOne).filter
    fun t => decide (0 < t.quantity)).insertionSort dateLe

/-- `calculateCost`: pro-rata cost of `quantity` units of `transaction`
(preferring `totalAmount` over `quantity × pricePerUnit`), plus pro-rata
fees, divided by the FX rate, rounded to 2 dp. -/
def calculateCost (transaction : Txn) (quantity : ℚ) : ℚ :=
  let proportion := quantity / transaction.quantity
  let baseCost :=
    match transaction.totalAmount with
    | some ta => ta * proportion
    | none => quantity * transaction.pricePerUnit
  let fees := transaction.fees * proportion
  round2dp ((baseCost + fees) / transaction.exchangeRate)

/-- `calculateProceeds`: like `calculateCost` but fees are subtracted. -/
def calculateProceeds (transaction : Txn) (quantity : ℚ) : ℚ :=
  let proportion := quantity / transaction.quantity
  let baseProceeds :=
    match transaction.totalAmount with
    | some ta => ta * proportion
    | none => quantity * transaction.pricePerUnit
  let fees := transaction.fees * proportion
  round2dp ((baseProceeds - fees) / transaction.exchangeRate)

/-! ## Matching engine -/

/-- A Section 104 pool (`{ quantity, cost }`). -/
structure Pool where
  quantity : ℚ
  cost : ℚ
deriving DecidableEq, Repr

/-- Match rule tags. -/
inductive MatchRule
  | sameDay
  | bedAndBreakfast
  | section104
deriving DecidableEq, Repr

/-- The `bnbImpact` metadata of a B&B match (the `explanation` string is
formatted from these numbers). -/
structure BnbImpact where
  s104CostPerShareWouldBe : ℚ
  actualCostPerShare : ℚ
  costDifference : ℚ
deriving DecidableEq, Repr

/-- One entry of a disposal's `matchDetails`.  Fields that appear only for
some rules are `Option`s defaulting to `none` (`undefined`). -/
structure MatchDetail where
  rule : MatchRule
  quantity : ℚ
  cost : ℚ
  costPerShare : ℚ
  proceedsPerShare : ℚ
  gainPerShare : ℚ
  acquisitionDate : Option SDate := none
  daysDifference : Option ℤ := none
  broker : Option String := none
  isRSU : Option Bool := none
  originalCostPerShare : Option ℚ := none
  exchangeRate : Option ℚ := none
  averageCost : Option ℚ := none
  poolQuantityBefore : Option ℚ := none
  poolQuantityAfter : Option ℚ := none
  bnbImpact : Option BnbImpact := none
deriving DecidableEq, Repr

/-- An `UNMATCHED_DISPOSAL` entry of the errors list (`type` is always
`"UNMATCHED_DISPOSAL"` and `message` is formatted from these fields). -/
structure CGTError where
  symbol : ℕ
  date : SDate
  unmatchedQuantity : ℚ
deriving DecidableEq, Repr

/-- A recorded disposal. -/
structure Disposal where
  idx : ℕ
  symbol : ℕ
  date : SDate
  quantity : ℚ
  proceeds : ℚ
  proceedsPerShare : ℚ
  cost : ℚ
  costPerShare : ℚ
  gain : ℚ
  gainPerShare : ℚ
  taxYear : ℤ
  matchDetails : List MatchDetail
  broker : String
deriving DecidableEq, Repr, Inhabited

/-- An entry of the acquisitions list. -/
structure Acquisition where
  symbol : ℕ
  date : SDate
  quantity : ℚ
  totalCost : ℚ
  costPerShare : ℚ
  broker : String
  isRSU : Bool
deriving DecidableEq, Repr

/-- Result of one matching phase: quantity still unmatched, the buys list
with consumed `remainingQty`, match details pushed, and cost added to
`totalCost`. -/
structure PhaseRes where
  remaining : ℚ
  buys : List Txn
  details : List MatchDetail
  cost : ℚ
deriving Repr

/-- The same-day loop.  The source iterates over the filtered
`sameDayBuys` (references into `buys`) with an early `break` once
`remainingQty ≤ 0`, mutating each consumed buy in place; iterating the whole
list and skipping non-candidates is the same function, since consuming one
buy never changes another's candidacy. -/
def sameDayLoop (ddate : SDate) (pps : ℚ) : ℚ → List Txn → PhaseRes
  | remainingQty, [] => ⟨remainingQty, [], [], 0⟩
  | remainingQty, b :: rest =>
    if remainingQty ≤ 0 then ⟨remainingQty, b :: rest, [], 0⟩
    else if isSameDay b.date ddate ∧ 0 < b.remainingQty then
      let matchQty := min remainingQty b.remainingQty
      let matchCost := calculateCost b matchQty
      let costPerShare := round2dp (matchCost / matchQty)
      let detail : MatchDetail :=
        { rule := .sameDay
          quantity := matchQty
          cost := matchCost
          costPerShare := costPerShare
          proceedsPerShare := pps
          gainPerShare := round2dp (pps - costPerShare)
          acquisitionDate := some b.date
          broker := some b.broker
          isRSU := some (b.broker = "Charles Schwab") }
      let res := sameDayLoop ddate pps (remainingQty - matchQty) rest
      ⟨res.remaining, { b with remainingQty := b.remainingQty - matchQty } :: res.buys,
       detail :: res.details, matchCost + res.cost⟩
    else
      let res := sameDayLoop ddate pps remainingQty rest
      ⟨res.remaining, b :: res.buys, res.details, res.cost⟩

/-- B&B candidacy: strictly after the disposal, within 30 days, stock left. -/
def bnbEligible (ddate : SDate) (b : Txn) : Prop :=
  0 < getDaysDifference ddate b.date ∧ getDaysDifference ddate b.date ≤ 30 ∧
    0 < b.remainingQty

instance (d : SDate) (b : Txn) : Decidable (bnbEligible d b) := by
  unfold bnbEligible; infer_instance

/-- Chronological order on indexed buys, for the B&B sort. -/
def idxDateLe (a b : ℕ × Txn) : Prop := a.2.date.toDays ≤ b.2.date.toDays

instance : DecidableRel idxDateLe := fun _ _ => Int.decLe _ _

instance : IsTotal (ℕ × Txn) idxDateLe := ⟨fun _ _ => Int.le_total _ _⟩

instance : IsTrans (ℕ × Txn) idxDateLe := ⟨fun _ _ _ => Int.le_trans⟩

/-- The B&B loop over the date-sorted eligible buys.  Each element carries
its index into the buys list; the loop returns `(index, new remainingQty)`
updates to be written back (the source mutates the shared references
directly; each eligible buy occurs once, so the snapshot values are the
live values). -/
def bnbLoop (pool : Pool) (ddate : SDate) (pps : ℚ) :
    ℚ → List (ℕ × Txn) → ℚ × List (ℕ × ℚ) × List MatchDetail × ℚ
  | remainingQty, [] => (remainingQty, [], [], 0)
  | remainingQty, (i, b) :: rest =>
    if remainingQty ≤ 0 then (remainingQty, [], [], 0)
    else
      let matchQty := min remainingQty b.remainingQty
      let matchCost := calculateCost b matchQty
      let costPerShare := round2dp (matchCost / matchQty)
      let daysDiff := getDaysDifference ddate b.date
      let s104AvgCost :=
        if 0 < pool.quantity then round2dp (pool.cost / pool.quantity) else 0
      let detail : MatchDetail :=
        { rule := .bedAndBreakfast
          quantity := matchQty
          cost := matchCost
          costPerShare := costPerShare
          proceedsPerShare := pps
          gainPerShare := round2dp (pps - costPerShare)
          acquisitionDate := some b.date
          daysDifference := some daysDiff
          broker := some b.broker
          isRSU := some (b.broker = "Charles Schwab")
          originalCostPerShare := some (round2dp b.pricePerUnit)
          exchangeRate := some (jsOr (some b.exchangeRate) 1)
          bnbImpact := some
            { s104CostPerShareWouldBe := s104AvgCost
              actualCostPerShare := costPerShare
              costDifference := round2dp (costPerShare - s104AvgCost) } }
      let res := bnbLoop pool ddate pps (remainingQty - matchQty) rest
      (res.1, (i, b.remainingQty - matchQty) :: res.2.1, detail :: res.2.2.1,
       matchCost + res.2.2.2)

/-- Write an updated `remainingQty` back into position `i` of the list. -/
def setRemaining : List Txn → ℕ → ℚ → List Txn
  | [], _, _ => []
  | b :: rest, 0, q => { b with remainingQty := q } :: rest
  | b :: rest, n + 1, q => b :: setRemaining rest n q

/-- Phase 2 (`BED AND BREAKFAST`): guarded by `remainingQty > 0`; filters the
eligible buys, sorts them by date (ascending, stable — on ties the already
date-sorted buys list keeps input order, as in the source), and consumes. -/
def bnbPhase (pool : Pool) (ddate : SDate) (pps : ℚ) (remainingQty : ℚ)
    (buys : List Txn) : PhaseRes :=
  if remainingQty ≤ 0 then ⟨remainingQty, buys, [], 0⟩
  else
    let elig := (withIdx 0 buys).filter fun p => decide (bnbEligible ddate p.2)
    let sorted := elig.insertionSort idxDateLe
    let res := bnbLoop pool ddate pps remainingQty sorted
    ⟨res.1, res.2.1.foldl (fun bs u => setRemaining bs u.1 u.2) buys,
     res.2.2.1, res.2.2.2⟩

/-- The Section 104 roll-in loop: every acquisition dated strictly before the
disposal with stock left is rolled into the pool and zeroed.  Also returns
the pool-state trace (one snapshot per mutation). -/
def rollInLoop (dday : ℤ) : Pool → List Txn → Pool × List Txn × List Pool
  | pool, [] => (pool, [], [])
  | pool, b :: rest =>
    if b.date.toDays < dday ∧ 0 < b.remainingQty then
      let cost := calculateCost b b.remainingQty
      let pool' : Pool := ⟨pool.quantity + b.remainingQty, pool.cost + cost⟩
      let res := rollInLoop dday pool' rest
      (res.1, { b with remainingQty := 0 } :: res.2.1, pool' :: res.2.2)
    else
      let res := rollInLoop dday pool rest
      (res.1, b :: res.2.1, res.2.2)

/-- Result of the Section 104 phase. -/
structure S104Res where
  pool : Pool
  remaining : ℚ
  buys : List Txn
  details : List MatchDetail
  cost : ℚ
  trace : List Pool
deriving Repr

/-- Phase 3 (`SECTION 104 POOL`): guarded by `remainingQty > 0`; rolls
earlier leftovers into the pool, then draws at the pool average cost. -/
def s104Phase (pool : Pool) (ddate : SDate) (pps : ℚ) (remainingQty : ℚ)
    (buys : List Txn) : S104Res :=
  if remainingQty ≤ 0 then ⟨pool, remainingQty, buys, [], 0, []⟩
  else
    let r := rollInLoop ddate.toDays pool buys
    let pool1 := r.1
    if 0 < pool1.quantity then
      let matchQty := min remainingQty pool1.quantity
      let avgCost := pool1.cost / pool1.quantity
      let matchCost := round2dp (matchQty * avgCost)
      let costPerShare := round2dp avgCost
      let pool2 : Pool := ⟨pool1.quantity - matchQty, pool1.cost - matchCost⟩
      let detail : MatchDetail :=
        { rule := .section104
          quantity := matchQty
          cost := matchCost
          costPerShare := costPerShare
          proceedsPerShare := pps
          gainPerShare := round2dp (pps - costPerShare)
          averageCost := some (round2dp avgCost)
          poolQuantityBefore := some (round2dp (pool2.quantity + matchQty))
          poolQuantityAfter := some (round2dp pool2.quantity) }
      ⟨pool2, remainingQty - matchQty, r.2.1, [detail], matchCost,
       r.2.2 ++ [pool2]⟩
    else ⟨pool1, remainingQty, r.2.1, [], 0, r.2.2⟩

/-- Result of `processDisposal`. -/
structure DisposalRes where
  pool : Pool
  buys : List Txn
  disposal : Disposal
  error : Option CGTError
  trace : List Pool
deriving Repr

/-- `processDisposal`: the three-rule matching for one sale. -/
def processDisposal (pool : Pool) (symbol : ℕ) (disposal : Txn)
    (buys : List Txn) : DisposalRes :=
  let proceeds := calculateProceeds disposal disposal.quantity
  let proceedsPerShare := round2dp (proceeds / disposal.quantity)
  let r1 := sameDayLoop disposal.date proceedsPerShare disposal.quantity buys
  let r2 := bnbPhase pool disposal.date proceedsPerShare r1.remaining r1.buys
  let r3 := s104Phase pool disposal.date proceedsPerShare r2.remaining r2.buys
  let matchDetails := r1.details ++ r2.details ++ r3.details
  let totalCost := r1.cost + r2.cost + r3.cost
  let error : Option CGTError :=
    if 0 < r3.remaining then
      some { symbol := symbol, date := disposal.date,
             unmatchedQuantity := r3.remaining }
    else none
  let gain := round2dp (proceeds - totalCost)
  let taxYear := getTaxYear disposal.date
  let costPerShare :=
    if 0 < disposal.quantity then round2dp (totalCost / disposal.quantity)
    else 0
  { pool := r3.pool
    buys := r3.buys
    disposal :=
      { idx := disposal.idx
        symbol := symbol
        date := disposal.date
        quantity := disposal.quantity
        proceeds := round2dp proceeds
        proceedsPerShare := proceedsPerShare
        cost := round2dp totalCost
        costPerShare := costPerShare
        gain := gain
        gainPerShare := round2dp (gain / disposal.quantity)
        taxYear := taxYear.1
        matchDetails := matchDetails
        broker := disposal.broker }
    error := error
    trace := r3.trace }

/-! ## Per-symbol processing -/

/-- Result of processing all of one symbol's sells. -/
structure SellsRes where
  pool : Pool
  buys : List Txn
  disposals : List Disposal
  errors : List CGTError
  trace : List Pool
deriving Repr

/-- `for (const disposal of sells) this.processDisposal(...)`. -/
def processSells (symbol : ℕ) : Pool → List Txn → List Txn → SellsRes
  | pool, buys, [] => ⟨pool, buys, [], [], []⟩
  | pool, buys, s :: rest =>
    let r := processDisposal pool symbol s buys
    let res := processSells symbol r.pool r.buys rest
    ⟨res.pool, res.buys, r.disposal :: res.disposals,
     (r.error.elim [] fun e => [e]) ++ res.errors, r.trace ++ res.trace⟩

/-- The final roll-in of unconsumed buys into the pool (with its pool-state
trace; the `section104History` records built alongside are display-only). -/
def leftoverLoop : Pool → List Txn → Pool × List Pool
  | pool, [] => (pool, [])
  | pool, b :: rest =>
    if 0 < b.remainingQty then
      let cost := calculateCost b b.remainingQty
      let pool' : Pool := ⟨pool.quantity + b.remainingQty, pool.cost + cost⟩
      let res := leftoverLoop pool' rest
      (res.1, pool' :: res.2)
    else leftoverLoop pool rest

/-- Result of `processSymbol`. -/
structure SymbolRes where
  pool : Pool
  acquisitions : List Acquisition
  disposals : List Disposal
  errors : List CGTError
  trace : List Pool
deriving Repr

/-- `processSymbol`: record the acquisitions, process the sells in order,
then roll leftovers into the pool.  A fresh calculator starts every
symbol's pool at `{quantity: 0, cost: 0}`. -/
def processSymbol (symbol : ℕ) (transactions : List Txn) : SymbolRes :=
  let buys := transactions.filter fun t => decide (t.typ = .buy)
  let sells := transactions.filter fun t => decide (t.typ = .sell)
  let acquisitions := buys.map fun b =>
    let cost := calculateCost b b.quantity
    { symbol := symbol
      date := b.date
      quantity := b.quantity
      totalCost := round2dp cost
      costPerShare := round2dp (cost / b.quantity)
      broker := b.broker
      isRSU := b.broker = "Charles Schwab" ∧ 0 < b.pricePerUnit : Acquisition }
  let r := processSells symbol ⟨0, 0⟩ buys sells
  let l := leftoverLoop r.pool r.buys
  ⟨l.1, acquisitions, r.disposals, r.errors, (⟨0, 0⟩ : Pool) :: r.trace ++ l.2⟩

/-! ## Grouping -/

/-- Append `v` to the group of key `k`, JS-object style: existing keys keep
their position, a new key is appended (insertion order). -/
def addToGroup {κ α : Type} [DecidableEq κ] (k : κ) (v : α) :
    List (κ × List α) → List (κ × List α)
  | [] => [(k, [v])]
  | (k', vs) :: rest =>
    if k' = k then (k', vs ++ [v]) :: rest else (k', vs) :: addToGroup k v rest

/-- Group a list by a key, preserving first-seen key order and within-group
order (a JS object of arrays built by pushes). -/
def groupByKey {κ α : Type} [DecidableEq κ] (key : α → κ) (l : List α) :
    List (κ × List α) :=
  l.foldl (fun acc v => addToGroup (key v) v acc) []

/-- Accumulated calculator state after processing every symbol. -/
structure CalcState where
  pools : List (ℕ × Pool)
  disposals : List Disposal
  acquisitions : List Acquisition
  errors : List CGTError
  trace : List Pool
deriving Repr

/-- `for (const symbol of Object.keys(bySymbol)) this.processSymbol(...)`. -/
def runSymbols : List (ℕ × List Txn) → CalcState
  | [] => ⟨[], [], [], [], []⟩
  | (sym, txns) :: rest =>
    let r := processSymbol sym txns
    let res := runSymbols rest
    ⟨(sym, r.pool) :: res.pools, r.disposals ++ res.disposals,
     r.acquisitions ++ res.acquisitions, r.errors ++ res.errors,
     r.trace ++ res.trace⟩

/-! ## Section 104 snapshots -/

/-- Event kinds for the snapshot replay. -/
inductive EvtType
  | acq
  | disp
deriving DecidableEq, Repr

/-- One event of the replay log. -/
structure Evt where
  date : SDate
  typ : EvtType
  symbol : ℕ
  quantity : ℚ
  cost : ℚ
deriving DecidableEq, Repr

/-- Chronological order on events. -/
def evtDateLe (a b : Evt) : Prop := a.date.toDays ≤ b.date.toDays

instance : DecidableRel evtDateLe := fun _ _ => Int.decLe _ _

instance : IsTotal Evt evtDateLe := ⟨fun _ _ => Int.le_total _ _⟩

instance : IsTrans Evt evtDateLe := ⟨fun _ _ _ => Int.le_trans⟩

/-- Apply one event to a per-symbol pool map (JS object, insertion order):
acquisitions add quantity and cost, disposals subtract them. -/
def applyEvt : List (ℕ × Pool) → Evt → List (ℕ × Pool)
  | [], e =>
    [(e.symbol,
      match e.typ with
      | .acq => ⟨e.quantity, e.cost⟩
      | .disp => ⟨-e.quantity, -e.cost⟩)]
  | (s, p) :: rest, e =>
    if s = e.symbol then
      (s,
        match e.typ with
        | .acq => ⟨p.quantity + e.quantity, p.cost + e.cost⟩
        | .disp => ⟨p.quantity - e.quantity, p.cost - e.cost⟩) :: rest
    else (s, p) :: applyEvt rest e

/-- A row of the pool summaries (`{symbol, quantity, totalCost, averageCost}`). -/
structure PoolRow where
  symbol : ℕ
  quantity : ℚ
  totalCost : ℚ
  averageCost : ℚ
deriving DecidableEq, Repr, Inhabited

/-- Symbol order on pool rows (`localeCompare` on the symbol strings). -/
def rowSymbolLe (a b : PoolRow) : Prop := a.symbol ≤ b.symbol

instance : DecidableRel rowSymbolLe := fun _ _ => Nat.decLe _ _

instance : IsTotal PoolRow rowSymbolLe := ⟨fun _ _ => Nat.le_total _ _⟩

instance : IsTrans PoolRow rowSymbolLe := ⟨fun _ _ _ => Nat.le_trans⟩

/-- Convert a replayed pool map to the snapshot row array: keep pools with
more than 0.001 units, round, and sort by symbol. -/
def snapshotRows (pools : List (ℕ × Pool)) : List PoolRow :=
  ((pools.filter fun p => decide ((1 : ℚ)/1000 < p.2.quantity)).map
    fun p =>
      ({ symbol := p.1
         quantity := round2dp p.2.quantity
         totalCost := round2dp p.2.cost
         averageCost :=
           if (0 : ℚ) < p.2.quantity then round2dp (p.2.cost / p.2.quantity)
           else 0 } : PoolRow)).insertionSort rowSymbolLe

/-- `calculateSection104Snapshots`: build the event log from the recorded
acquisitions and disposals, sort it chronologically (stably), and for each
predefined tax year having disposals replay the events dated before the year
start (resp. not after the year end).  The source `break`s at the first
event past the cutoff, which on the sorted log is `takeWhile`.  Years not in
`TAX_YEARS` are skipped (`continue`). -/
def allEvents (acquisitions : List Acquisition) (disposals : List Disposal) :
    List Evt :=
  (acquisitions.map fun a =>
    { date := a.date, typ := .acq, symbol := a.symbol,
      quantity := a.quantity, cost := a.totalCost }) ++
  disposals.map fun d =>
    { date := d.date, typ := .disp, symbol := d.symbol,
      quantity := d.quantity, cost := d.cost }

/-- The chronologically sorted event log (stable, like the source's
`allEvents.sort((a, b) => a.date.getTime() - b.date.getTime())`). -/
def sortedEvents (acquisitions : List Acquisition)
    (disposals : List Disposal) : List Evt :=
  (allEvents acquisitions disposals).insertionSort evtDateLe

def calculateSection104Snapshots (acquisitions : List Acquisition)
    (disposals : List Disposal) :
    List (ℤ × (List PoolRow × List PoolRow)) :=
  let sorted := sortedEvents acquisitions disposals
  let taxYears :=
    ((disposals.map fun d => d.taxYear).dedup).insertionSort (· ≤ ·)
  taxYears.filterMap fun taxYear =>
    match (TAX_YEARS.find? fun e => decide (e.1 = taxYear)).map (·.2) with
    | none => none
    | some config =>
      let s104AtStart :=
        (sorted.takeWhile fun e =>
          decide (e.date.toDays < config.startDate.toDays)).foldl applyEvt []
      let s104AtEnd :=
        (sorted.takeWhile fun e =>
          decide (¬config.endDate.toDays < e.date.toDays)).foldl applyEvt []
      some (taxYear, (snapshotRows s104AtStart, snapshotRows s104AtEnd))

/-! ## Report generation -/

/-- One side of the 2024/25 rate-change breakdown. -/
structure RateSide where
  gains : ℚ
  losses : ℚ
  netGain : ℚ
  basicRate : ℚ
  higherRate : ℚ
  disposalCount : ℕ
deriving DecidableEq, Repr

/-- The `rateChange` breakdown attached to the rate-change year. -/
structure RateChange where
  date : SDate
  preOctober : RateSide
  postOctober : RateSide
deriving DecidableEq, Repr

/-- One per-tax-year summary of the report. -/
structure YearSummary where
  taxYear : ℤ
  numberOfDisposals : ℕ
  totalProceeds : ℚ
  totalCost : ℚ
  totalGains : ℚ
  totalLosses : ℚ
  netGain : ℚ
  annualExemption : ℚ
  taxableGain : ℚ
  estimatedTaxBasicRate : ℚ
  estimatedTaxHigherRate : ℚ
  disposals : List Disposal
  section104Start : List PoolRow
  section104End : List PoolRow
  rateChange : Option RateChange
deriving DecidableEq, Repr, Inhabited

/-- The `summary` block of the report. -/
structure ReportSummary where
  totalDisposals : ℕ
  totalSymbolsTraded : ℕ
  overallGain : ℚ
deriving DecidableEq, Repr

/-- The report object.  `generatedAt` is the run timestamp
(`new Date().toISOString()`). -/
structure Report where
  generatedAt : ℕ
  taxYears : List YearSummary
  section104Pools : List PoolRow
  allDisposals : List Disposal
  acquisitions : List Acquisition
  errors : List CGTError
  summary : ReportSummary
deriving Repr

/-- `TAX_YEARS[label]`. -/
def lookupConfig (taxYear : ℤ) : Option TaxYearConfig :=
  (TAX_YEARS.find? fun e => decide (e.1 = taxYear)).map (·.2)

/-- `totalGains` accumulation: `if (gain >= 0) totalGains += gain`. -/
def sumGains (l : List Disposal) : ℚ :=
  l.foldl (fun acc d => if 0 ≤ d.gain then acc + d.gain else acc) 0

/-- `totalLosses` accumulation: `else totalLosses += Math.abs(gain)`. -/
def sumLosses (l : List Disposal) : ℚ :=
  l.foldl (fun acc d => if 0 ≤ d.gain then acc else acc + |d.gain|) 0

/-- Descending label order for the summaries
(`(a, b) => b.taxYear.localeCompare(a.taxYear)`). -/
def yearDesc (a b : YearSummary) : Prop := b.taxYear ≤ a.taxYear

instance : DecidableRel yearDesc := fun _ _ => Int.decLe _ _

instance : IsTotal YearSummary yearDesc := ⟨fun _ _ => (Int.le_total _ _).symm⟩

instance : IsTrans YearSummary yearDesc := ⟨fun _ _ _ h h' => Int.le_trans h' h⟩

/-- Build one tax-year summary (the body of the `taxYearSummaries` map).
The source accumulates the pre/post rate-change sums in one loop over the
year's disposals with an `if (disposalDate < rateChangeDate)` split; the
filtered folds below are that same accumulation. -/
def yearSummary (snapshots : List (ℤ × (List PoolRow × List PoolRow)))
    (taxYear : ℤ) (config : Option TaxYearConfig)
    (disposals : List Disposal) : YearSummary :=
  let totalGains := sumGains disposals
  let totalLosses := sumLosses disposals
  let netGain := round2dp (totalGains - totalLosses)
  let annualExemption := jsOr (config.map (·.annualExemption)) 3000
  let taxableGain := max 0 (netGain - annualExemption)
  let rateChangeDate := config.bind (·.rateChangeDate)
  let preDisposals := fun rcd : SDate =>
    disposals.filter fun d => decide (d.date.toDays < rcd.toDays)
  let postDisposals := fun rcd : SDate =>
    disposals.filter fun d => decide (¬d.date.toDays < rcd.toDays)
  let preOctGains := (rateChangeDate.map fun rcd => sumGains (preDisposals rcd)).getD 0
  let preOctLosses := (rateChangeDate.map fun rcd => sumLosses (preDisposals rcd)).getD 0
  let postOctGains := (rateChangeDate.map fun rcd => sumGains (postDisposals rcd)).getD 0
  let postOctLosses := (rateChangeDate.map fun rcd => sumLosses (postDisposals rcd)).getD 0
  let basicRatePre := jsOr2 (config.bind (·.basicRateSharesPre))
    (config.map (·.basicRateShares)) (10/100)
  let higherRatePre := jsOr2 (config.bind (·.higherRateSharesPre))
    (config.map (·.higherRateShares)) (20/100)
  let basicRatePost := jsOr2 (config.bind (·.basicRateSharesPost))
    (config.map (·.basicRateShares)) (18/100)
  let higherRatePost := jsOr2 (config.bind (·.higherRateSharesPost))
    (config.map (·.higherRateShares)) (24/100)
  let est : ℚ × ℚ :=
    if rateChangeDate.isSome ∧ (0 < preOctGains ∨ 0 < postOctGains) then
      let totalGainsForAllocation := preOctGains + postOctGains
      let preExemption :=
        if 0 < totalGainsForAllocation then
          round2dp ((preOctGains / totalGainsForAllocation) *
            min annualExemption totalGainsForAllocation)
        else 0
      let postExemption :=
        if 0 < totalGainsForAllocation then
          round2dp ((postOctGains / totalGainsForAllocation) *
            min annualExemption totalGainsForAllocation)
        else 0
      let taxablePreGain := max 0 (preOctGains - preOctLosses - preExemption)
      let taxablePostGain := max 0 (postOctGains - postOctLosses - postExemption)
      (round2dp (taxablePreGain * basicRatePre + taxablePostGain * basicRatePost),
       round2dp (taxablePreGain * higherRatePre + taxablePostGain * higherRatePost))
    else
      let basicRate := jsOr (config.map (·.basicRateShares)) (10/100)
      let higherRate := jsOr (config.map (·.higherRateShares)) (20/100)
      (round2dp (taxableGain * basicRate), round2dp (taxableGain * higherRate))
  let snap := (snapshots.find? fun s => decide (s.1 = taxYear)).map (·.2)
  { taxYear := taxYear
    numberOfDisposals := disposals.length
    totalProceeds := round2dp (disposals.foldl (fun acc d => acc + d.proceeds) 0)
    totalCost := round2dp (disposals.foldl (fun acc d => acc + d.cost) 0)
    totalGains := round2dp totalGains
    totalLosses := round2dp totalLosses
    netGain := round2dp netGain
    annualExemption := annualExemption
    taxableGain := round2dp taxableGain
    estimatedTaxBasicRate := est.1
    estimatedTaxHigherRate := est.2
    disposals := disposals
    section104Start := (snap.map (·.1)).getD []
    section104End := (snap.map (·.2)).getD []
    rateChange :=
      rateChangeDate.map fun rcd =>
        { date := ⟨2024, 10, 30⟩
          preOctober :=
            { gains := round2dp preOctGains
              losses := round2dp preOctLosses
              netGain := round2dp (preOctGains - preOctLosses)
              basicRate := basicRatePre
              higherRate := higherRatePre
              disposalCount := (preDisposals rcd).length }
          postOctober :=
            { gains := round2dp postOctGains
              losses := round2dp postOctLosses
              netGain := round2dp (postOctGains - postOctLosses)
              basicRate := basicRatePost
              higherRate := higherRatePost
              disposalCount := (postDisposals rcd).length } } }

/-- `generateReport`. -/
def generateReport (now : ℕ) (st : CalcState) : Report :=
  let byTaxYear := groupByKey (fun d : Disposal => d.taxYear) st.disposals
  let snapshots := calculateSection104Snapshots st.acquisitions st.disposals
  let taxYearSummaries :=
    (byTaxYear.map fun g =>
      yearSummary snapshots g.1 (lookupConfig g.1) g.2).insertionSort yearDesc
  let section104Summary :=
    (st.pools.filter fun p => decide ((0 : ℚ) < p.2.quantity)).map fun p =>
      ({ symbol := p.1
         quantity := round2dp p.2.quantity
         totalCost := round2dp p.2.cost
         averageCost := round2dp (p.2.cost / p.2.quantity) } : PoolRow)
  { generatedAt := now
    taxYears := taxYearSummaries
    section104Pools := section104Summary
    allDisposals := st.disposals
    acquisitions := st.acquisitions
    errors := st.errors
    summary :=
      { totalDisposals := st.disposals.length
        totalSymbolsTraded := (st.disposals.map (·.symbol)).dedup.length
        overallGain := round2dp (st.disposals.foldl (fun acc d => acc + d.gain) 0) } }

/-- `calculate`: normalise, group by symbol (JS-object insertion order),
process each symbol, and generate the report.  `now` is the run timestamp. -/
def calculate (now : ℕ) (rawTransactions : List RawTxn) : Report :=
  let transactions := normalizeTransactions rawTransactions
  let bySymbol := groupByKey (fun t : Txn => t.symbol) transactions
  generateReport now (runSymbols bySymbol)

/-- `calculateCGT`: construct a fresh calculator (all pools zeroed) and run
`calculate`. -/
def calculateCGT (now : ℕ) (transactions : List RawTxn) : Report :=
  calculate now transactions

/-- The pool-state trace of a run: every intermediate per-symbol pool value,
in mutation order (instrumentation used by the invariants; the report
ignores it). -/
def calculateTrace (rawTransactions : List RawTxn) : List Pool :=
  (runSymbols (groupByKey (fun t : Txn => t.symbol)
    (normalizeTransactions rawTransactions))).trace

/-! ## Definitions used by the analysis -/

/-- A value that is a whole number of pennies (the source rounds every
monetary value to 2 dp at the point of computation, so sums of recorded
values are exactly representable and re-rounding them is the identity). -/
def IsPenny (q : ℚ) : Prop := ∃ k : ℤ, q = (k : ℚ) / 100

/-- Total quantity of a list of match details. -/
def sumQ (l : List MatchDetail) : ℚ := (l.map fun m => m.quantity).sum

/-- Total cost of a list of match details. -/
def sumC (l : List MatchDetail) : ℚ := (l.map fun m => m.cost).sum

/-- The acquisition day number recorded in a match detail (all same-day and
B&B details carry one). -/
def acqDays (m : MatchDetail) : ℤ :=
  (m.acquisitionDate.map SDate.toDays).getD 0

/-- A transaction whose cost parameters are well formed: non-negative fees,
price and total amount, and a positive FX rate.  (The normaliser does not
enforce this: a raw record may carry negative amounts or a negative rate.) -/
def NonnegTxn (t : Txn) : Prop :=
  0 ≤ t.fees ∧ 0 < t.exchangeRate ∧ 0 ≤ t.pricePerUnit ∧
    ∀ a, t.totalAmount = some a → 0 ≤ a

/-- A buy as the matcher expects it: well-formed cost parameters, positive
total quantity, remaining quantity between 0 and the total. -/
def GoodBuy (t : Txn) : Prop :=
  NonnegTxn t ∧ 0 < t.quantity ∧ 0 ≤ t.remainingQty

/-- The pool invariant: non-negative quantity, non-negative cost, and cost a
whole number of pennies (every amount ever added to it is 2dp-rounded). -/
def PoolInv (p : Pool) : Prop :=
  0 ≤ p.quantity ∧ 0 ≤ p.cost ∧ IsPenny p.cost

/-- Whether a disposal drew anything from the Section 104 pool. -/
def poolSourced (d : Disposal) : Prop :=
  ∃ m ∈ d.matchDetails, m.rule = .section104

instance (d : Disposal) : Decidable (poolSourced d) := by
  unfold poolSourced; infer_instance

/-- Modelled from the spec: "replays the full chronological event history
(every acquisition, every pool-sourced disposal) to reconstruct
quantity/cost as of that instant" — i.e. the year-start snapshot obtained
when only *pool-sourced* disposals are replayed.  The source instead replays
every disposal; this definition exists to compare the two readings. -/
def specSection104StartRows (acquisitions : List Acquisition)
    (disposals : List Disposal) (yearStart : SDate) : List PoolRow :=
  let events := allEvents acquisitions
    (disposals.filter fun d => decide (poolSourced d))
  snapshotRows (((events.insertionSort evtDateLe).takeWhile fun e =>
    decide (e.date.toDays < yearStart.toDays)).foldl applyEvt [])

/-- The disposals of a year dated strictly before the rate-change date. -/
def preSplit (rcd : SDate) (ds : List Disposal) : List Disposal :=
  ds.filter fun d => decide (d.date.toDays < rcd.toDays)

/-- The disposals of a year dated on or after the rate-change date. -/
def postSplit (rcd : SDate) (ds : List Disposal) : List Disposal :=
  ds.filter fun d => decide (¬d.date.toDays < rcd.toDays)

/-- One side's taxable gain in the rate-change split: the side's gains minus
its losses minus its gains-proportional share of the annual exemption
(capped at total gains), floored at zero — the formula of the source's
`taxablePreGain` / `taxablePostGain`.  `total` is both sides' gains. -/
def claimTaxSide (gSelf lSelf total E : ℚ) : ℚ :=
  let ex := if 0 < total then round2dp (gSelf / total * min E total) else 0
  max 0 (gSelf - lSelf - ex)

/-- Quantity still available among the same-day candidates of a disposal
dated `dd` (`b.date` on the same calendar day, stock left). -/
def sameDayAvail (dd : SDate) (buys : List Txn) : ℚ :=
  ((buys.filter fun b =>
    decide (isSameDay b.date dd ∧ 0 < b.remainingQty)).map
      fun b => b.remainingQty).sum

/-- Quantity still available among the B&B candidates of a disposal dated
`dd` (acquired within the 30 following days, stock left). -/
def bnbAvail (dd : SDate) (buys : List Txn) : ℚ :=
  ((buys.filter fun b => decide (bnbEligible dd b)).map
    fun b => b.remainingQty).sum

/-- The date-sorted list of indexed B&B-eligible buys that `bnbPhase`
consumes (named here for the statements about it). -/
def bnbSorted (dd : SDate) (buys : List Txn) : List (ℕ × Txn) :=
  ((withIdx 0 buys).filter fun p => decide (bnbEligible dd p.2)).insertionSort
    idxDateLe

/-! ## Demonstration inputs (used by witnesses and counterexamples) -/

/-- A plain raw record: date, type, symbol, quantity, price per unit. -/
def mkRawTxn (d : SDate) (t : TxnType) (sym : ℕ) (q p : ℚ) : RawTxn :=
  { date := some d, typ := t, symbol := sym, quantity := some q,
    pricePerUnit := some p, totalAmount := none, fees := none,
    exchangeRate := none, broker := none }

/-- Same-day scenario: buy 100 @ £10 and sell 100 @ £12 on 2024-05-01. -/
def demoSameDay : List RawTxn :=
  [ mkRawTxn ⟨2024, 5, 1⟩ .buy 1 100 10,
    mkRawTxn ⟨2024, 5, 1⟩ .sell 1 100 12 ]

/-- The normalised form of `demoSameDay`'s buy record. -/
def demoSameDayBuyTxn : Txn :=
  { idx := 0, date := ⟨2024, 5, 1⟩, typ := .buy, symbol := 1, quantity := 100,
    pricePerUnit := 10, totalAmount := none, fees := 0, exchangeRate := 1,
    broker := "Unknown", remainingQty := 100 }

/-- Annual-exemption scenario: an £8000 gain realised in 2023/24. -/
def demoExemption : List RawTxn :=
  [ mkRawTxn ⟨2023, 5, 1⟩ .buy 1 100 20,
    mkRawTxn ⟨2024, 1, 10⟩ .sell 1 100 100 ]

/-- Rate-change scenario: a £5000 same-day gain on 2024-06-01 (before
30 Oct 2024) and a £10000 same-day gain on 2024-12-01 (after it). -/
def demoRateChange : List RawTxn :=
  [ mkRawTxn ⟨2024, 6, 1⟩ .buy 1 100 10,
    mkRawTxn ⟨2024, 6, 1⟩ .sell 1 100 60,
    mkRawTxn ⟨2024, 12, 1⟩ .buy 2 100 10,
    mkRawTxn ⟨2024, 12, 1⟩ .sell 2 100 110 ]

/-- A disposal dated outside the predefined tax-year table (2016/17). -/
def demoFallbackYear : List RawTxn :=
  [ mkRawTxn ⟨2016, 5, 2⟩ .buy 1 50 10,
    mkRawTxn ⟨2016, 6, 1⟩ .sell 1 50 110 ]

/-- A fully same-day-matched disposal in 2022/23 (symbol 1: its 100-share
acquisition never touches the pool), plus a 2023/24 disposal on symbol 2 so
the 2023/24 year appears in the report. -/
def demoSameDayHistory : List RawTxn :=
  [ mkRawTxn ⟨2022, 5, 2⟩ .buy 1 100 10,
    mkRawTxn ⟨2022, 5, 2⟩ .sell 1 100 12,
    mkRawTxn ⟨2023, 5, 1⟩ .buy 2 10 5,
    mkRawTxn ⟨2024, 1, 5⟩ .sell 2 10 8 ]

/-- A buy whose `totalAmount` is negative (a raw value the normaliser lets
through), later sold from the pool. -/
def demoNegativeCost : List RawTxn :=
  [ { date := some ⟨2023, 5, 1⟩, typ := .buy, symbol := 1,
      quantity := some 10, pricePerUnit := some 5, totalAmount := some (-50),
      fees := none, exchangeRate := none, broker := none },
    mkRawTxn ⟨2023, 7, 1⟩ .sell 1 5 10 ]

/-- A direct `processDisposal` instance: 60 shares acquired same-day,
30 shares re-acquired 9 days later (B&B), disposal of 100 — 10 unmatched. -/
def demoDispBuys : List Txn :=
  [ { idx := 0, date := ⟨2024, 5, 1⟩, typ := .buy, symbol := 7, quantity := 60,
      pricePerUnit := 10, totalAmount := none, fees := 0, exchangeRate := 1,
      broker := "B", remainingQty := 60 },
    { idx := 1, date := ⟨2024, 5, 10⟩, typ := .buy, symbol := 7, quantity := 30,
      pricePerUnit := 9, totalAmount := none, fees := 0, exchangeRate := 1,
      broker := "B", remainingQty := 30 } ]

/-- The disposal transaction paired with `demoDispBuys`. -/
def demoDispSell : Txn :=
  { idx := 2, date := ⟨2024, 5, 1⟩, typ := .sell, symbol := 7, quantity := 100,
    pricePerUnit := 12, totalAmount := none, fees := 0, exchangeRate := 1,
    broker := "B", remainingQty := 100 }

/-- Raw records for C8: a good buy, an unparseable date, a zero quantity,
and a good sell. -/
def demoBadRecords : List RawTxn :=
  [ mkRawTxn ⟨2023, 5, 1⟩ .buy 1 100 20,
    { date := none, typ := .buy, symbol := 1, quantity := some 5,
      pricePerUnit := some 1, totalAmount := none, fees := none,
      exchangeRate := none, broker := none },
    { date := some ⟨2023, 6, 1⟩, typ := .buy, symbol := 1, quantity := some 0,
      pricePerUnit := some 1, totalAmount := none, fees := none,
      exchangeRate := none, broker := none },
    mkRawTxn ⟨2024, 1, 10⟩ .sell 1 100 100 ]

/-! ## Arithmetic facts about `round2dp` -/

theorem isPenny_round2dp (q : ℚ) : IsPenny (round2dp q) :=
  ⟨⌊q * 100 + 1 / 2⌋, rfl⟩

theorem isPenny_zero : IsPenny 0 := ⟨0, by norm_num⟩

theorem IsPenny.add {a b : ℚ} (ha : IsPenny a) (hb : IsPenny b) :
    IsPenny (a + b) := by
  obtain ⟨j, rfl⟩ := ha
  obtain ⟨k, rfl⟩ := hb
  exact ⟨j + k, by push_cast; ring⟩

theorem IsPenny.sub {a b : ℚ} (ha : IsPenny a) (hb : IsPenny b) :
    IsPenny (a - b) := by
  obtain ⟨j, rfl⟩ := ha
  obtain ⟨k, rfl⟩ := hb
  exact ⟨j - k, by push_cast; ring⟩

theorem IsPenny.abs {a : ℚ} (ha : IsPenny a) : IsPenny |a| := by
  obtain ⟨j, rfl⟩ := ha
  exact ⟨|j|, by rw [abs_div]; push_cast; norm_num⟩

theorem IsPenny.max_zero {a : ℚ} (ha : IsPenny a) : IsPenny (max 0 a) := by
  rcases le_total a 0 with h | h
  · rw [max_eq_left h]; exact isPenny_zero
  · rw [max_eq_right h]; exact ha

theorem isPenny_intCast (k : ℤ) : IsPenny (k : ℚ) :=
  ⟨k * 100, by push_cast; ring⟩

/-- Rounding a penny value is the identity. -/
theorem round2dp_penny {q : ℚ} (h : IsPenny q) : round2dp q = q := by
  obtain ⟨k, rfl⟩ := h
  unfold round2dp
  have h1 : (k : ℚ) / 100 * 100 + 1 / 2 = (k : ℚ) + 1 / 2 := by ring
  rw [h1, Int.floor_int_add]
  norm_num

/-- `round2dp` is monotone. -/
theorem round2dp_mono {a b : ℚ} (h : a ≤ b) : round2dp a ≤ round2dp b := by
  unfold round2dp
  have : (⌊a * 100 + 1 / 2⌋ : ℤ) ≤ ⌊b * 100 + 1 / 2⌋ := by
    apply Int.floor_le_floor
    have : a * 100 ≤ b * 100 := by nlinarith
    linarith
  have h2 : ((⌊a * 100 + 1 / 2⌋ : ℤ) : ℚ) ≤ ((⌊b * 100 + 1 / 2⌋ : ℤ) : ℚ) := by
    exact_mod_cast this
  linarith

theorem round2dp_zero : round2dp 0 = 0 := round2dp_penny isPenny_zero

theorem round2dp_nonneg {a : ℚ} (h : 0 ≤ a) : 0 ≤ round2dp a := by
  have := round2dp_mono h
  rwa [round2dp_zero] at this

/-- Rounding a value that is at most a penny value stays at most it
(`Math.round` can add at most half a penny, and both sides are whole
pennies). -/
theorem round2dp_le_of_penny {x c : ℚ} (hx : x ≤ c) (hc : IsPenny c) :
    round2dp x ≤ c := by
  calc round2dp x ≤ round2dp c := round2dp_mono hx
  _ = c := round2dp_penny hc

/-! ## Facts about the normaliser -/

theorem withIdx_get {α : Type} :
    ∀ {l : List α} {n k : ℕ} {a : α}, l.get? k = some a →
      (n + k, a) ∈ withIdx n l := by
  intro l
  induction l with
  | nil => intro n k a h; simp at h
  | cons x xs ih =>
    intro n k a h
    cases k with
    | zero =>
      simp at h
      subst h
      simp [withIdx]
    | succ k' =>
      simp only [List.get?] at h
      have := ih (n := n + 1) (k := k') (a := a) h
      simp only [withIdx, List.mem_cons]
      right
      have harith : n + (k' + 1) = n + 1 + k' := by omega
      rw [harith]
      exact this

theorem mem_withIdx {α : Type} :
    ∀ {l : List α} {n : ℕ} {p : ℕ × α}, p ∈ withIdx n l →
      ∃ k, p.1 = n + k ∧ l.get? k = some p.2 := by
  intro l
  induction l with
  | nil => intro n p h; simp [withIdx] at h
  | cons x xs ih =>
    intro n p h
    simp only [withIdx, List.mem_cons] at h
    rcases h with h | h
    · exact ⟨0, by simp [h], by simp [h]⟩
    · obtain ⟨k, hk1, hk2⟩ := ih h
      exact ⟨k + 1, by omega, by simpa using hk2⟩

theorem jsOr_ne_zero (v : Option ℚ) : jsOr v 1 ≠ 0 := by
  unfold jsOr
  match v with
  | none => norm_num
  | some x =>
    by_cases h : x = 0 <;> simp [h]

theorem jsOr_falsy (v : Option ℚ) (h : v = none ∨ v = some 0) :
    jsOr v 1 = 1 := by
  rcases h with h | h <;> simp [h, jsOr]

/-- Where a normalised transaction comes from. -/
theorem mem_normalizeTransactions {l : List RawTxn} {t : Txn} :
    t ∈ normalizeTransactions l ↔
      (∃ p ∈ withIdx 0 l, normalizeOne p = some t) ∧ 0 < t.quantity := by
  unfold normalizeTransactions
  rw [List.mem_insertionSort, List.mem_filter, List.mem_filterMap]
  simp [decide_eq_true_iff]

/-- Field-level description of `normalizeOne`. -/
theorem normalizeOne_eq_some {p : ℕ × RawTxn} {t : Txn}
    (h : normalizeOne p = some t) :
    t.idx = p.1 ∧ p.2.date = some t.date ∧
      t.quantity = |jsOr p.2.quantity 0| ∧
      t.exchangeRate = jsOr p.2.exchangeRate 1 := by
  unfold normalizeOne at h
  match hd : p.2.date with
  | none => rw [hd] at h; simp at h
  | some d =>
    rw [hd] at h
    simp only [Option.some.injEq] at h
    subst h
    simp [hd]

/-! ## Claim C10 — the FX rate is never zero after normalisation -/

/-- C10: the normaliser coerces a missing, zero, or non-numeric
`exchangeRate` to 1 (`parseFloat(t.exchangeRate) || 1`), so the
`exchangeRate` of every record surviving normalisation is non-zero and the
divisions in `calculateCost` / `calculateProceeds` are never divisions by
zero. -/
theorem normalized_exchangeRate_ne_zero :
    (∀ v : Option ℚ, v = none ∨ v = some 0 → jsOr v 1 = 1) ∧
    ∀ (l : List RawTxn) (t : Txn), t ∈ normalizeTransactions l →
      t.exchangeRate ≠ 0 := by
  refine ⟨jsOr_falsy, fun l t ht => ?_⟩
  obtain ⟨⟨p, _, hp⟩, _⟩ := mem_normalizeTransactions.mp ht
  obtain ⟨-, -, -, hrate⟩ := normalizeOne_eq_some hp
  rw [hrate]
  exact jsOr_ne_zero _

/-- Witness for C10 at the same-day demo input. -/
theorem normalized_exchangeRate_ne_zero_witness :
    demoSameDayBuyTxn ∈ normalizeTransactions demoSameDay ∧
      demoSameDayBuyTxn.exchangeRate ≠ 0 := by
  constructor
  · norm_num [demoSameDay, demoSameDayBuyTxn, mkRawTxn, normalizeTransactions,
      normalizeOne, withIdx, jsOr, jsStrOr, dateLe, SDate.toDays,
      List.insertionSort, List.orderedInsert]
  · exact normalized_exchangeRate_ne_zero.2 demoSameDay demoSameDayBuyTxn
      (by norm_num [demoSameDay, demoSameDayBuyTxn, mkRawTxn,
        normalizeTransactions, normalizeOne, withIdx, jsOr, jsStrOr, dateLe,
        SDate.toDays, List.insertionSort, List.orderedInsert])

/-! ## Claim C8 — bad records are dropped without aborting -/

/-- C8: a raw record whose date fails to parse or whose normalised quantity
is non-positive contributes nothing to the matched stream (no transaction
with its index survives normalisation), while every record with a parseable
date and positive quantity still gets an entry; and the whole computation
consumes the input only through the normalised stream, so a dropped record
contributes no acquisition, no disposal and no pool change, and processing
of the remaining records is not aborted. -/
theorem bad_records_dropped (l : List RawTxn) (i : ℕ) (r : RawTxn)
    (hget : l.get? i = some r)
    (hbad : r.date = none ∨ |jsOr r.quantity 0| ≤ 0) :
    (∀ t ∈ normalizeTransactions l, t.idx ≠ i) ∧
    (∀ (j : ℕ) (r' : RawTxn), l.get? j = some r' →
      (∃ d, r'.date = some d) → 0 < |jsOr r'.quantity 0| →
      ∃ t ∈ normalizeTransactions l, t.idx = j) ∧
    ∀ now, calculateCGT now l =
      generateReport now (runSymbols (groupByKey (fun t : Txn => t.symbol)
        (normalizeTransactions l))) := by
  refine ⟨fun t ht hidx => ?_, fun j r' hj ⟨d, hd⟩ hq => ?_, fun _ => rfl⟩
  · obtain ⟨⟨p, hpmem, hp⟩, hqt⟩ := mem_normalizeTransactions.mp ht
    obtain ⟨hidx', hdate, hqty, -⟩ := normalizeOne_eq_some hp
    obtain ⟨k, hk1, hk2⟩ := mem_withIdx hpmem
    have hki : k = i := by omega
    subst hki
    rw [hget] at hk2
    cases hk2
    rcases hbad with hb | hb
    · rw [hb] at hdate; cases hdate
    · rw [hqty] at hqt; linarith
  · have hmem : (0 + j, r') ∈ withIdx 0 l := withIdx_get hj
    match ht : normalizeOne (0 + j, r') with
    | none => unfold normalizeOne at ht; rw [hd] at ht; cases ht
    | some t =>
      obtain ⟨hidx, -, hqty, -⟩ := normalizeOne_eq_some ht
      refine ⟨t, mem_normalizeTransactions.mpr ⟨⟨(0 + j, r'), hmem, ht⟩, ?_⟩,
        by simpa using hidx⟩
      rw [hqty]; exact hq

/-- Witness for C8: in `demoBadRecords` the unparseable-date record (index
1) and the zero-quantity record (index 2) yield no stream entry, while the
good records at indices 0 and 3 still do. -/
theorem bad_records_dropped_witness :
    (∃ r, demoBadRecords.get? 1 = some r ∧ r.date = none) ∧
    (∀ t ∈ normalizeTransactions demoBadRecords, t.idx ≠ 1) ∧
    ∃ t ∈ normalizeTransactions demoBadRecords, t.idx = 0 := by
  refine ⟨⟨_, rfl, rfl⟩, ?_, ?_⟩
  · exact (bad_records_dropped demoBadRecords 1 _ rfl (Or.inl rfl)).1
  · exact (bad_records_dropped demoBadRecords 1 _ rfl (Or.inl rfl)).2.1 0
      (mkRawTxn ⟨2023, 5, 1⟩ .buy 1 100 20) rfl
      ⟨⟨2023, 5, 1⟩, rfl⟩ (by norm_num [mkRawTxn, jsOr])

/-! ## Claim C7 — re-running the engine

The engine is a pure function of the transaction list *except* for the
report's `generatedAt` field (`new Date().toISOString()`) and the id strings
(`` `txn-${index}-${Date.now()}` ``, abstracted to the index here), which
embed the invocation time, so two runs are not byte-identical. -/

/-- Counterexample to C7 as stated: two runs of the engine on the same
(empty) transaction list at different times produce different report
objects — `generatedAt` differs. -/
theorem rerun_not_byte_identical :
    calculateCGT 0 [] ≠ calculateCGT 1 [] := by
  intro h
  have h2 := congrArg Report.generatedAt h
  simp only [calculateCGT, calculate, generateReport] at h2
  cases h2

/-- C7 amended: two runs from fresh calculators agree on everything except
the embedded timestamps — overwriting `generatedAt` makes the reports
equal.  (In the source the `Date.now()` suffix inside the id strings also
differs; ids are modelled timestamp-free by the record index.) -/
theorem rerun_identical_up_to_timestamp (now₁ now₂ : ℕ)
    (transactions : List RawTxn) :
    { calculateCGT now₁ transactions with generatedAt := 0 } =
      { calculateCGT now₂ transactions with generatedAt := 0 } := rfl

/-- Witness for the amended C7 at the same-day demo input and two distinct
timestamps. -/
theorem rerun_identical_up_to_timestamp_witness :
    { calculateCGT 0 demoSameDay with generatedAt := 0 } =
      { calculateCGT 1 demoSameDay with generatedAt := 0 } :=
  rerun_identical_up_to_timestamp 0 1 demoSameDay

/-! ## The grouping fold -/

section Grouping

variable {κ α : Type} [DecidableEq κ]

theorem addToGroup_of_not_mem {k : κ} {v : α} :
    ∀ {acc : List (κ × List α)}, k ∉ acc.map Prod.fst →
      addToGroup k v acc = acc ++ [(k, [v])] := by
  intro acc
  induction acc with
  | nil => intro; rfl
  | cons kv rest ih =>
    intro h
    simp only [List.map_cons, List.mem_cons] at h
    push_neg at h
    simp only [addToGroup]
    rw [if_neg (fun hh => h.1 hh.symm), ih h.2]
    rfl

theorem addToGroup_of_mem {k : κ} {v : α} :
    ∀ {acc : List (κ × List α)}, (acc.map Prod.fst).Nodup →
      k ∈ acc.map Prod.fst →
      addToGroup k v acc =
        acc.map fun kv => if kv.1 = k then (kv.1, kv.2 ++ [v]) else kv := by
  intro acc
  induction acc with
  | nil => intro _ h; simp at h
  | cons kv rest ih =>
    intro hnd h
    simp only [List.map_cons, List.nodup_cons] at hnd
    simp only [List.map_cons, List.mem_cons] at h
    simp only [addToGroup, List.map_cons]
    rcases h with h | h
    · rw [if_pos h.symm, if_pos h.symm]
      congr 1
      subst h
      have hid : ∀ kv' ∈ rest,
          (if kv'.1 = kv.1 then (kv'.1, kv'.2 ++ [v]) else kv') = kv' := by
        intro kv' hkv'
        rw [if_neg]
        intro hcontra
        exact hnd.1 (hcontra ▸ List.mem_map_of_mem Prod.fst hkv')
      have h2 : (rest.map fun kv' =>
          if kv'.1 = kv.1 then (kv'.1, kv'.2 ++ [v]) else kv') = rest := by
        rw [List.map_congr_left hid]; simp
      exact h2.symm
    · have hne : kv.1 ≠ k := by
        intro hcontra
        exact hnd.1 (hcontra ▸ h)
      rw [if_neg hne, if_neg hne, ih hnd.2 h]

/-- The grouping invariant: unique keys, each group is the filter of the
processed prefix, and every processed element's key is present. -/
def GroupInv (key : α → κ) (done : List α) (acc : List (κ × List α)) : Prop :=
  (acc.map Prod.fst).Nodup ∧
  (∀ kv ∈ acc, kv.2 = done.filter fun v => decide (key v = kv.1)) ∧
  ∀ x ∈ done, key x ∈ acc.map Prod.fst

theorem groupInv_step {key : α → κ} {done : List α}
    {acc : List (κ × List α)} {v : α} (h : GroupInv key done acc) :
    GroupInv key (done ++ [v]) (addToGroup (key v) v acc) := by
  obtain ⟨hnd, hflt, hdone⟩ := h
  by_cases hmem : key v ∈ acc.map Prod.fst
  · rw [addToGroup_of_mem hnd hmem]
    refine ⟨?_, ?_, ?_⟩
    · have : (acc.map fun kv =>
          if kv.1 = key v then (kv.1, kv.2 ++ [v]) else kv).map Prod.fst =
          acc.map Prod.fst := by
        rw [List.map_map]
        apply List.map_congr_left
        intro kv _
        by_cases hk : kv.1 = key v <;> simp [hk]
      rw [this]; exact hnd
    · intro kv hkv
      obtain ⟨kv₀, hkv₀, hmap⟩ := List.mem_map.mp hkv
      by_cases hk : kv₀.1 = key v
      · rw [if_pos hk] at hmap
        subst hmap
        simp only [List.filter_append, hflt kv₀ hkv₀]
        congr 1
        simp [hk]
      · rw [if_neg hk] at hmap
        subst hmap
        rw [hflt kv₀ hkv₀, List.filter_append]
        have hne' : ¬(key v = kv₀.1) := fun hh => hk hh.symm
        have : (List.filter (fun v' => decide (key v' = kv₀.1)) [v]) = [] := by
          simp [List.filter_singleton, hne']
        rw [this, List.append_nil]
    · intro x hx
      have heq : (acc.map fun kv =>
          if kv.1 = key v then (kv.1, kv.2 ++ [v]) else kv).map Prod.fst =
          acc.map Prod.fst := by
        rw [List.map_map]
        apply List.map_congr_left
        intro kv _
        by_cases hk : kv.1 = key v <;> simp [hk]
      rw [heq]
      rcases List.mem_append.mp hx with hx | hx
      · exact hdone x hx
      · simp only [List.mem_singleton] at hx
        subst hx
        exact hmem
  · rw [addToGroup_of_not_mem hmem]
    refine ⟨?_, ?_, ?_⟩
    · rw [List.map_append]
      simp only [List.map_cons, List.map_nil]
      rw [List.nodup_append]
      exact ⟨hnd, List.nodup_singleton _, by
        intro a ha hb
        simp only [List.mem_singleton] at hb
        subst hb
        exact hmem ha⟩
    · intro kv hkv
      rcases List.mem_append.mp hkv with hkv | hkv
      · rw [hflt kv hkv, List.filter_append]
        have hne : kv.1 ≠ key v := by
          intro hcontra
          exact hmem (hcontra ▸ List.mem_map_of_mem Prod.fst hkv)
        have hne' : ¬(key v = kv.1) := fun hh => hne hh.symm
        have : (List.filter (fun v' => decide (key v' = kv.1)) [v]) = [] := by
          simp [List.filter_singleton, hne']
        rw [this, List.append_nil]
      · simp only [List.mem_singleton] at hkv
        subst hkv
        simp only [List.filter_append]
        have h1 : (done.filter fun v' => decide (key v' = key v)) = [] := by
          apply List.filter_eq_nil_iff.mpr
          intro a ha
          simp only [decide_eq_true_eq]
          intro hcontra
          exact hmem (hcontra ▸ hdone a ha)
        rw [h1]
        simp [List.filter_singleton]
    · intro x hx
      rw [List.map_append]
      simp only [List.map_cons, List.map_nil]
      rcases List.mem_append.mp hx with hx | hx
      · exact List.mem_append_left _ (hdone x hx)
      · simp only [List.mem_singleton] at hx
        subst hx
        exact List.mem_append_right _ (by simp)

theorem groupByKey_go {key : α → κ} :
    ∀ (l done : List α) (acc : List (κ × List α)), GroupInv key done acc →
      GroupInv key (done ++ l)
        (l.foldl (fun acc v => addToGroup (key v) v acc) acc) := by
  intro l
  induction l with
  | nil => intro done acc h; simpa using h
  | cons v rest ih =>
    intro done acc h
    have := ih (done ++ [v]) _ (groupInv_step h)
    simpa using this

/-- Each group of `groupByKey` is exactly the filter of the input list on
its key (in input order). -/
theorem groupByKey_spec {key : α → κ} {l : List α} {kv : κ × List α}
    (h : kv ∈ groupByKey key l) :
    kv.2 = l.filter fun v => decide (key v = kv.1) := by
  have hinv : GroupInv key [] ([] : List (κ × List α)) := by
    refine ⟨by simp, by simp, by simp⟩
  have := (groupByKey_go l [] [] hinv).2.1 kv (by simpa [groupByKey] using h)
  simpa using this

end Grouping

/-! ## Disposal records carry 2dp-rounded money -/

theorem processDisposal_disposal_penny (pool : Pool) (symbol : ℕ)
    (disposal : Txn) (buys : List Txn) :
    IsPenny (processDisposal pool symbol disposal buys).disposal.gain ∧
      IsPenny (processDisposal pool symbol disposal buys).disposal.cost ∧
      IsPenny (processDisposal pool symbol disposal buys).disposal.proceeds :=
  ⟨isPenny_round2dp _, isPenny_round2dp _, isPenny_round2dp _⟩

theorem mem_processSells_penny (symbol : ℕ) :
    ∀ (sells : List Txn) (pool : Pool) (buys : List Txn),
      ∀ d ∈ (processSells symbol pool buys sells).disposals,
        IsPenny d.gain ∧ IsPenny d.cost ∧ IsPenny d.proceeds := by
  intro sells
  induction sells with
  | nil => intro pool buys d hd; simp [processSells] at hd
  | cons s rest ih =>
    intro pool buys d hd
    simp only [processSells, List.mem_cons] at hd
    rcases hd with hd | hd
    · subst hd
      exact processDisposal_disposal_penny pool symbol s buys
    · exact ih _ _ d hd

theorem mem_runSymbols_penny :
    ∀ (groups : List (ℕ × List Txn)),
      ∀ d ∈ (runSymbols groups).disposals,
        IsPenny d.gain ∧ IsPenny d.cost ∧ IsPenny d.proceeds := by
  intro groups
  induction groups with
  | nil => intro d hd; simp [runSymbols] at hd
  | cons g rest ih =>
    intro d hd
    simp only [runSymbols, List.mem_append, processSymbol] at hd
    rcases hd with hd | hd
    · exact mem_processSells_penny g.1 _ _ _ d hd
    · exact ih d hd

/-- Every disposal recorded in a report has 2dp gain, cost and proceeds. -/
theorem report_disposal_penny (now : ℕ) (raw : List RawTxn) :
    ∀ d ∈ (calculateCGT now raw).allDisposals,
      IsPenny d.gain ∧ IsPenny d.cost ∧ IsPenny d.proceeds := by
  intro d hd
  exact mem_runSymbols_penny _ d hd

/-! ## Where a tax-year summary comes from -/

/-- Every summary of the report is `yearSummary` applied to its year label
and to the sub-list of the report's disposals with that label. -/
theorem mem_report_taxYears {now : ℕ} {raw : List RawTxn} {s : YearSummary}
    (hs : s ∈ (calculateCGT now raw).taxYears) :
    s = yearSummary
        (calculateSection104Snapshots (calculateCGT now raw).acquisitions
          (calculateCGT now raw).allDisposals)
        s.taxYear (lookupConfig s.taxYear)
        ((calculateCGT now raw).allDisposals.filter fun d =>
          decide (d.taxYear = s.taxYear)) := by
  have hs' : s ∈ ((groupByKey (fun d : Disposal => d.taxYear)
      (runSymbols (groupByKey (fun t : Txn => t.symbol)
        (normalizeTransactions raw))).disposals).map fun g =>
      yearSummary (calculateSection104Snapshots
        (runSymbols (groupByKey (fun t : Txn => t.symbol)
          (normalizeTransactions raw))).acquisitions
        (runSymbols (groupByKey (fun t : Txn => t.symbol)
          (normalizeTransactions raw))).disposals) g.1 (lookupConfig g.1)
        g.2) := by
    rw [← List.mem_insertionSort (r := yearDesc)]
    exact hs
  obtain ⟨g, hg, hmap⟩ := List.mem_map.mp hs'
  subst hmap
  show yearSummary
      (calculateSection104Snapshots
        (runSymbols (groupByKey (fun t : Txn => t.symbol)
          (normalizeTransactions raw))).acquisitions
        (runSymbols (groupByKey (fun t : Txn => t.symbol)
          (normalizeTransactions raw))).disposals) g.1 (lookupConfig g.1)
        g.2 =
    yearSummary
      (calculateSection104Snapshots
        (runSymbols (groupByKey (fun t : Txn => t.symbol)
          (normalizeTransactions raw))).acquisitions
        (runSymbols (groupByKey (fun t : Txn => t.symbol)
          (normalizeTransactions raw))).disposals) g.1 (lookupConfig g.1)
      ((runSymbols (groupByKey (fun t : Txn => t.symbol)
          (normalizeTransactions raw))).disposals.filter fun d =>
        decide (d.taxYear = g.1))
  rw [← groupByKey_spec hg]

/-! ## The gains/losses accumulations -/

theorem sumGains_go (l : List Disposal) :
    ∀ acc : ℚ,
      l.foldl (fun acc d => if 0 ≤ d.gain then acc + d.gain else acc) acc =
        acc + sumGains l := by
  induction l with
  | nil => intro acc; simp [sumGains]
  | cons d rest ih =>
    intro acc
    simp only [sumGains, List.foldl_cons] at *
    by_cases h : 0 ≤ d.gain
    · rw [if_pos h, if_pos h, ih, ih (0 + d.gain)]; ring
    · rw [if_neg h, if_neg h, ih]

theorem sumLosses_go (l : List Disposal) :
    ∀ acc : ℚ,
      l.foldl (fun acc d => if 0 ≤ d.gain then acc else acc + |d.gain|) acc =
        acc + sumLosses l := by
  induction l with
  | nil => intro acc; simp [sumLosses]
  | cons d rest ih =>
    intro acc
    simp only [sumLosses, List.foldl_cons] at *
    by_cases h : 0 ≤ d.gain
    · rw [if_pos h, if_pos h, ih]
    · rw [if_neg h, if_neg h, ih, ih (0 + |d.gain|)]; ring

/-- `totalGains` is the sum of the non-negative gains. -/
theorem sumGains_eq_filter_sum (l : List Disposal) :
    sumGains l =
      ((l.filter fun d => decide (0 ≤ d.gain)).map fun d => d.gain).sum := by
  induction l with
  | nil => simp [sumGains]
  | cons d rest ih =>
    have h1 : sumGains (d :: rest) =
        (if 0 ≤ d.gain then (0 : ℚ) + d.gain else 0) + sumGains rest := by
      unfold sumGains
      rw [List.foldl_cons, sumGains_go]
      rfl
    rw [h1, List.filter_cons]
    by_cases h : 0 ≤ d.gain
    · rw [if_pos h, if_pos (by simpa using h), List.map_cons, List.sum_cons,
        ih]
      ring
    · rw [if_neg h, if_neg (by simpa using h), ih]
      ring

/-- `totalLosses` is the sum of the absolute values of the negative gains. -/
theorem sumLosses_eq_filter_sum (l : List Disposal) :
    sumLosses l =
      ((l.filter fun d => decide (d.gain < 0)).map fun d => |d.gain|).sum := by
  induction l with
  | nil => simp [sumLosses]
  | cons d rest ih =>
    have h1 : sumLosses (d :: rest) =
        (if 0 ≤ d.gain then (0 : ℚ) else 0 + |d.gain|) + sumLosses rest := by
      unfold sumLosses
      rw [List.foldl_cons, sumLosses_go]
      rfl
    rw [h1, List.filter_cons]
    by_cases h : 0 ≤ d.gain
    · have h2 : ¬d.gain < 0 := not_lt.mpr h
      rw [if_pos h, if_neg (by simpa using h2), ih]
      ring
    · have h2 : d.gain < 0 := not_le.mp h
      rw [if_neg h, if_pos (by simpa using h2), List.map_cons, List.sum_cons,
        ih]
      ring

theorem sumGains_penny {l : List Disposal} (h : ∀ d ∈ l, IsPenny d.gain) :
    IsPenny (sumGains l) := by
  rw [sumGains_eq_filter_sum]
  induction l with
  | nil => simpa using isPenny_zero
  | cons d rest ih =>
    rw [List.filter_cons]
    by_cases hd : 0 ≤ d.gain
    · rw [if_pos (by simpa using hd), List.map_cons, List.sum_cons]
      exact (h d (by simp)).add (ih fun d' hd' => h d' (by simp [hd']))
    · rw [if_neg (by simpa using hd)]
      exact ih fun d' hd' => h d' (by simp [hd'])

theorem sumLosses_penny {l : List Disposal} (h : ∀ d ∈ l, IsPenny d.gain) :
    IsPenny (sumLosses l) := by
  rw [sumLosses_eq_filter_sum]
  induction l with
  | nil => simpa using isPenny_zero
  | cons d rest ih =>
    rw [List.filter_cons]
    by_cases hd : d.gain < 0
    · rw [if_pos (by simpa using hd), List.map_cons, List.sum_cons]
      exact (h d (by simp)).abs.add (ih fun d' hd' => h d' (by simp [hd']))
    · rw [if_neg (by simpa using hd)]
      exact ih fun d' hd' => h d' (by simp [hd'])

theorem sumGains_nonneg (l : List Disposal) : 0 ≤ sumGains l := by
  rw [sumGains_eq_filter_sum]
  apply List.sum_nonneg
  intro x hx
  obtain ⟨d, hd, rfl⟩ := List.mem_map.mp hx
  have := (List.mem_filter.mp hd).2
  exact of_decide_eq_true this

theorem sumLosses_nonneg (l : List Disposal) : 0 ≤ sumLosses l := by
  rw [sumLosses_eq_filter_sum]
  apply List.sum_nonneg
  intro x hx
  obtain ⟨d, _, rfl⟩ := List.mem_map.mp hx
  exact abs_nonneg _

/-! ## The annual exemption values -/

theorem mem_TAX_YEARS_exemption_penny :
    ∀ e ∈ TAX_YEARS, IsPenny e.2.annualExemption := by
  intro e he
  simp [TAX_YEARS] at he
  rcases he with h | h | h | h | h | h | h | h | h
  · subst h; exact ⟨300000, by norm_num⟩
  · subst h; exact ⟨300000, by norm_num⟩
  · subst h; exact ⟨600000, by norm_num⟩
  · subst h; exact ⟨1230000, by norm_num⟩
  · subst h; exact ⟨1230000, by norm_num⟩
  · subst h; exact ⟨1230000, by norm_num⟩
  · subst h; exact ⟨1200000, by norm_num⟩
  · subst h; exact ⟨1170000, by norm_num⟩
  · subst h; exact ⟨1130000, by norm_num⟩

theorem lookupConfig_mem {k : ℤ} {c : TaxYearConfig}
    (h : lookupConfig k = some c) : (k, c) ∈ TAX_YEARS := by
  unfold lookupConfig at h
  match hf : TAX_YEARS.find? fun e => decide (e.1 = k) with
  | none => rw [hf] at h; cases h
  | some e =>
    rw [hf] at h
    have h2 : e.2 = c := Option.some.inj h
    have hmem := List.mem_of_find?_eq_some hf
    have hpred := List.find?_some hf
    simp only [decide_eq_true_eq] at hpred
    have he : e = (k, c) := by
      rw [← hpred, ← h2]
    rwa [he] at hmem

theorem jsOr_penny {x : Option ℚ} {d : ℚ} (hx : ∀ a, x = some a → IsPenny a)
    (hd : IsPenny d) : IsPenny (jsOr x d) := by
  cases x with
  | none => exact hd
  | some a =>
    show IsPenny (if a = 0 then d else a)
    by_cases ha : a = 0
    · rw [if_pos ha]; exact hd
    · rw [if_neg ha]; exact hx a rfl

theorem exemption_penny (k : ℤ) :
    IsPenny (jsOr ((lookupConfig k).map fun c => c.annualExemption) 3000) := by
  apply jsOr_penny
  · intro a ha
    cases hc : lookupConfig k with
    | none => rw [hc] at ha; cases ha
    | some c =>
      rw [hc] at ha
      have ha' : c.annualExemption = a := Option.some.inj ha
      rw [← ha']
      exact mem_TAX_YEARS_exemption_penny _ (lookupConfig_mem hc)
  · exact ⟨300000, by norm_num⟩

/-! ## The per-year summary formulas -/

/-- The reported totals of one tax year, in terms of the year's disposal
list (requires the recorded gains to be 2dp values, which they always are). -/
theorem yearSummary_totals (snaps : List (ℤ × (List PoolRow × List PoolRow)))
    (k : ℤ) (cfg : Option TaxYearConfig) (ds : List Disposal)
    (hpenny : ∀ d ∈ ds, IsPenny d.gain)
    (hcfg : IsPenny (jsOr (cfg.map fun c => c.annualExemption) 3000)) :
    (yearSummary snaps k cfg ds).totalGains = sumGains ds ∧
    (yearSummary snaps k cfg ds).totalLosses = sumLosses ds ∧
    (yearSummary snaps k cfg ds).netGain = sumGains ds - sumLosses ds ∧
    (yearSummary snaps k cfg ds).annualExemption =
      jsOr (cfg.map fun c => c.annualExemption) 3000 ∧
    (yearSummary snaps k cfg ds).taxableGain =
      max 0 (sumGains ds - sumLosses ds -
        jsOr (cfg.map fun c => c.annualExemption) 3000) ∧
    (yearSummary snaps k cfg ds).disposals = ds := by
  have hG : IsPenny (sumGains ds) := sumGains_penny hpenny
  have hL : IsPenny (sumLosses ds) := sumLosses_penny hpenny
  have hE : IsPenny (jsOr (cfg.map fun c => c.annualExemption) 3000) := hcfg
  have hnet : round2dp (sumGains ds - sumLosses ds) =
      sumGains ds - sumLosses ds := round2dp_penny (hG.sub hL)
  refine ⟨?_, ?_, ?_, rfl, ?_, rfl⟩
  · show round2dp (sumGains ds) = sumGains ds
    exact round2dp_penny hG
  · show round2dp (sumLosses ds) = sumLosses ds
    exact round2dp_penny hL
  · show round2dp (round2dp (sumGains ds - sumLosses ds)) = _
    rw [hnet, hnet]
  · show round2dp (max 0 (round2dp (sumGains ds - sumLosses ds) - _)) = _
    rw [hnet]
    exact round2dp_penny ((hG.sub hL).sub hE).max_zero

/-! ## Claim C4 — per-year totals and the annual exemption -/

/-- C4: for every tax-year summary of a report, `totalGains` is the sum of
the year's non-negative disposal gains, `totalLosses` the sum of the
absolute negative gains, `netGain = totalGains - totalLosses`, and
`taxableGain = max 0 (netGain - annualExemption)`. -/
theorem tax_year_totals (now : ℕ) (raw : List RawTxn) (s : YearSummary)
    (hs : s ∈ (calculateCGT now raw).taxYears) :
    s.totalGains =
      ((s.disposals.filter fun d => decide (0 ≤ d.gain)).map
        fun d => d.gain).sum ∧
    s.totalLosses =
      ((s.disposals.filter fun d => decide (d.gain < 0)).map
        fun d => |d.gain|).sum ∧
    s.netGain = s.totalGains - s.totalLosses ∧
    s.taxableGain = max 0 (s.netGain - s.annualExemption) := by
  have hsy := mem_report_taxYears hs
  have hpenny : ∀ d ∈ (calculateCGT now raw).allDisposals.filter
      (fun d => decide (d.taxYear = s.taxYear)), IsPenny d.gain := by
    intro d hd
    exact (report_disposal_penny now raw d (List.mem_of_mem_filter hd)).1
  obtain ⟨hG, hL, hN, hE, hT, hD⟩ := yearSummary_totals _ s.taxYear _ _ hpenny
    (exemption_penny s.taxYear)
  rw [hsy]
  rw [hG, hL, hN, hE, hT, hD]
  refine ⟨(sumGains_eq_filter_sum _), (sumLosses_eq_filter_sum _), rfl, rfl⟩

set_option maxHeartbeats 3000000 in
/-- Witness for C4 (the spec's Scenario D): a single £8000 gain in 2023/24,
exemption £6000, yields `taxableGain = 2000`, and the exemption formula of
`tax_year_totals` holds at it. -/
theorem tax_year_totals_witness :
    ∃ s ∈ (calculateCGT 0 demoExemption).taxYears,
      s.taxYear = 2023 ∧ s.netGain = 8000 ∧ s.annualExemption = 6000 ∧
      s.taxableGain = 2000 ∧
      s.taxableGain = max 0 (s.netGain - s.annualExemption) := by
  have hmem : (calculateCGT 0 demoExemption).taxYears.headI ∈
      (calculateCGT 0 demoExemption).taxYears := by
    norm_num [demoExemption, mkRawTxn, calculateCGT, calculate,
      normalizeTransactions, normalizeOne, withIdx, jsOr, jsStrOr, groupByKey,
      addToGroup, runSymbols, processSymbol, processSells, processDisposal,
      sameDayLoop, bnbPhase, bnbLoop, s104Phase, rollInLoop, leftoverLoop,
      calculateCost, calculateProceeds, round2dp, isSameDay,
      getDaysDifference, SDate.toDays, bnbEligible, dateLe, idxDateLe,
      generateReport, yearSummary, lookupConfig, TAX_YEARS, getTaxYear,
      fallbackStartYear, sumGains, sumLosses, calculateSection104Snapshots,
      allEvents, sortedEvents, applyEvt, snapshotRows, setRemaining, jsOr2,
      List.insertionSort, List.orderedInsert, evtDateLe, rowSymbolLe,
      yearDesc, List.dedup, List.filter, List.filterMap, List.foldl,
      List.takeWhile]
  refine ⟨(calculateCGT 0 demoExemption).taxYears.headI, hmem, ?_, ?_, ?_, ?_,
    (tax_year_totals 0 demoExemption _ hmem).2.2.2⟩ <;>
    norm_num [demoExemption, mkRawTxn, calculateCGT, calculate,
      normalizeTransactions, normalizeOne, withIdx, jsOr, jsStrOr, groupByKey,
      addToGroup, runSymbols, processSymbol, processSells, processDisposal,
      sameDayLoop, bnbPhase, bnbLoop, s104Phase, rollInLoop, leftoverLoop,
      calculateCost, calculateProceeds, round2dp, isSameDay,
      getDaysDifference, SDate.toDays, bnbEligible, dateLe, idxDateLe,
      generateReport, yearSummary, lookupConfig, TAX_YEARS, getTaxYear,
      fallbackStartYear, sumGains, sumLosses, calculateSection104Snapshots,
      allEvents, sortedEvents, applyEvt, snapshotRows, setRemaining, jsOr2,
      List.insertionSort, List.orderedInsert, evtDateLe, rowSymbolLe,
      yearDesc, List.dedup, List.filter, List.filterMap, List.foldl,
      List.takeWhile]

/-! ## Claim C9 — dates outside the predefined tax-year table -/

/-- Counterexample to C9 as stated: 2016-06-01 lies outside the predefined
table, and the report's 2016/17 summary applies the *generic* default
exemption £3000 (`config?.annualExemption || 3000` with an undefined
config), not the `getTaxYear` fallback's "older" exemption £11300, which
never reaches `generateReport`. -/
theorem fallback_year_exemption_counterexample :
    (∀ e ∈ TAX_YEARS,
      ¬(e.2.startDate.toDays ≤ (SDate.mk 2016 6 1).toDays ∧
        (SDate.mk 2016 6 1).toDays ≤ e.2.endDate.toDays)) ∧
    ((calculateCGT 0 demoFallbackYear).taxYears.map fun s =>
      (s.taxYear, s.annualExemption, s.taxableGain)) = [(2016, 3000, 2000)] ∧
    (3000 : ℚ) ≠ 11300 := by
  refine ⟨by decide, ?_, by norm_num⟩
  norm_num [demoFallbackYear, mkRawTxn, calculateCGT, calculate,
    normalizeTransactions, normalizeOne, withIdx, jsOr, jsStrOr, groupByKey,
    addToGroup, runSymbols, processSymbol, processSells, processDisposal,
    sameDayLoop, bnbPhase, bnbLoop, s104Phase, rollInLoop, leftoverLoop,
    calculateCost, calculateProceeds, round2dp, isSameDay, getDaysDifference,
    SDate.toDays, bnbEligible, dateLe, idxDateLe, generateReport, yearSummary,
    lookupConfig, TAX_YEARS, getTaxYear, fallbackStartYear, sumGains,
    sumLosses, calculateSection104Snapshots, allEvents, sortedEvents,
    applyEvt, snapshotRows, setRemaining, jsOr2, List.insertionSort,
    List.orderedInsert, evtDateLe, rowSymbolLe, yearDesc, List.dedup,
    List.filter, List.filterMap, List.foldl, List.takeWhile]

/-- C9 amended: a disposal dated outside the predefined table does not fail
the computation: `getTaxYear` labels it by the April-6 rule and builds a
fallback config (exemption £11300, standard 10%/20% rates) — but the
*report* never sees that fallback config: it looks the label up in
`TAX_YEARS` only, finds nothing, and applies the generic defaults — an
annual exemption of £3000 and the standard 10%/20% share rates. -/
theorem fallback_year_report (date : SDate)
    (houtside : ∀ e ∈ TAX_YEARS,
      ¬(e.2.startDate.toDays ≤ date.toDays ∧
        date.toDays ≤ e.2.endDate.toDays)) :
    ((getTaxYear date).1 = fallbackStartYear date ∧
      (getTaxYear date).2.annualExemption = 11300 ∧
      (getTaxYear date).2.basicRateShares = 10/100 ∧
      (getTaxYear date).2.higherRateShares = 20/100) ∧
    ∀ (now : ℕ) (raw : List RawTxn) (s : YearSummary),
      s ∈ (calculateCGT now raw).taxYears → lookupConfig s.taxYear = none →
        s.annualExemption = 3000 ∧
        s.estimatedTaxBasicRate = round2dp (s.taxableGain * (10/100)) ∧
        s.estimatedTaxHigherRate = round2dp (s.taxableGain * (20/100)) := by
  constructor
  · have hfind : (TAX_YEARS.find? fun e =>
        decide (e.2.startDate.toDays ≤ date.toDays ∧
          date.toDays ≤ e.2.endDate.toDays)) = none := by
      rw [List.find?_eq_none]
      intro e he
      simpa using houtside e he
    unfold getTaxYear
    rw [hfind]
    exact ⟨rfl, rfl, rfl, rfl⟩
  · intro now raw s hs hnone
    have hsy := mem_report_taxYears hs
    have hpenny : ∀ d ∈ (calculateCGT now raw).allDisposals.filter
        (fun d => decide (d.taxYear = s.taxYear)), IsPenny d.gain := by
      intro d hd
      exact (report_disposal_penny now raw d (List.mem_of_mem_filter hd)).1
    have hG := sumGains_penny hpenny
    have hL := sumLosses_penny hpenny
    rw [hsy, hnone]
    have htax : round2dp (max 0 (round2dp
        (sumGains ((calculateCGT now raw).allDisposals.filter
          (fun d => decide (d.taxYear = s.taxYear))) -
          sumLosses ((calculateCGT now raw).allDisposals.filter
            (fun d => decide (d.taxYear = s.taxYear)))) - 3000)) =
        max 0 (round2dp
        (sumGains ((calculateCGT now raw).allDisposals.filter
          (fun d => decide (d.taxYear = s.taxYear))) -
          sumLosses ((calculateCGT now raw).allDisposals.filter
            (fun d => decide (d.taxYear = s.taxYear)))) - 3000) := by
      apply round2dp_penny
      apply IsPenny.max_zero
      exact ((isPenny_round2dp _).sub ⟨300000, by norm_num⟩)
    refine ⟨rfl, ?_, ?_⟩
    · show round2dp (max 0 (round2dp _ - jsOr none 3000) * jsOr none (10/100)) =
        round2dp (round2dp (max 0 (round2dp _ - jsOr none 3000)) * (10/100))
      rw [show jsOr none (3000 : ℚ) = 3000 from rfl,
        show jsOr none ((10 : ℚ)/100) = 10/100 from rfl, htax]
    · show round2dp (max 0 (round2dp _ - jsOr none 3000) * jsOr none (20/100)) =
        round2dp (round2dp (max 0 (round2dp _ - jsOr none 3000)) * (20/100))
      rw [show jsOr none (3000 : ℚ) = 3000 from rfl,
        show jsOr none ((20 : ℚ)/100) = 20/100 from rfl, htax]

set_option maxHeartbeats 3000000 in
/-- Witness for the amended C9 at `demoFallbackYear` (gain £5000 realised on
2016-06-01, labelled 2016/17): no failure, exemption £3000, taxable £2000,
estimated taxes £200/£400 at the standard 10%/20% rates. -/
theorem fallback_year_report_witness :
    (∀ e ∈ TAX_YEARS,
      ¬(e.2.startDate.toDays ≤ (SDate.mk 2016 6 1).toDays ∧
        (SDate.mk 2016 6 1).toDays ≤ e.2.endDate.toDays)) ∧
    (getTaxYear ⟨2016, 6, 1⟩).1 = 2016 ∧
    ((calculateCGT 0 demoFallbackYear).taxYears.headI ∈
      (calculateCGT 0 demoFallbackYear).taxYears) ∧
    (calculateCGT 0 demoFallbackYear).taxYears.headI.annualExemption = 3000 ∧
    (calculateCGT 0 demoFallbackYear).taxYears.headI.estimatedTaxBasicRate =
      round2dp ((calculateCGT 0 demoFallbackYear).taxYears.headI.taxableGain *
        (10/100)) := by
  have houtside : ∀ e ∈ TAX_YEARS,
      ¬(e.2.startDate.toDays ≤ (SDate.mk 2016 6 1).toDays ∧
        (SDate.mk 2016 6 1).toDays ≤ e.2.endDate.toDays) := by decide
  have hmem : (calculateCGT 0 demoFallbackYear).taxYears.headI ∈
      (calculateCGT 0 demoFallbackYear).taxYears := by
    norm_num [demoFallbackYear, mkRawTxn, calculateCGT, calculate,
      normalizeTransactions, normalizeOne, withIdx, jsOr, jsStrOr, groupByKey,
      addToGroup, runSymbols, processSymbol, processSells, processDisposal,
      sameDayLoop, bnbPhase, bnbLoop, s104Phase, rollInLoop, leftoverLoop,
      calculateCost, calculateProceeds, round2dp, isSameDay,
      getDaysDifference, SDate.toDays, bnbEligible, dateLe, idxDateLe,
      generateReport, yearSummary, lookupConfig, TAX_YEARS, getTaxYear,
      fallbackStartYear, sumGains, sumLosses, calculateSection104Snapshots,
      allEvents, sortedEvents, applyEvt, snapshotRows, setRemaining, jsOr2,
      List.insertionSort, List.orderedInsert, evtDateLe, rowSymbolLe,
      yearDesc, List.dedup, List.filter, List.filterMap, List.foldl,
      List.takeWhile]
  have hnone : lookupConfig
      (calculateCGT 0 demoFallbackYear).taxYears.headI.taxYear = none := by
    norm_num [demoFallbackYear, mkRawTxn, calculateCGT, calculate,
      normalizeTransactions, normalizeOne, withIdx, jsOr, jsStrOr, groupByKey,
      addToGroup, runSymbols, processSymbol, processSells, processDisposal,
      sameDayLoop, bnbPhase, bnbLoop, s104Phase, rollInLoop, leftoverLoop,
      calculateCost, calculateProceeds, round2dp, isSameDay,
      getDaysDifference, SDate.toDays, bnbEligible, dateLe, idxDateLe,
      generateReport, yearSummary, lookupConfig, TAX_YEARS, getTaxYear,
      fallbackStartYear, sumGains, sumLosses, calculateSection104Snapshots,
      allEvents, sortedEvents, applyEvt, snapshotRows, setRemaining, jsOr2,
      List.insertionSort, List.orderedInsert, evtDateLe, rowSymbolLe,
      yearDesc, List.dedup, List.filter, List.filterMap, List.foldl,
      List.takeWhile]
  have hmain := fallback_year_report ⟨2016, 6, 1⟩ houtside
  refine ⟨houtside, ?_, hmem, ?_, ?_⟩
  · rw [(hmain.1).1]; rfl
  · exact (hmain.2 0 demoFallbackYear _ hmem hnone).1
  · exact (hmain.2 0 demoFallbackYear _ hmem hnone).2.1

/-! ## Splitting a year at the rate-change date -/

theorem sumGains_cons (d : Disposal) (rest : List Disposal) :
    sumGains (d :: rest) =
      (if 0 ≤ d.gain then d.gain else 0) + sumGains rest := by
  unfold sumGains
  rw [List.foldl_cons, sumGains_go]
  by_cases h : 0 ≤ d.gain
  · rw [if_pos h, if_pos h]
    show 0 + d.gain + _ = d.gain + sumGains rest
    unfold sumGains
    ring
  · rw [if_neg h, if_neg h]
    show (0 : ℚ) + _ = 0 + sumGains rest
    unfold sumGains
    ring

theorem sumLosses_cons (d : Disposal) (rest : List Disposal) :
    sumLosses (d :: rest) =
      (if 0 ≤ d.gain then 0 else |d.gain|) + sumLosses rest := by
  unfold sumLosses
  rw [List.foldl_cons, sumLosses_go]
  by_cases h : 0 ≤ d.gain
  · rw [if_pos h, if_pos h]
    show (0 : ℚ) + _ = 0 + sumLosses rest
    unfold sumLosses
    ring
  · rw [if_neg h, if_neg h]
    show 0 + |d.gain| + _ = |d.gain| + sumLosses rest
    unfold sumLosses
    ring

theorem sumGains_partition (rcd : SDate) (ds : List Disposal) :
    sumGains (preSplit rcd ds) + sumGains (postSplit rcd ds) =
      sumGains ds := by
  induction ds with
  | nil => simp [preSplit, postSplit, sumGains]
  | cons d rest ih =>
    unfold preSplit postSplit at *
    rw [List.filter_cons, List.filter_cons, sumGains_cons]
    by_cases h : d.date.toDays < rcd.toDays
    · rw [if_pos (by simpa using h), if_neg (by simpa using h), sumGains_cons]
      rw [← ih]
      ring
    · rw [if_neg (by simpa using h), if_pos (by simpa using h), sumGains_cons]
      rw [← ih]
      ring

theorem split_length (rcd : SDate) (ds : List Disposal) :
    (preSplit rcd ds).length + (postSplit rcd ds).length = ds.length := by
  induction ds with
  | nil => simp [preSplit, postSplit]
  | cons d rest ih =>
    unfold preSplit postSplit at *
    rw [List.filter_cons, List.filter_cons]
    by_cases h : d.date.toDays < rcd.toDays
    · rw [if_pos (by simpa using h), if_neg (by simpa using h)]
      simp only [List.length_cons]
      omega
    · rw [if_neg (by simpa using h), if_pos (by simpa using h)]
      simp only [List.length_cons]
      omega

theorem lookupConfig_2024 :
    lookupConfig 2024 = some
      { startDate := ⟨2024, 4, 6⟩, endDate := ⟨2025, 4, 5⟩,
        annualExemption := 3000,
        rateChangeDate := some ⟨2024, 10, 30⟩,
        basicRateSharesPre := some (10/100),
        higherRateSharesPre := some (20/100),
        basicRateSharesPost := some (18/100),
        higherRateSharesPost := some (24/100),
        basicRateShares := 18/100, higherRateShares := 24/100,
        basicRateProperty := 18/100, higherRateProperty := 24/100 } := rfl

/-- The 2024/25 summary formulas: the year's disposals are split at
30 Oct 2024, gains/losses/counts are summed per side, the exemption is
allocated to the sides in proportion to their gains, and the estimated tax
figures combine each side's taxable gain with that side's own rate
(10%/20% before the change, 18%/24% after). -/
theorem yearSummary_rate_change_2024
    (snaps : List (ℤ × (List PoolRow × List PoolRow))) (ds : List Disposal)
    (hpenny : ∀ d ∈ ds, IsPenny d.gain) :
    ∃ rc, (yearSummary snaps 2024 (lookupConfig 2024) ds).rateChange =
        some rc ∧
      rc.date = ⟨2024, 10, 30⟩ ∧
      rc.preOctober.gains = sumGains (preSplit ⟨2024, 10, 30⟩ ds) ∧
      rc.preOctober.losses = sumLosses (preSplit ⟨2024, 10, 30⟩ ds) ∧
      rc.preOctober.disposalCount = (preSplit ⟨2024, 10, 30⟩ ds).length ∧
      rc.preOctober.basicRate = 10/100 ∧
      rc.preOctober.higherRate = 20/100 ∧
      rc.postOctober.gains = sumGains (postSplit ⟨2024, 10, 30⟩ ds) ∧
      rc.postOctober.losses = sumLosses (postSplit ⟨2024, 10, 30⟩ ds) ∧
      rc.postOctober.disposalCount = (postSplit ⟨2024, 10, 30⟩ ds).length ∧
      rc.postOctober.basicRate = 18/100 ∧
      rc.postOctober.higherRate = 24/100 ∧
      (yearSummary snaps 2024 (lookupConfig 2024) ds).estimatedTaxBasicRate =
        round2dp
          (claimTaxSide (sumGains (preSplit ⟨2024, 10, 30⟩ ds))
              (sumLosses (preSplit ⟨2024, 10, 30⟩ ds))
              (sumGains (preSplit ⟨2024, 10, 30⟩ ds) +
                sumGains (postSplit ⟨2024, 10, 30⟩ ds)) 3000 * (10/100) +
            claimTaxSide (sumGains (postSplit ⟨2024, 10, 30⟩ ds))
              (sumLosses (postSplit ⟨2024, 10, 30⟩ ds))
              (sumGains (preSplit ⟨2024, 10, 30⟩ ds) +
                sumGains (postSplit ⟨2024, 10, 30⟩ ds)) 3000 * (18/100)) ∧
      (yearSummary snaps 2024 (lookupConfig 2024) ds).estimatedTaxHigherRate =
        round2dp
          (claimTaxSide (sumGains (preSplit ⟨2024, 10, 30⟩ ds))
              (sumLosses (preSplit ⟨2024, 10, 30⟩ ds))
              (sumGains (preSplit ⟨2024, 10, 30⟩ ds) +
                sumGains (postSplit ⟨2024, 10, 30⟩ ds)) 3000 * (20/100) +
            claimTaxSide (sumGains (postSplit ⟨2024, 10, 30⟩ ds))
              (sumLosses (postSplit ⟨2024, 10, 30⟩ ds))
              (sumGains (preSplit ⟨2024, 10, 30⟩ ds) +
                sumGains (postSplit ⟨2024, 10, 30⟩ ds)) 3000 * (24/100)) := by
  have hpre : ∀ d ∈ preSplit ⟨2024, 10, 30⟩ ds, IsPenny d.gain :=
    fun d hd => hpenny d (List.mem_of_mem_filter hd)
  have hpost : ∀ d ∈ postSplit ⟨2024, 10, 30⟩ ds, IsPenny d.gain :=
    fun d hd => hpenny d (List.mem_of_mem_filter hd)
  refine ⟨_, rfl, rfl, ?_, ?_, rfl, ?_, ?_, ?_, ?_, rfl, ?_, ?_, ?_, ?_⟩
  · show round2dp (sumGains (preSplit ⟨2024, 10, 30⟩ ds)) = _
    exact round2dp_penny (sumGains_penny hpre)
  · show round2dp (sumLosses (preSplit ⟨2024, 10, 30⟩ ds)) = _
    exact round2dp_penny (sumLosses_penny hpre)
  · show jsOr2 (some (10/100)) (some (18/100)) (10/100) = 10/100
    norm_num [jsOr2]
  · show jsOr2 (some (20/100)) (some (24/100)) (20/100) = 20/100
    norm_num [jsOr2]
  · show round2dp (sumGains (postSplit ⟨2024, 10, 30⟩ ds)) = _
    exact round2dp_penny (sumGains_penny hpost)
  · show round2dp (sumLosses (postSplit ⟨2024, 10, 30⟩ ds)) = _
    exact round2dp_penny (sumLosses_penny hpost)
  · show jsOr2 (some (18/100)) (some (18/100)) (18/100) = 18/100
    norm_num [jsOr2]
  · show jsOr2 (some (24/100)) (some (24/100)) (24/100) = 24/100
    norm_num [jsOr2]
  · have hr1 : jsOr2 (some ((10 : ℚ)/100)) (some (18/100)) (10/100) =
        10/100 := by norm_num [jsOr2]
    have hr3 : jsOr2 (some ((18 : ℚ)/100)) (some (18/100)) (18/100) =
        18/100 := by norm_num [jsOr2]
    have hr5 : jsOr (some ((18 : ℚ)/100)) (10/100) = 18/100 := by
      norm_num [jsOr]
    have hE : jsOr (some (3000 : ℚ)) 3000 = 3000 := by norm_num [jsOr]
    simp only [yearSummary, lookupConfig_2024, Option.some_bind,
      Option.map_some', Option.getD_some, Option.isSome_some,
      eq_self_iff_true, true_and, claimTaxSide]
    rw [hr1, hr3, hr5, hE]
    show (if (0 < sumGains (preSplit ⟨2024, 10, 30⟩ ds) ∨
        0 < sumGains (postSplit ⟨2024, 10, 30⟩ ds)) then (_ : ℚ × ℚ)
      else _).1 = _
    by_cases hG : 0 < sumGains (preSplit ⟨2024, 10, 30⟩ ds) ∨
        0 < sumGains (postSplit ⟨2024, 10, 30⟩ ds)
    · rw [if_pos hG]
      simp only [preSplit, postSplit]
    · rw [if_neg hG]
      push_neg at hG
      have e1 : sumGains (preSplit ⟨2024, 10, 30⟩ ds) = 0 :=
        le_antisymm hG.1 (sumGains_nonneg _)
      have e2 : sumGains (postSplit ⟨2024, 10, 30⟩ ds) = 0 :=
        le_antisymm hG.2 (sumGains_nonneg _)
      have hds : sumGains ds = 0 := by
        rw [← sumGains_partition ⟨2024, 10, 30⟩ ds, e1, e2]; ring
      show round2dp (max 0 (round2dp (sumGains ds - sumLosses ds) - 3000) *
          (18/100)) = _
      rw [hds, e1, e2]
      have hL : round2dp (0 - sumLosses ds) ≤ 0 := by
        have h1 : (0 : ℚ) - sumLosses ds ≤ 0 := by
          have := sumLosses_nonneg ds; linarith
        have := round2dp_mono h1
        rwa [round2dp_zero] at this
      have hmax : max 0 (round2dp (0 - sumLosses ds) - 3000) = 0 :=
        max_eq_left (by linarith)
      rw [hmax]
      have hpreL := sumLosses_nonneg (preSplit (⟨2024, 10, 30⟩ : SDate) ds)
      have hpostL := sumLosses_nonneg (postSplit (⟨2024, 10, 30⟩ : SDate) ds)
      have hif : ¬((0 : ℚ) < 0 + 0) := by norm_num
      rw [if_neg hif]
      have hm1 : max 0 (0 - sumLosses (preSplit ⟨2024, 10, 30⟩ ds) - 0) = 0 :=
        max_eq_left (by linarith)
      have hm2 : max 0 (0 - sumLosses (postSplit ⟨2024, 10, 30⟩ ds) - 0) = 0 :=
        max_eq_left (by linarith)
      rw [hm1, hm2]
      norm_num
  · have hr2 : jsOr2 (some ((20 : ℚ)/100)) (some (24/100)) (20/100) =
        20/100 := by norm_num [jsOr2]
    have hr4 : jsOr2 (some ((24 : ℚ)/100)) (some (24/100)) (24/100) =
        24/100 := by norm_num [jsOr2]
    have hr6 : jsOr (some ((24 : ℚ)/100)) (20/100) = 24/100 := by
      norm_num [jsOr]
    have hE : jsOr (some (3000 : ℚ)) 3000 = 3000 := by norm_num [jsOr]
    simp only [yearSummary, lookupConfig_2024, Option.some_bind,
      Option.map_some', Option.getD_some, Option.isSome_some,
      eq_self_iff_true, true_and, claimTaxSide]
    rw [hr2, hr4, hr6, hE]
    show (if (0 < sumGains (preSplit ⟨2024, 10, 30⟩ ds) ∨
        0 < sumGains (postSplit ⟨2024, 10, 30⟩ ds)) then (_ : ℚ × ℚ)
      else _).2 = _
    by_cases hG : 0 < sumGains (preSplit ⟨2024, 10, 30⟩ ds) ∨
        0 < sumGains (postSplit ⟨2024, 10, 30⟩ ds)
    · rw [if_pos hG]
      simp only [preSplit, postSplit]
    · rw [if_neg hG]
      push_neg at hG
      have e1 : sumGains (preSplit ⟨2024, 10, 30⟩ ds) = 0 :=
        le_antisymm hG.1 (sumGains_nonneg _)
      have e2 : sumGains (postSplit ⟨2024, 10, 30⟩ ds) = 0 :=
        le_antisymm hG.2 (sumGains_nonneg _)
      have hds : sumGains ds = 0 := by
        rw [← sumGains_partition ⟨2024, 10, 30⟩ ds, e1, e2]; ring
      show round2dp (max 0 (round2dp (sumGains ds - sumLosses ds) - 3000) *
          (24/100)) = _
      rw [hds, e1, e2]
      have hL : round2dp (0 - sumLosses ds) ≤ 0 := by
        have h1 : (0 : ℚ) - sumLosses ds ≤ 0 := by
          have := sumLosses_nonneg ds; linarith
        have := round2dp_mono h1
        rwa [round2dp_zero] at this
      have hmax : max 0 (round2dp (0 - sumLosses ds) - 3000) = 0 :=
        max_eq_left (by linarith)
      rw [hmax]
      have hpreL := sumLosses_nonneg (preSplit (⟨2024, 10, 30⟩ : SDate) ds)
      have hpostL := sumLosses_nonneg (postSplit (⟨2024, 10, 30⟩ : SDate) ds)
      have hif : ¬((0 : ℚ) < 0 + 0) := by norm_num
      rw [if_neg hif]
      have hm1 : max 0 (0 - sumLosses (preSplit ⟨2024, 10, 30⟩ ds) - 0) = 0 :=
        max_eq_left (by linarith)
      have hm2 : max 0 (0 - sumLosses (postSplit ⟨2024, 10, 30⟩ ds) - 0) = 0 :=
        max_eq_left (by linarith)
      rw [hm1, hm2]
      norm_num

/-! ## Claim C5 — the 2024/25 rate-change split -/

/-- C5: in the tax year containing the 30 Oct 2024 rate change, every
disposal is split by date against the change date, gains/losses/counts are
summed per side, the annual exemption is allocated to the sides in
proportion to their share of total gains (not losses; the source caps the
allocated total at total gains, which cannot raise either side's taxable
gain), and each estimated tax figure is the sum over both sides of the
side's taxable gain times that side's own rate. -/
theorem rate_change_year_split (now : ℕ) (raw : List RawTxn)
    (s : YearSummary) (hs : s ∈ (calculateCGT now raw).taxYears)
    (h24 : s.taxYear = 2024) :
    (preSplit ⟨2024, 10, 30⟩ s.disposals).length +
      (postSplit ⟨2024, 10, 30⟩ s.disposals).length = s.disposals.length ∧
    ∃ rc, s.rateChange = some rc ∧
      rc.date = ⟨2024, 10, 30⟩ ∧
      rc.preOctober.gains = sumGains (preSplit ⟨2024, 10, 30⟩ s.disposals) ∧
      rc.preOctober.losses =
        sumLosses (preSplit ⟨2024, 10, 30⟩ s.disposals) ∧
      rc.preOctober.disposalCount =
        (preSplit ⟨2024, 10, 30⟩ s.disposals).length ∧
      rc.preOctober.basicRate = 10/100 ∧
      rc.preOctober.higherRate = 20/100 ∧
      rc.postOctober.gains =
        sumGains (postSplit ⟨2024, 10, 30⟩ s.disposals) ∧
      rc.postOctober.losses =
        sumLosses (postSplit ⟨2024, 10, 30⟩ s.disposals) ∧
      rc.postOctober.disposalCount =
        (postSplit ⟨2024, 10, 30⟩ s.disposals).length ∧
      rc.postOctober.basicRate = 18/100 ∧
      rc.postOctober.higherRate = 24/100 ∧
      s.estimatedTaxBasicRate =
        round2dp
          (claimTaxSide (sumGains (preSplit ⟨2024, 10, 30⟩ s.disposals))
              (sumLosses (preSplit ⟨2024, 10, 30⟩ s.disposals))
              (sumGains (preSplit ⟨2024, 10, 30⟩ s.disposals) +
                sumGains (postSplit ⟨2024, 10, 30⟩ s.disposals)) 3000 *
              (10/100) +
            claimTaxSide (sumGains (postSplit ⟨2024, 10, 30⟩ s.disposals))
              (sumLosses (postSplit ⟨2024, 10, 30⟩ s.disposals))
              (sumGains (preSplit ⟨2024, 10, 30⟩ s.disposals) +
                sumGains (postSplit ⟨2024, 10, 30⟩ s.disposals)) 3000 *
              (18/100)) ∧
      s.estimatedTaxHigherRate =
        round2dp
          (claimTaxSide (sumGains (preSplit ⟨2024, 10, 30⟩ s.disposals))
              (sumLosses (preSplit ⟨2024, 10, 30⟩ s.disposals))
              (sumGains (preSplit ⟨2024, 10, 30⟩ s.disposals) +
                sumGains (postSplit ⟨2024, 10, 30⟩ s.disposals)) 3000 *
              (20/100) +
            claimTaxSide (sumGains (postSplit ⟨2024, 10, 30⟩ s.disposals))
              (sumLosses (postSplit ⟨2024, 10, 30⟩ s.disposals))
              (sumGains (preSplit ⟨2024, 10, 30⟩ s.disposals) +
                sumGains (postSplit ⟨2024, 10, 30⟩ s.disposals)) 3000 *
              (24/100)) := by
  have hsy := mem_report_taxYears hs
  rw [h24] at hsy
  have hpenny : ∀ d ∈ (calculateCGT now raw).allDisposals.filter
      (fun d => decide (d.taxYear = (2024 : ℤ))), IsPenny d.gain := by
    intro d hd
    exact (report_disposal_penny now raw d (List.mem_of_mem_filter hd)).1
  have hdisp : s.disposals = (calculateCGT now raw).allDisposals.filter
      (fun d => decide (d.taxYear = (2024 : ℤ))) := by
    rw [hsy]
    rfl
  obtain ⟨rc, hrc, hdate, hg1, hl1, hc1, hb1, hh1, hg2, hl2, hc2, hb2, hh2,
    hestB, hestH⟩ :=
    yearSummary_rate_change_2024
      (calculateSection104Snapshots (calculateCGT now raw).acquisitions
        (calculateCGT now raw).allDisposals)
      ((calculateCGT now raw).allDisposals.filter
        (fun d => decide (d.taxYear = (2024 : ℤ)))) hpenny
  rw [hdisp, hsy]
  exact ⟨split_length _ _, rc, hrc, hdate, hg1, hl1, hc1, hb1, hh1, hg2, hl2,
    hc2, hb2, hh2, hestB, hestH⟩

set_option maxHeartbeats 4000000 in
/-- Witness for C5 (a non-zero variant of the spec's Scenario E): £5000 gain
before 30 Oct 2024 and £10000 after; exemption £3000 allocated ⅓/⅔, so the
taxable sides are £4000 and £8000, and the blended estimates are
`4000×10% + 8000×18% = 1840` and `4000×20% + 8000×24% = 2720`. -/
theorem rate_change_year_split_witness :
    ∃ s ∈ (calculateCGT 0 demoRateChange).taxYears,
      s.taxYear = 2024 ∧
      (∃ rc, s.rateChange = some rc ∧ rc.preOctober.gains = 5000 ∧
        rc.postOctober.gains = 10000 ∧ rc.preOctober.disposalCount = 1 ∧
        rc.postOctober.disposalCount = 1) ∧
      s.estimatedTaxBasicRate = 1840 ∧ s.estimatedTaxHigherRate = 2720 ∧
      s.estimatedTaxBasicRate =
        round2dp
          (claimTaxSide (sumGains (preSplit ⟨2024, 10, 30⟩ s.disposals))
              (sumLosses (preSplit ⟨2024, 10, 30⟩ s.disposals))
              (sumGains (preSplit ⟨2024, 10, 30⟩ s.disposals) +
                sumGains (postSplit ⟨2024, 10, 30⟩ s.disposals)) 3000 *
              (10/100) +
            claimTaxSide (sumGains (postSplit ⟨2024, 10, 30⟩ s.disposals))
              (sumLosses (postSplit ⟨2024, 10, 30⟩ s.disposals))
              (sumGains (preSplit ⟨2024, 10, 30⟩ s.disposals) +
                sumGains (postSplit ⟨2024, 10, 30⟩ s.disposals)) 3000 *
              (18/100)) := by
  have hmem : (calculateCGT 0 demoRateChange).taxYears.headI ∈
      (calculateCGT 0 demoRateChange).taxYears := by
    norm_num [demoRateChange, mkRawTxn, calculateCGT, calculate,
      normalizeTransactions, normalizeOne, withIdx, jsOr, jsStrOr, groupByKey,
      addToGroup, runSymbols, processSymbol, processSells, processDisposal,
      sameDayLoop, bnbPhase, bnbLoop, s104Phase, rollInLoop, leftoverLoop,
      calculateCost, calculateProceeds, round2dp, isSameDay,
      getDaysDifference, SDate.toDays, bnbEligible, dateLe, idxDateLe,
      generateReport, yearSummary, lookupConfig, TAX_YEARS, getTaxYear,
      fallbackStartYear, sumGains, sumLosses, calculateSection104Snapshots,
      allEvents, sortedEvents, applyEvt, snapshotRows, setRemaining, jsOr2,
      List.insertionSort, List.orderedInsert, evtDateLe, rowSymbolLe,
      yearDesc, List.dedup, List.filter, List.filterMap, List.foldl,
      List.takeWhile]
  have h24 : (calculateCGT 0 demoRateChange).taxYears.headI.taxYear = 2024 := by
    norm_num [demoRateChange, mkRawTxn, calculateCGT, calculate,
      normalizeTransactions, normalizeOne, withIdx, jsOr, jsStrOr, groupByKey,
      addToGroup, runSymbols, processSymbol, processSells, processDisposal,
      sameDayLoop, bnbPhase, bnbLoop, s104Phase, rollInLoop, leftoverLoop,
      calculateCost, calculateProceeds, round2dp, isSameDay,
      getDaysDifference, SDate.toDays, bnbEligible, dateLe, idxDateLe,
      generateReport, yearSummary, lookupConfig, TAX_YEARS, getTaxYear,
      fallbackStartYear, sumGains, sumLosses, calculateSection104Snapshots,
      allEvents, sortedEvents, applyEvt, snapshotRows, setRemaining, jsOr2,
      List.insertionSort, List.orderedInsert, evtDateLe, rowSymbolLe,
      yearDesc, List.dedup, List.filter, List.filterMap, List.foldl,
      List.takeWhile]
  refine ⟨(calculateCGT 0 demoRateChange).taxYears.headI, hmem, h24, ?_, ?_,
    ?_, ((rate_change_year_split 0 demoRateChange _ hmem h24).2).choose_spec.2.2.2.2.2.2.2.2.2.2.2.2.1⟩ <;>
    norm_num [demoRateChange, mkRawTxn, calculateCGT, calculate,
      normalizeTransactions, normalizeOne, withIdx, jsOr, jsStrOr, groupByKey,
      addToGroup, runSymbols, processSymbol, processSells, processDisposal,
      sameDayLoop, bnbPhase, bnbLoop, s104Phase, rollInLoop, leftoverLoop,
      calculateCost, calculateProceeds, round2dp, isSameDay,
      getDaysDifference, SDate.toDays, bnbEligible, dateLe, idxDateLe,
      generateReport, yearSummary, lookupConfig, TAX_YEARS, getTaxYear,
      fallbackStartYear, sumGains, sumLosses, calculateSection104Snapshots,
      allEvents, sortedEvents, applyEvt, snapshotRows, setRemaining, jsOr2,
      List.insertionSort, List.orderedInsert, evtDateLe, rowSymbolLe,
      yearDesc, List.dedup, List.filter, List.filterMap, List.foldl,
      List.takeWhile]

/-! ## Claim C6 — the Section 104 snapshots -/

/-- On a sorted list, stopping at the first element past a downward-closed
cutoff (`break`) is the same as filtering. -/
theorem takeWhile_eq_filter_of_sorted {α : Type} {r : α → α → Prop}
    {p : α → Bool} :
    ∀ {l : List α}, l.Pairwise r →
      (∀ a b, r a b → p b = true → p a = true) →
      l.takeWhile p = l.filter p := by
  intro l
  induction l with
  | nil => intro _ _; rfl
  | cons a tl ih =>
    intro hl hp
    obtain ⟨ha, htl⟩ := List.pairwise_cons.mp hl
    rw [List.takeWhile_cons, List.filter_cons]
    match h : p a with
    | true =>
      simp only [if_pos]
      rw [ih htl hp]
    | false =>
      simp only [Bool.false_eq_true, if_false]
      have : tl.filter p = [] := by
        apply List.filter_eq_nil_iff.mpr
        intro b hb hpb
        have := hp a b (ha b hb) hpb
        rw [h] at this
        cases this
      rw [this]

/-- C6 amended: every snapshot entry of `calculateSection104Snapshots` is a
pure function of the recorded acquisition/disposal event log — the
chronologically sorted events, filtered at the year boundary and replayed —
where *every* disposal is replayed (not only the pool-sourced ones), and
the report's `section104Start`/`section104End` are exactly the lookup of
that entry; unknown tax years get no entry.  The mutable per-symbol pools
left by forward matching are never consulted. -/
theorem section104_snapshots_replay :
    (∀ (acquisitions : List Acquisition) (disposals : List Disposal)
      (ty : ℤ) (rows : List PoolRow × List PoolRow),
      (ty, rows) ∈ calculateSection104Snapshots acquisitions disposals →
      ∃ cfg, lookupConfig ty = some cfg ∧
        rows.1 = snapshotRows
          (((sortedEvents acquisitions disposals).filter fun e =>
            decide (e.date.toDays < cfg.startDate.toDays)).foldl
              applyEvt []) ∧
        rows.2 = snapshotRows
          (((sortedEvents acquisitions disposals).filter fun e =>
            decide (¬cfg.endDate.toDays < e.date.toDays)).foldl
              applyEvt [])) ∧
    ∀ (now : ℕ) (raw : List RawTxn) (s : YearSummary),
      s ∈ (calculateCGT now raw).taxYears →
      s.section104Start =
        ((((calculateSection104Snapshots (calculateCGT now raw).acquisitions
            (calculateCGT now raw).allDisposals).find? fun x =>
          decide (x.1 = s.taxYear)).map (fun x => x.2)).map
            (fun x => x.1)).getD [] ∧
      s.section104End =
        ((((calculateSection104Snapshots (calculateCGT now raw).acquisitions
            (calculateCGT now raw).allDisposals).find? fun x =>
          decide (x.1 = s.taxYear)).map (fun x => x.2)).map
            (fun x => x.2)).getD [] := by
  constructor
  · intro acquisitions disposals ty rows hmem
    have hsorted : (sortedEvents acquisitions disposals).Pairwise evtDateLe :=
      List.sorted_insertionSort evtDateLe (allEvents acquisitions disposals)
    obtain ⟨y, hy, hf⟩ := List.mem_filterMap.mp hmem
    match hc : (TAX_YEARS.find? fun e => decide (e.1 = y)).map (·.2) with
    | none =>
      rw [hc] at hf
      cases hf
    | some config =>
      rw [hc] at hf
      simp only [Option.some.injEq, Prod.mk.injEq] at hf
      obtain ⟨hty, hrows⟩ := hf
      subst hty
      refine ⟨config, hc, ?_, ?_⟩
      · rw [← hrows]
        show snapshotRows (((sortedEvents acquisitions disposals).takeWhile
          fun e => decide (e.date.toDays < config.startDate.toDays)).foldl
            applyEvt []) = _
        rw [takeWhile_eq_filter_of_sorted hsorted]
        intro a b hab hpb
        simp only [decide_eq_true_eq] at *
        exact lt_of_le_of_lt hab hpb
      · rw [← hrows]
        show snapshotRows (((sortedEvents acquisitions disposals).takeWhile
          fun e => decide (¬config.endDate.toDays < e.date.toDays)).foldl
            applyEvt []) = _
        rw [takeWhile_eq_filter_of_sorted hsorted]
        intro a b hab hpb
        simp only [decide_eq_true_eq, not_lt] at *
        exact le_trans hab hpb
  · intro now raw s hs
    have hsy := mem_report_taxYears hs
    constructor
    · conv_lhs => rw [hsy]
      rfl
    · conv_lhs => rw [hsy]
      rfl

set_option maxHeartbeats 4000000 in
/-- Counterexample to C6 as stated: in `demoSameDayHistory` the symbol-1
disposal is fully same-day matched (not pool-sourced), yet the code replays
it, so the 2023/24 `section104Start` is empty; replaying only acquisitions
and pool-sourced disposals (the claim's reading, `specSection104StartRows`)
would instead show 100 units of symbol 1. -/
theorem section104_snapshot_counterexample :
    (∃ s ∈ (calculateCGT 0 demoSameDayHistory).taxYears,
      s.taxYear = 2023 ∧ s.section104Start = []) ∧
    specSection104StartRows (calculateCGT 0 demoSameDayHistory).acquisitions
      (calculateCGT 0 demoSameDayHistory).allDisposals ⟨2023, 4, 6⟩ =
      [{ symbol := 1, quantity := 100, totalCost := 1000,
         averageCost := 10 }] ∧
    ([] : List PoolRow) ≠
      [{ symbol := 1, quantity := 100, totalCost := 1000,
         averageCost := 10 }] ∧
    ∀ d ∈ (calculateCGT 0 demoSameDayHistory).allDisposals,
      d.symbol = 1 → ¬poolSourced d := by
  refine ⟨?_, ?_, by simp, ?_⟩ <;>
    · norm_num [demoSameDayHistory, mkRawTxn, calculateCGT, calculate,
        normalizeTransactions, normalizeOne, withIdx, jsOr, jsStrOr,
        groupByKey, addToGroup, runSymbols, processSymbol, processSells,
        processDisposal, sameDayLoop, bnbPhase, bnbLoop, s104Phase,
        rollInLoop, leftoverLoop, calculateCost, calculateProceeds, round2dp,
        isSameDay, getDaysDifference, SDate.toDays, bnbEligible, dateLe,
        idxDateLe, generateReport, yearSummary, lookupConfig, TAX_YEARS,
        getTaxYear, fallbackStartYear, sumGains, sumLosses,
        calculateSection104Snapshots, allEvents, sortedEvents, applyEvt,
        snapshotRows, setRemaining, jsOr2, specSection104StartRows,
        poolSourced, List.insertionSort, List.orderedInsert, evtDateLe,
        rowSymbolLe, yearDesc, List.dedup, List.filter, List.filterMap,
        List.foldl, List.takeWhile]
      try decide


/-! ## Small facts about dates, indexing and the write-back fold -/

theorem isSameDay_iff_eq {a b : SDate} : isSameDay a b ↔ a = b := by
  unfold isSameDay
  constructor
  · rintro ⟨h1, h2, h3⟩
    cases a; cases b; simp_all
  · rintro rfl
    exact ⟨rfl, rfl, rfl⟩

theorem map_map_remainingQty (x : Option Txn) (q1 q2 : ℚ) :
    (x.map fun b => { b with remainingQty := q1 }).map
      (fun b => { b with remainingQty := q2 }) =
    x.map fun b => { b with remainingQty := q2 } := by
  cases x <;> rfl

theorem setRemaining_get? :
    ∀ (bs : List Txn) (i j : ℕ) (q : ℚ),
      (setRemaining bs i q).get? j =
        if i = j then (bs.get? j).map fun b => { b with remainingQty := q }
        else bs.get? j := by
  intro bs
  induction bs with
  | nil =>
    intro i j q
    simp only [setRemaining.eq_def]
    split <;> simp
  | cons b rest ih =>
    intro i j q
    match i, j with
    | 0, 0 => simp [setRemaining]
    | 0, j + 1 => simp [setRemaining]
    | i + 1, 0 => simp [setRemaining]
    | i + 1, j + 1 =>
      have : (i + 1 = j + 1) = (i = j) := by
        simp [Nat.succ_inj]
      simp only [setRemaining, List.get?_cons_succ, ih i j q, this]

theorem setRemaining_length (bs : List Txn) (i : ℕ) (q : ℚ) :
    (setRemaining bs i q).length = bs.length := by
  induction bs generalizing i with
  | nil => cases i <;> rfl
  | cons b rest ih =>
    cases i with
    | zero => rfl
    | succ i => simp [setRemaining, ih i]

theorem applyUpdates_get?_of_not_mem :
    ∀ (upds : List (ℕ × ℚ)) (bs : List Txn) (j : ℕ),
      (∀ q, (j, q) ∉ upds) →
      (upds.foldl (fun bs u => setRemaining bs u.1 u.2) bs).get? j =
        bs.get? j := by
  intro upds
  induction upds with
  | nil => intro bs j _; rfl
  | cons u rest ih =>
    intro bs j hj
    have hju : u.1 ≠ j := by
      intro h
      exact hj u.2 (by rw [← h]; exact List.mem_cons_self _ _)
    rw [List.foldl_cons, ih _ j (fun q hq => hj q (List.mem_cons_of_mem _ hq)),
      setRemaining_get?, if_neg hju]

theorem applyUpdates_get?_of_mem :
    ∀ (upds : List (ℕ × ℚ)) (bs : List Txn) (j : ℕ) (q0 : ℚ),
      (j, q0) ∈ upds →
      ∃ q, (j, q) ∈ upds ∧
        (upds.foldl (fun bs u => setRemaining bs u.1 u.2) bs).get? j =
          (bs.get? j).map fun b => { b with remainingQty := q } := by
  intro upds
  induction upds with
  | nil => intro bs j q0 h; cases h
  | cons u rest ih =>
    intro bs j q0 h
    by_cases hrest : ∃ q', (j, q') ∈ rest
    · obtain ⟨q', hq'⟩ := hrest
      obtain ⟨q, hq, heq⟩ := ih (setRemaining bs u.1 u.2) j q' hq'
      refine ⟨q, List.mem_cons_of_mem _ hq, ?_⟩
      rw [List.foldl_cons] at *
      rw [heq, setRemaining_get?]
      by_cases hu : u.1 = j
      · rw [if_pos hu, map_map_remainingQty]
      · rw [if_neg hu]
    · push_neg at hrest
      have hu : u = (j, q0) := by
        rcases List.mem_cons.mp h with h | h
        · exact h.symm
        · exact absurd h (hrest q0)
      subst hu
      refine ⟨q0, List.mem_cons_self _ _, ?_⟩
      rw [List.foldl_cons,
        applyUpdates_get?_of_not_mem rest _ j (fun q hq => hrest q hq),
        setRemaining_get?, if_pos rfl]

theorem withIdx_get?_of_mem {l : List Txn} {p : ℕ × Txn}
    (h : p ∈ withIdx 0 l) : l.get? p.1 = some p.2 := by
  obtain ⟨k, hk1, hk2⟩ := mem_withIdx h
  rw [hk1]
  simpa using hk2

theorem withIdx_filter_map_snd (p : Txn → Bool) :
    ∀ (l : List Txn) (n : ℕ),
      (((withIdx n l).filter fun x => p x.2).map fun x => x.2) =
        l.filter p := by
  intro l
  induction l with
  | nil => intro n; rfl
  | cons b rest ih =>
    intro n
    rw [withIdx, List.filter_cons, List.filter_cons]
    by_cases hb : p b
    · rw [if_pos (by simpa using hb), if_pos (by simpa using hb),
        List.map_cons, ih]
    · rw [if_neg (by simpa using hb), if_neg (by simpa using hb), ih]


/-! ## Facts about the same-day loop -/

theorem sumQ_nil : sumQ [] = 0 := rfl

theorem sumQ_cons (m : MatchDetail) (l : List MatchDetail) :
    sumQ (m :: l) = m.quantity + sumQ l := by
  unfold sumQ
  rw [List.map_cons, List.sum_cons]

theorem sumC_cons (m : MatchDetail) (l : List MatchDetail) :
    sumC (m :: l) = m.cost + sumC l := by
  unfold sumC
  rw [List.map_cons, List.sum_cons]

theorem sameDayAvail_nonneg (dd : SDate) (buys : List Txn) :
    0 ≤ sameDayAvail dd buys := by
  unfold sameDayAvail
  apply List.sum_nonneg
  intro x hx
  obtain ⟨b, hb, rfl⟩ := List.mem_map.mp hx
  have := of_decide_eq_true (List.mem_filter.mp hb).2
  linarith [this.2]

theorem bnbAvail_nonneg (dd : SDate) (buys : List Txn) :
    0 ≤ bnbAvail dd buys := by
  unfold bnbAvail
  apply List.sum_nonneg
  intro x hx
  obtain ⟨b, hb, rfl⟩ := List.mem_map.mp hx
  have := of_decide_eq_true (List.mem_filter.mp hb).2
  linarith [this.2.2]

theorem sameDayLoop_acc (dd : SDate) (pps : ℚ) :
    ∀ (buys : List Txn) (rem : ℚ),
      (sameDayLoop dd pps rem buys).remaining +
        sumQ (sameDayLoop dd pps rem buys).details = rem ∧
      (sameDayLoop dd pps rem buys).cost =
        sumC (sameDayLoop dd pps rem buys).details := by
  intro buys
  induction buys with
  | nil => intro rem; simp [sameDayLoop, sumQ, sumC]
  | cons b rest ih =>
    intro rem
    rw [sameDayLoop]
    by_cases h0 : rem ≤ 0
    · rw [if_pos h0]
      simp [sumQ, sumC]
    · rw [if_neg h0]
      by_cases helig : isSameDay b.date dd ∧ 0 < b.remainingQty
      · rw [if_pos helig]
        have := ih (rem - min rem b.remainingQty)
        constructor
        · show _ + sumQ (_ :: _) = rem
          rw [sumQ_cons]
          have h1 := this.1
          linarith [h1]
        · show _ = sumC (_ :: _)
          rw [sumC_cons]
          have h2 := this.2
          linarith [h2]
      · rw [if_neg helig]
        exact ih rem

theorem sameDayLoop_details (dd : SDate) (pps : ℚ) :
    ∀ (buys : List Txn) (rem : ℚ),
      ∀ m ∈ (sameDayLoop dd pps rem buys).details,
        m.rule = .sameDay ∧ m.acquisitionDate = some dd ∧ IsPenny m.cost := by
  intro buys
  induction buys with
  | nil => intro rem m hm; simp [sameDayLoop] at hm
  | cons b rest ih =>
    intro rem m hm
    rw [sameDayLoop] at hm
    by_cases h0 : rem ≤ 0
    · rw [if_pos h0] at hm; simp at hm
    · rw [if_neg h0] at hm
      by_cases helig : isSameDay b.date dd ∧ 0 < b.remainingQty
      · rw [if_pos helig] at hm
        rcases List.mem_cons.mp hm with hm | hm
        · subst hm
          refine ⟨rfl, ?_, isPenny_round2dp _⟩
          have : b.date = dd := isSameDay_iff_eq.mp helig.1
          rw [this]
        · exact ih _ m hm
      · rw [if_neg helig] at hm
        exact ih _ m hm

theorem sameDayLoop_nonneg (dd : SDate) (pps : ℚ) :
    ∀ (buys : List Txn) (rem : ℚ), 0 ≤ rem →
      0 ≤ (sameDayLoop dd pps rem buys).remaining := by
  intro buys
  induction buys with
  | nil => intro rem h; exact h
  | cons b rest ih =>
    intro rem h
    rw [sameDayLoop]
    by_cases h0 : rem ≤ 0
    · rw [if_pos h0]; exact h
    · rw [if_neg h0]
      by_cases helig : isSameDay b.date dd ∧ 0 < b.remainingQty
      · rw [if_pos helig]
        exact ih _ (by
          have := min_le_left rem b.remainingQty
          linarith)
      · rw [if_neg helig]
        exact ih _ h

theorem sameDayLoop_buys (dd : SDate) (pps : ℚ) :
    ∀ (buys : List Txn) (rem : ℚ),
      ∀ b' ∈ (sameDayLoop dd pps rem buys).buys,
        ∃ b ∈ buys, b' = { b with remainingQty := b'.remainingQty } ∧
          b'.remainingQty ≤ b.remainingQty ∧
          (b' = b ∨ (isSameDay b.date dd ∧ 0 ≤ b'.remainingQty)) := by
  intro buys
  induction buys with
  | nil => intro rem b' hb'; simp [sameDayLoop] at hb'
  | cons b rest ih =>
    intro rem b' hb'
    rw [sameDayLoop] at hb'
    by_cases h0 : rem ≤ 0
    · rw [if_pos h0] at hb'
      exact ⟨b', hb', rfl, le_refl _, Or.inl rfl⟩
    · rw [if_neg h0] at hb'
      by_cases helig : isSameDay b.date dd ∧ 0 < b.remainingQty
      · rw [if_pos helig] at hb'
        rcases List.mem_cons.mp hb' with hb' | hb'
        · refine ⟨b, List.mem_cons_self _ _, by rw [hb'], ?_, ?_⟩
          · rw [hb']
            have := min_le_right rem b.remainingQty
            have hmin : 0 ≤ min rem b.remainingQty :=
              le_min (by linarith) (le_of_lt helig.2)
            show b.remainingQty - min rem b.remainingQty ≤ b.remainingQty
            linarith
          · right
            refine ⟨helig.1, ?_⟩
            rw [hb']
            show 0 ≤ b.remainingQty - min rem b.remainingQty
            have := min_le_right rem b.remainingQty
            linarith
        · obtain ⟨c, hc, h1, h2, h3⟩ := ih _ b' hb'
          exact ⟨c, List.mem_cons_of_mem _ hc, h1, h2, h3⟩
      · rw [if_neg helig] at hb'
        rcases List.mem_cons.mp hb' with hb' | hb'
        · exact ⟨b, List.mem_cons_self _ _, by rw [hb'], le_of_eq (by rw [hb']),
            Or.inl hb'⟩
        · obtain ⟨c, hc, h1, h2, h3⟩ := ih _ b' hb'
          exact ⟨c, List.mem_cons_of_mem _ hc, h1, h2, h3⟩

theorem sameDayAvail_cons (dd : SDate) (b : Txn) (rest : List Txn) :
    sameDayAvail dd (b :: rest) =
      if isSameDay b.date dd ∧ 0 < b.remainingQty then
        b.remainingQty + sameDayAvail dd rest
      else sameDayAvail dd rest := by
  unfold sameDayAvail
  rw [List.filter_cons]
  by_cases h : isSameDay b.date dd ∧ 0 < b.remainingQty
  · rw [if_pos (by simpa using h), if_pos h, List.map_cons, List.sum_cons]
  · rw [if_neg (by simpa using h), if_neg h]

theorem sameDayLoop_sum (dd : SDate) (pps : ℚ) :
    ∀ (buys : List Txn) (rem : ℚ), 0 ≤ rem →
      sumQ (sameDayLoop dd pps rem buys).details =
        min rem (sameDayAvail dd buys) := by
  intro buys
  induction buys with
  | nil =>
    intro rem h
    show sumQ [] = min rem (sameDayAvail dd [])
    rw [sumQ_nil]
    unfold sameDayAvail
    simp [min_eq_right h]
  | cons b rest ih =>
    intro rem h
    rw [sameDayLoop, sameDayAvail_cons]
    have har : 0 ≤ sameDayAvail dd rest := sameDayAvail_nonneg dd rest
    by_cases h0 : rem ≤ 0
    · have hrem0 : rem = 0 := le_antisymm h0 h
      rw [if_pos h0]
      subst hrem0
      show sumQ [] = _
      rw [sumQ_nil]
      by_cases helig : isSameDay b.date dd ∧ 0 < b.remainingQty
      · rw [if_pos helig]
        symm
        rw [min_eq_left (by linarith [helig.2])]
      · rw [if_neg helig]
        symm
        rw [min_eq_left har]
    · rw [if_neg h0]
      by_cases helig : isSameDay b.date dd ∧ 0 < b.remainingQty
      · rw [if_pos helig, if_pos helig]
        show min rem b.remainingQty +
          sumQ (sameDayLoop dd pps (rem - min rem b.remainingQty) rest).details = _
        have hminnn : 0 ≤ rem - min rem b.remainingQty := by
          have := min_le_left rem b.remainingQty
          linarith
        rw [ih _ hminnn]
        rcases le_total rem b.remainingQty with hc | hc
        · rw [min_eq_left hc, sub_self, min_eq_left har,
            min_eq_left (by linarith : rem ≤ b.remainingQty + sameDayAvail dd rest)]
          ring
        · rw [min_eq_right hc, ← min_add_add_left]
          have hh : b.remainingQty + (rem - b.remainingQty) = rem := by ring
          rw [hh]
      · rw [if_neg helig, if_neg helig]
        exact ih rem h

theorem sameDayLoop_bnbAvail (dd : SDate) (pps : ℚ) :
    ∀ (buys : List Txn) (rem : ℚ),
      bnbAvail dd (sameDayLoop dd pps rem buys).buys = bnbAvail dd buys := by
  intro buys
  induction buys with
  | nil => intro rem; rfl
  | cons b rest ih =>
    intro rem
    rw [sameDayLoop]
    by_cases h0 : rem ≤ 0
    · rw [if_pos h0]
    · rw [if_neg h0]
      by_cases helig : isSameDay b.date dd ∧ 0 < b.remainingQty
      · rw [if_pos helig]
        show bnbAvail dd (_ :: _) = _
        unfold bnbAvail bnbEligible
        rw [List.filter_cons, List.filter_cons]
        have hdd : b.date = dd := isSameDay_iff_eq.mp helig.1
        have hdiff : getDaysDifference dd b.date = 0 := by
          rw [hdd]
          unfold getDaysDifference
          simp
        rw [if_neg (by simp [hdiff]), if_neg (by simp [hdiff])]
        have := ih (rem - min rem b.remainingQty)
        unfold bnbAvail bnbEligible at this
        exact this
      · rw [if_neg helig]
        show bnbAvail dd (_ :: _) = _
        unfold bnbAvail bnbEligible
        rw [List.filter_cons, List.filter_cons]
        have := ih rem
        unfold bnbAvail bnbEligible at this
        by_cases hel : 0 < getDaysDifference dd b.date ∧
            getDaysDifference dd b.date ≤ 30 ∧ 0 < b.remainingQty
        · rw [if_pos (by simpa using hel), if_pos (by simpa using hel),
            List.map_cons, List.sum_cons, List.map_cons, List.sum_cons, this]
        · rw [if_neg (by simpa using hel), if_neg (by simpa using hel), this]

/-! ## Facts about the bed-and-breakfast loop -/

theorem bnbLoop_acc (pool : Pool) (dd : SDate) (pps : ℚ) :
    ∀ (l : List (ℕ × Txn)) (rem : ℚ),
      (bnbLoop pool dd pps rem l).1 +
        sumQ (bnbLoop pool dd pps rem l).2.2.1 = rem ∧
      (bnbLoop pool dd pps rem l).2.2.2 =
        sumC (bnbLoop pool dd pps rem l).2.2.1 := by
  intro l
  induction l with
  | nil => intro rem; simp [bnbLoop, sumQ, sumC]
  | cons p rest ih =>
    intro rem
    obtain ⟨i, b⟩ := p
    rw [bnbLoop]
    by_cases h0 : rem ≤ 0
    · rw [if_pos h0]
      simp [sumQ, sumC]
    · rw [if_neg h0]
      have := ih (rem - min rem b.remainingQty)
      constructor
      · show _ + sumQ (_ :: _) = rem
        rw [sumQ_cons]
        have h1 := this.1
        linarith [h1]
      · show _ = sumC (_ :: _)
        rw [sumC_cons]
        have h2 := this.2
        linarith [h2]

theorem bnbLoop_details (pool : Pool) (dd : SDate) (pps : ℚ) :
    ∀ (l : List (ℕ × Txn)) (rem : ℚ),
      (∀ p ∈ l, bnbEligible dd p.2) →
      ∀ m ∈ (bnbLoop pool dd pps rem l).2.2.1,
        m.rule = .bedAndBreakfast ∧ IsPenny m.cost ∧
          ∃ d, m.daysDifference = some d ∧ 0 < d ∧ d ≤ 30 := by
  intro l
  induction l with
  | nil => intro rem _ m hm; simp [bnbLoop] at hm
  | cons p rest ih =>
    intro rem hel m hm
    obtain ⟨i, b⟩ := p
    rw [bnbLoop] at hm
    by_cases h0 : rem ≤ 0
    · rw [if_pos h0] at hm; simp at hm
    · rw [if_neg h0] at hm
      rcases List.mem_cons.mp hm with hm | hm
      · subst hm
        have hb := hel (i, b) (List.mem_cons_self _ _)
        exact ⟨rfl, isPenny_round2dp _,
          getDaysDifference dd b.date, rfl, hb.1, hb.2.1⟩
      · exact ih _ (fun q hq => hel q (List.mem_cons_of_mem _ hq)) m hm

theorem bnbLoop_acqDate (pool : Pool) (dd : SDate) (pps : ℚ) :
    ∀ (l : List (ℕ × Txn)) (rem : ℚ),
      ∀ m ∈ (bnbLoop pool dd pps rem l).2.2.1,
        ∃ p ∈ l, m.acquisitionDate = some p.2.date := by
  intro l
  induction l with
  | nil => intro rem m hm; simp [bnbLoop] at hm
  | cons p rest ih =>
    intro rem m hm
    obtain ⟨i, b⟩ := p
    rw [bnbLoop] at hm
    by_cases h0 : rem ≤ 0
    · rw [if_pos h0] at hm; simp at hm
    · rw [if_neg h0] at hm
      rcases List.mem_cons.mp hm with hm | hm
      · exact ⟨(i, b), List.mem_cons_self _ _, by rw [hm]⟩
      · obtain ⟨q, hq, hacq⟩ := ih _ m hm
        exact ⟨q, List.mem_cons_of_mem _ hq, hacq⟩

theorem bnbLoop_pairwise (pool : Pool) (dd : SDate) (pps : ℚ) :
    ∀ (l : List (ℕ × Txn)) (rem : ℚ),
      l.Pairwise idxDateLe →
      (bnbLoop pool dd pps rem l).2.2.1.Pairwise
        fun a b => acqDays a ≤ acqDays b := by
  intro l
  induction l with
  | nil => intro rem _; simp [bnbLoop]
  | cons p rest ih =>
    intro rem hsort
    obtain ⟨i, b⟩ := p
    rw [bnbLoop]
    by_cases h0 : rem ≤ 0
    · rw [if_pos h0]; simp
    · rw [if_neg h0]
      show List.Pairwise _ (_ :: _)
      rw [List.pairwise_cons] at hsort ⊢
      constructor
      · intro m hm
        obtain ⟨q, hq, hacq⟩ := bnbLoop_acqDate pool dd pps rest _ m hm
        show acqDays _ ≤ acqDays m
        unfold acqDays
        rw [hacq]
        show b.date.toDays ≤ q.2.date.toDays
        exact hsort.1 q hq
      · exact ih _ hsort.2

theorem bnbLoop_nonneg (pool : Pool) (dd : SDate) (pps : ℚ) :
    ∀ (l : List (ℕ × Txn)) (rem : ℚ), 0 ≤ rem →
      0 ≤ (bnbLoop pool dd pps rem l).1 := by
  intro l
  induction l with
  | nil => intro rem h; exact h
  | cons p rest ih =>
    intro rem h
    obtain ⟨i, b⟩ := p
    rw [bnbLoop]
    by_cases h0 : rem ≤ 0
    · rw [if_pos h0]; exact h
    · rw [if_neg h0]
      exact ih _ (by
        have := min_le_left rem b.remainingQty
        linarith)

theorem bnbLoop_updates (pool : Pool) (dd : SDate) (pps : ℚ) :
    ∀ (l : List (ℕ × Txn)) (rem : ℚ),
      (∀ p ∈ l, 0 ≤ p.2.remainingQty) →
      ∀ u ∈ (bnbLoop pool dd pps rem l).2.1,
        0 ≤ u.2 ∧ ∃ p ∈ l, u.1 = p.1 ∧ u.2 ≤ p.2.remainingQty := by
  intro l
  induction l with
  | nil => intro rem _ u hu; simp [bnbLoop] at hu
  | cons p rest ih =>
    intro rem hn u hu
    obtain ⟨i, b⟩ := p
    rw [bnbLoop] at hu
    by_cases h0 : rem ≤ 0
    · rw [if_pos h0] at hu; simp at hu
    · rw [if_neg h0] at hu
      rcases List.mem_cons.mp hu with hu | hu
      · subst hu
        have hrq := hn (i, b) (List.mem_cons_self _ _)
        have hlt : 0 < rem := lt_of_not_le h0
        refine ⟨?_, (i, b), List.mem_cons_self _ _, rfl, ?_⟩
        · show 0 ≤ b.remainingQty - min rem b.remainingQty
          have := min_le_right rem b.remainingQty
          linarith
        · show b.remainingQty - min rem b.remainingQty ≤ b.remainingQty
          have hmin : 0 ≤ min rem b.remainingQty := le_min (le_of_lt hlt) hrq
          linarith
      · obtain ⟨h1, q, hq, h2, h3⟩ :=
          ih _ (fun q hq => hn q (List.mem_cons_of_mem _ hq)) u hu
        exact ⟨h1, q, List.mem_cons_of_mem _ hq, h2, h3⟩

theorem bnbLoop_sum (pool : Pool) (dd : SDate) (pps : ℚ) :
    ∀ (l : List (ℕ × Txn)) (rem : ℚ), 0 ≤ rem →
      (∀ p ∈ l, 0 ≤ p.2.remainingQty) →
      sumQ (bnbLoop pool dd pps rem l).2.2.1 =
        min rem ((l.map fun p => p.2.remainingQty).sum) := by
  intro l
  induction l with
  | nil =>
    intro rem h _
    show sumQ [] = _
    rw [sumQ_nil]
    simp [min_eq_right h]
  | cons p rest ih =>
    intro rem h hn
    obtain ⟨i, b⟩ := p
    have har : 0 ≤ (List.map (fun p => p.2.remainingQty) rest).sum := by
      apply List.sum_nonneg
      intro x hx
      obtain ⟨q, hq, rfl⟩ := List.mem_map.mp hx
      exact hn q (List.mem_cons_of_mem _ hq)
    have hrq := hn (i, b) (List.mem_cons_self _ _)
    rw [bnbLoop, List.map_cons, List.sum_cons]
    by_cases h0 : rem ≤ 0
    · have hrem0 : rem = 0 := le_antisymm h0 h
      rw [if_pos h0]
      subst hrem0
      show sumQ [] = _
      rw [sumQ_nil]
      symm
      rw [min_eq_left (by linarith)]
    · rw [if_neg h0]
      show min rem b.remainingQty +
        sumQ (bnbLoop pool dd pps (rem - min rem b.remainingQty) rest).2.2.1 = _
      have hminnn : 0 ≤ rem - min rem b.remainingQty := by
        have := min_le_left rem b.remainingQty
        linarith
      rw [ih _ hminnn (fun q hq => hn q (List.mem_cons_of_mem _ hq))]
      rcases le_total rem b.remainingQty with hc | hc
      · rw [min_eq_left hc, sub_self, min_eq_left har,
          min_eq_left (by linarith :
            rem ≤ b.remainingQty + (List.map (fun p => p.2.remainingQty) rest).sum)]
        ring
      · rw [min_eq_right hc, ← min_add_add_left]
        have hh : b.remainingQty + (rem - b.remainingQty) = rem := by ring
        rw [hh]

/-! ## Facts about the bed-and-breakfast phase -/

theorem mem_bnbSorted {dd : SDate} {buys : List Txn} {p : ℕ × Txn}
    (h : p ∈ bnbSorted dd buys) :
    p ∈ withIdx 0 buys ∧ bnbEligible dd p.2 := by
  unfold bnbSorted at h
  have h2 := (List.perm_insertionSort idxDateLe _).mem_iff.mp h
  have h3 := List.mem_filter.mp h2
  exact ⟨h3.1, of_decide_eq_true h3.2⟩

theorem bnbPhase_acc (pool : Pool) (dd : SDate) (pps rem : ℚ)
    (buys : List Txn) :
    (bnbPhase pool dd pps rem buys).remaining +
      sumQ (bnbPhase pool dd pps rem buys).details = rem ∧
    (bnbPhase pool dd pps rem buys).cost =
      sumC (bnbPhase pool dd pps rem buys).details := by
  unfold bnbPhase
  by_cases h0 : rem ≤ 0
  · rw [if_pos h0]
    simp [sumQ, sumC]
  · rw [if_neg h0]
    exact bnbLoop_acc pool dd pps (bnbSorted dd buys) rem

theorem bnbPhase_details (pool : Pool) (dd : SDate) (pps rem : ℚ)
    (buys : List Txn) :
    ∀ m ∈ (bnbPhase pool dd pps rem buys).details,
      m.rule = .bedAndBreakfast ∧ IsPenny m.cost ∧
        ∃ d, m.daysDifference = some d ∧ 0 < d ∧ d ≤ 30 := by
  unfold bnbPhase
  by_cases h0 : rem ≤ 0
  · rw [if_pos h0]
    intro m hm
    simp at hm
  · rw [if_neg h0]
    intro m hm
    exact bnbLoop_details pool dd pps (bnbSorted dd buys) rem
      (fun p hp => (mem_bnbSorted hp).2) m hm

theorem bnbPhase_pairwise (pool : Pool) (dd : SDate) (pps rem : ℚ)
    (buys : List Txn) :
    (bnbPhase pool dd pps rem buys).details.Pairwise
      fun a b => acqDays a ≤ acqDays b := by
  unfold bnbPhase
  by_cases h0 : rem ≤ 0
  · rw [if_pos h0]
    simp
  · rw [if_neg h0]
    exact bnbLoop_pairwise pool dd pps (bnbSorted dd buys) rem
      (List.sorted_insertionSort idxDateLe _)

theorem bnbPhase_sum (pool : Pool) (dd : SDate) (pps rem : ℚ)
    (buys : List Txn) (h : 0 ≤ rem) :
    sumQ (bnbPhase pool dd pps rem buys).details =
      min rem (bnbAvail dd buys) := by
  unfold bnbPhase
  by_cases h0 : rem ≤ 0
  · rw [if_pos h0]
    have hrem0 : rem = 0 := le_antisymm h0 h
    subst hrem0
    show sumQ [] = _
    rw [sumQ_nil]
    symm
    rw [min_eq_left (bnbAvail_nonneg dd buys)]
  · rw [if_neg h0]
    show sumQ (bnbLoop pool dd pps rem (bnbSorted dd buys)).2.2.1 = _
    rw [bnbLoop_sum pool dd pps (bnbSorted dd buys) rem h
      (fun p hp => le_of_lt (mem_bnbSorted hp).2.2.2)]
    have hsum : ((bnbSorted dd buys).map fun p => p.2.remainingQty).sum =
        bnbAvail dd buys := by
      have hp : ((bnbSorted dd buys).map fun p => p.2.remainingQty).sum =
          (((withIdx 0 buys).filter fun p =>
            decide (bnbEligible dd p.2)).map fun p => p.2.remainingQty).sum :=
        ((List.perm_insertionSort idxDateLe _).map _).sum_eq
      rw [hp]
      unfold bnbAvail
      rw [← withIdx_filter_map_snd (fun b => decide (bnbEligible dd b)) buys 0,
        List.map_map]
      rfl
    rw [hsum]

theorem bnbPhase_nonneg (pool : Pool) (dd : SDate) (pps rem : ℚ)
    (buys : List Txn) (h : 0 ≤ rem) :
    0 ≤ (bnbPhase pool dd pps rem buys).remaining := by
  unfold bnbPhase
  by_cases h0 : rem ≤ 0
  · rw [if_pos h0]; exact h
  · rw [if_neg h0]
    exact bnbLoop_nonneg pool dd pps (bnbSorted dd buys) rem h

theorem applyUpdates_mem (upds : List (ℕ × ℚ)) (bs : List Txn)
    (hu : ∀ u ∈ upds, 0 ≤ u.2 ∧
      ∃ b, bs.get? u.1 = some b ∧ u.2 ≤ b.remainingQty) :
    ∀ b' ∈ upds.foldl (fun bs u => setRemaining bs u.1 u.2) bs,
      ∃ b ∈ bs, b' = { b with remainingQty := b'.remainingQty } ∧
        b'.remainingQty ≤ b.remainingQty ∧ (b' = b ∨ 0 ≤ b'.remainingQty) := by
  intro b' hb'
  obtain ⟨j, hj⟩ := List.get?_of_mem hb'
  by_cases hex : ∃ q, (j, q) ∈ upds
  · obtain ⟨q0, hq0⟩ := hex
    obtain ⟨q, hq, heq⟩ := applyUpdates_get?_of_mem upds bs j q0 hq0
    rw [heq] at hj
    cases hbs : bs.get? j with
    | none => rw [hbs] at hj; cases hj
    | some b =>
      rw [hbs] at hj
      have hb'eq : b' = { b with remainingQty := q } := (Option.some.inj hj).symm
      obtain ⟨hq2, c, hc, hqle⟩ := hu (j, q) hq
      rw [hbs] at hc
      have hcb : c = b := (Option.some.inj hc).symm
      rw [hcb] at hqle
      subst hb'eq
      exact ⟨b, List.get?_mem hbs, rfl, hqle, Or.inr hq2⟩
  · push_neg at hex
    rw [applyUpdates_get?_of_not_mem upds bs j hex] at hj
    exact ⟨b', List.get?_mem hj, rfl, le_refl _, Or.inl rfl⟩

theorem bnbPhase_buys (pool : Pool) (dd : SDate) (pps rem : ℚ)
    (buys : List Txn) :
    ∀ b' ∈ (bnbPhase pool dd pps rem buys).buys,
      ∃ b ∈ buys, b' = { b with remainingQty := b'.remainingQty } ∧
        b'.remainingQty ≤ b.remainingQty ∧ (b' = b ∨ 0 ≤ b'.remainingQty) := by
  unfold bnbPhase
  by_cases h0 : rem ≤ 0
  · rw [if_pos h0]
    intro b' hb'
    exact ⟨b', hb', rfl, le_refl _, Or.inl rfl⟩
  · rw [if_neg h0]
    intro b' hb'
    refine applyUpdates_mem (bnbLoop pool dd pps rem (bnbSorted dd buys)).2.1
      buys ?_ b' hb'
    intro u hu
    obtain ⟨h1, p, hp, h2, h3⟩ := bnbLoop_updates pool dd pps
      (bnbSorted dd buys) rem
      (fun p hp => le_of_lt (mem_bnbSorted hp).2.2.2) u hu
    refine ⟨h1, p.2, ?_, h3⟩
    rw [h2]
    exact withIdx_get?_of_mem (mem_bnbSorted hp).1

/-! ## Facts about the Section 104 phase -/

theorem sumC_nil : sumC [] = 0 := rfl

theorem calculateCost_nonneg (t : Txn) (q : ℚ) (h : NonnegTxn t) (hq : 0 ≤ q)
    (htq : 0 < t.quantity) : 0 ≤ calculateCost t q := by
  have hprop : 0 ≤ q / t.quantity := div_nonneg hq (le_of_lt htq)
  have hfx : 0 ≤ t.exchangeRate := le_of_lt h.2.1
  have hfees : 0 ≤ t.fees * (q / t.quantity) := mul_nonneg h.1 hprop
  have hbase : 0 ≤ (match t.totalAmount with
      | some ta => ta * (q / t.quantity)
      | none => q * t.pricePerUnit) := by
    cases hta : t.totalAmount with
    | some ta => exact mul_nonneg (h.2.2.2 ta hta) hprop
    | none => exact mul_nonneg hq h.2.2.1
  exact round2dp_nonneg (div_nonneg (add_nonneg hbase hfees) hfx)

theorem rollInLoop_pool (dday : ℤ) :
    ∀ (buys : List Txn) (pool : Pool), PoolInv pool →
      (∀ b ∈ buys, GoodBuy b) →
      PoolInv (rollInLoop dday pool buys).1 ∧
        ∀ p ∈ (rollInLoop dday pool buys).2.2, PoolInv p := by
  intro buys
  induction buys with
  | nil =>
    intro pool hp _
    exact ⟨hp, by intro p hpm; simp [rollInLoop] at hpm⟩
  | cons b rest ih =>
    intro pool hp hg
    rw [rollInLoop]
    by_cases hc : b.date.toDays < dday ∧ 0 < b.remainingQty
    · rw [if_pos hc]
      have hgb := hg b (List.mem_cons_self _ _)
      have hcost : 0 ≤ calculateCost b b.remainingQty :=
        calculateCost_nonneg b _ hgb.1 hgb.2.2 hgb.2.1
      have hp' : PoolInv ⟨pool.quantity + b.remainingQty,
          pool.cost + calculateCost b b.remainingQty⟩ :=
        ⟨by have := hp.1; have := hc.2; dsimp only; linarith,
         by have := hp.2.1; dsimp only; linarith,
         hp.2.2.add (isPenny_round2dp _)⟩
      have hrec := ih _ hp' (fun x hx => hg x (List.mem_cons_of_mem _ hx))
      refine ⟨hrec.1, ?_⟩
      intro p hpm
      rcases List.mem_cons.mp hpm with h | h
      · rw [h]; exact hp'
      · exact hrec.2 p h
    · rw [if_neg hc]
      exact ih _ hp (fun x hx => hg x (List.mem_cons_of_mem _ hx))

theorem rollInLoop_buys (dday : ℤ) :
    ∀ (buys : List Txn) (pool : Pool),
      ∀ b' ∈ (rollInLoop dday pool buys).2.1,
        ∃ b ∈ buys, b' = b ∨ b' = { b with remainingQty := 0 } := by
  intro buys
  induction buys with
  | nil => intro pool b' hb'; simp [rollInLoop] at hb'
  | cons b rest ih =>
    intro pool b' hb'
    rw [rollInLoop] at hb'
    by_cases hc : b.date.toDays < dday ∧ 0 < b.remainingQty
    · rw [if_pos hc] at hb'
      rcases List.mem_cons.mp hb' with h | h
      · exact ⟨b, List.mem_cons_self _ _, Or.inr h⟩
      · obtain ⟨c, hc1, hc2⟩ := ih _ b' h
        exact ⟨c, List.mem_cons_of_mem _ hc1, hc2⟩
    · rw [if_neg hc] at hb'
      rcases List.mem_cons.mp hb' with h | h
      · exact ⟨b, List.mem_cons_self _ _, Or.inl h⟩
      · obtain ⟨c, hc1, hc2⟩ := ih _ b' h
        exact ⟨c, List.mem_cons_of_mem _ hc1, hc2⟩

theorem s104Phase_acc (pool : Pool) (dd : SDate) (pps rem : ℚ)
    (buys : List Txn) :
    (s104Phase pool dd pps rem buys).remaining +
      sumQ (s104Phase pool dd pps rem buys).details = rem ∧
    (s104Phase pool dd pps rem buys).cost =
      sumC (s104Phase pool dd pps rem buys).details := by
  simp only [s104Phase]
  by_cases h0 : rem ≤ 0
  · rw [if_pos h0]
    simp [sumQ, sumC]
  · rw [if_neg h0]
    by_cases h1 : 0 < (rollInLoop dd.toDays pool buys).1.quantity
    · rw [if_pos h1]
      constructor
      · show rem - min rem (rollInLoop dd.toDays pool buys).1.quantity +
          sumQ [_] = rem
        rw [sumQ_cons, sumQ_nil]
        show rem - min rem (rollInLoop dd.toDays pool buys).1.quantity +
          (min rem (rollInLoop dd.toDays pool buys).1.quantity + 0) = rem
        ring
      · show _ = sumC [_]
        rw [sumC_cons, sumC_nil]
        show round2dp _ = round2dp _ + 0
        rw [add_zero]
    · rw [if_neg h1]
      simp [sumQ, sumC]

theorem s104Phase_details (pool : Pool) (dd : SDate) (pps rem : ℚ)
    (buys : List Txn) :
    (∀ m ∈ (s104Phase pool dd pps rem buys).details,
      m.rule = .section104 ∧ IsPenny m.cost) ∧
      (s104Phase pool dd pps rem buys).details.length ≤ 1 := by
  simp only [s104Phase]
  by_cases h0 : rem ≤ 0
  · rw [if_pos h0]
    exact ⟨by intro m hm; simp at hm, by simp⟩
  · rw [if_neg h0]
    by_cases h1 : 0 < (rollInLoop dd.toDays pool buys).1.quantity
    · rw [if_pos h1]
      refine ⟨?_, Nat.le_refl 1⟩
      intro m hm
      rcases List.mem_cons.mp hm with h | h
      · subst h
        exact ⟨rfl, isPenny_round2dp _⟩
      · simp at h
    · rw [if_neg h1]
      exact ⟨by intro m hm; simp at hm, by simp⟩

theorem s104Phase_nonneg (pool : Pool) (dd : SDate) (pps rem : ℚ)
    (buys : List Txn) (h : 0 ≤ rem) :
    0 ≤ (s104Phase pool dd pps rem buys).remaining := by
  simp only [s104Phase]
  by_cases h0 : rem ≤ 0
  · rw [if_pos h0]; exact h
  · rw [if_neg h0]
    by_cases h1 : 0 < (rollInLoop dd.toDays pool buys).1.quantity
    · rw [if_pos h1]
      show 0 ≤ rem - min rem (rollInLoop dd.toDays pool buys).1.quantity
      have := min_le_left rem (rollInLoop dd.toDays pool buys).1.quantity
      linarith
    · rw [if_neg h1]; exact h

theorem s104Phase_pos_of_details (pool : Pool) (dd : SDate) (pps rem : ℚ)
    (buys : List Txn)
    (h : (s104Phase pool dd pps rem buys).details ≠ []) : 0 < rem := by
  by_contra hc
  push_neg at hc
  apply h
  simp only [s104Phase]
  rw [if_pos hc]

theorem bnbPhase_pos_of_details (pool : Pool) (dd : SDate) (pps rem : ℚ)
    (buys : List Txn)
    (h : (bnbPhase pool dd pps rem buys).details ≠ []) : 0 < rem := by
  by_contra hc
  push_neg at hc
  apply h
  simp only [bnbPhase]
  rw [if_pos hc]

theorem s104Phase_buys (pool : Pool) (dd : SDate) (pps rem : ℚ)
    (buys : List Txn) :
    ∀ b' ∈ (s104Phase pool dd pps rem buys).buys,
      ∃ b ∈ buys, b' = b ∨ b' = { b with remainingQty := 0 } := by
  simp only [s104Phase]
  by_cases h0 : rem ≤ 0
  · rw [if_pos h0]
    intro b' hb'
    exact ⟨b', hb', Or.inl rfl⟩
  · rw [if_neg h0]
    by_cases h1 : 0 < (rollInLoop dd.toDays pool buys).1.quantity
    · rw [if_pos h1]
      intro b' hb'
      exact rollInLoop_buys dd.toDays buys pool b' hb'
    · rw [if_neg h1]
      intro b' hb'
      exact rollInLoop_buys dd.toDays buys pool b' hb'

theorem s104Phase_pool (pool : Pool) (dd : SDate) (pps rem : ℚ)
    (buys : List Txn) (hp : PoolInv pool) (hg : ∀ b ∈ buys, GoodBuy b) :
    PoolInv (s104Phase pool dd pps rem buys).pool ∧
      ∀ p ∈ (s104Phase pool dd pps rem buys).trace, PoolInv p := by
  simp only [s104Phase]
  by_cases h0 : rem ≤ 0
  · rw [if_pos h0]
    exact ⟨hp, by intro p hpm; simp at hpm⟩
  · rw [if_neg h0]
    obtain ⟨hp1, htr⟩ := rollInLoop_pool dd.toDays buys pool hp hg
    by_cases h1 : 0 < (rollInLoop dd.toDays pool buys).1.quantity
    · rw [if_pos h1]
      have havg : 0 ≤ (rollInLoop dd.toDays pool buys).1.cost /
          (rollInLoop dd.toDays pool buys).1.quantity :=
        div_nonneg hp1.2.1 (le_of_lt h1)
      have hmle : min rem (rollInLoop dd.toDays pool buys).1.quantity *
          ((rollInLoop dd.toDays pool buys).1.cost /
            (rollInLoop dd.toDays pool buys).1.quantity) ≤
          (rollInLoop dd.toDays pool buys).1.cost := by
        calc min rem (rollInLoop dd.toDays pool buys).1.quantity *
            ((rollInLoop dd.toDays pool buys).1.cost /
              (rollInLoop dd.toDays pool buys).1.quantity)
            ≤ (rollInLoop dd.toDays pool buys).1.quantity *
              ((rollInLoop dd.toDays pool buys).1.cost /
                (rollInLoop dd.toDays pool buys).1.quantity) :=
              mul_le_mul_of_nonneg_right (min_le_right _ _) havg
          _ = (rollInLoop dd.toDays pool buys).1.cost := by
              field_simp
      have hmc_le := round2dp_le_of_penny hmle hp1.2.2
      have hmc_nn : 0 ≤ round2dp (min rem
          (rollInLoop dd.toDays pool buys).1.quantity *
          ((rollInLoop dd.toDays pool buys).1.cost /
            (rollInLoop dd.toDays pool buys).1.quantity)) :=
        round2dp_nonneg (mul_nonneg
          (le_min (le_of_lt (lt_of_not_le h0)) (le_of_lt h1)) havg)
      have hpool2 : PoolInv ⟨(rollInLoop dd.toDays pool buys).1.quantity -
          min rem (rollInLoop dd.toDays pool buys).1.quantity,
          (rollInLoop dd.toDays pool buys).1.cost -
            round2dp (min rem (rollInLoop dd.toDays pool buys).1.quantity *
              ((rollInLoop dd.toDays pool buys).1.cost /
                (rollInLoop dd.toDays pool buys).1.quantity))⟩ :=
        ⟨by have := min_le_right rem
              (rollInLoop dd.toDays pool buys).1.quantity
            dsimp only
            linarith,
         by dsimp only; linarith,
         hp1.2.2.sub (isPenny_round2dp _)⟩
      refine ⟨hpool2, ?_⟩
      intro p hpm
      rcases List.mem_append.mp hpm with hmem | hmem
      · exact htr p hmem
      · rw [List.mem_singleton.mp hmem]
        exact hpool2
    · rw [if_neg h1]
      exact ⟨hp1, htr⟩

/-! ## The three phases assembled -/

theorem sumQ_append (a b : List MatchDetail) :
    sumQ (a ++ b) = sumQ a + sumQ b := by
  unfold sumQ
  rw [List.map_append, List.sum_append]

theorem sumC_append (a b : List MatchDetail) :
    sumC (a ++ b) = sumC a + sumC b := by
  unfold sumC
  rw [List.map_append, List.sum_append]

theorem sumC_penny :
    ∀ (l : List MatchDetail), (∀ m ∈ l, IsPenny m.cost) → IsPenny (sumC l) := by
  intro l
  induction l with
  | nil => intro _; rw [sumC_nil]; exact isPenny_zero
  | cons m rest ih =>
    intro h
    rw [sumC_cons]
    exact (h m (List.mem_cons_self _ _)).add
      (ih fun x hx => h x (List.mem_cons_of_mem _ hx))

/-- The combined behaviour of the three matching phases of one disposal:
rules and candidate windows of each phase's details, the chronological order
of the B&B matches, the exhaustion of each phase before the next one
contributes, the quantity accounting, and the cost accounting. -/
theorem phases_spec (pool : Pool) (dd : SDate) (pps q : ℚ) (buys : List Txn)
    (r1 r2 : PhaseRes) (r3 : S104Res)
    (h1 : r1 = sameDayLoop dd pps q buys)
    (h2 : r2 = bnbPhase pool dd pps r1.remaining r1.buys)
    (h3 : r3 = s104Phase pool dd pps r2.remaining r2.buys)
    (hq : 0 ≤ q) :
    (∀ m ∈ r1.details,
      m.rule = .sameDay ∧ m.acquisitionDate = some dd ∧ IsPenny m.cost) ∧
    (∀ m ∈ r2.details, m.rule = .bedAndBreakfast ∧ IsPenny m.cost ∧
      ∃ k, m.daysDifference = some k ∧ 0 < k ∧ k ≤ 30) ∧
    r2.details.Pairwise (fun a b => acqDays a ≤ acqDays b) ∧
    (∀ m ∈ r3.details, m.rule = .section104 ∧ IsPenny m.cost) ∧
    r3.details.length ≤ 1 ∧
    ((r2.details ≠ [] ∨ r3.details ≠ []) →
      sumQ r1.details = sameDayAvail dd buys) ∧
    (r3.details ≠ [] → sumQ r2.details = bnbAvail dd buys) ∧
    r3.remaining + sumQ r1.details + sumQ r2.details + sumQ r3.details = q ∧
    0 ≤ r3.remaining ∧
    r1.cost = sumC r1.details ∧ r2.cost = sumC r2.details ∧
    r3.cost = sumC r3.details := by
  subst h3
  subst h2
  subst h1
  set R1 := sameDayLoop dd pps q buys with hR1
  set R2 := bnbPhase pool dd pps R1.remaining R1.buys with hR2
  set R3 := s104Phase pool dd pps R2.remaining R2.buys with hR3
  have hnn1 : 0 ≤ R1.remaining := sameDayLoop_nonneg dd pps buys q hq
  have hacc1 : R1.remaining + sumQ R1.details = q ∧
      R1.cost = sumC R1.details := sameDayLoop_acc dd pps buys q
  have hsum1 : sumQ R1.details = min q (sameDayAvail dd buys) :=
    sameDayLoop_sum dd pps buys q hq
  have hacc2 : R2.remaining + sumQ R2.details = R1.remaining ∧
      R2.cost = sumC R2.details := bnbPhase_acc pool dd pps R1.remaining R1.buys
  have hsum2 : sumQ R2.details = min R1.remaining (bnbAvail dd R1.buys) :=
    bnbPhase_sum pool dd pps R1.remaining R1.buys hnn1
  have hbavail : bnbAvail dd R1.buys = bnbAvail dd buys :=
    sameDayLoop_bnbAvail dd pps buys q
  have hnn2 : 0 ≤ R2.remaining := bnbPhase_nonneg pool dd pps _ _ hnn1
  have hacc3 : R3.remaining + sumQ R3.details = R2.remaining ∧
      R3.cost = sumC R3.details := s104Phase_acc pool dd pps R2.remaining R2.buys
  have hnn3 : 0 ≤ R3.remaining := s104Phase_nonneg pool dd pps _ _ hnn2
  refine ⟨?_, ?_, ?_, ?_, ?_, ?_, ?_, ?_, hnn3, hacc1.2, hacc2.2, hacc3.2⟩
  · exact fun m hm => sameDayLoop_details dd pps buys q m hm
  · exact fun m hm => bnbPhase_details pool dd pps R1.remaining R1.buys m hm
  · exact bnbPhase_pairwise pool dd pps R1.remaining R1.buys
  · exact fun m hm => (s104Phase_details pool dd pps R2.remaining R2.buys).1 m hm
  · exact (s104Phase_details pool dd pps R2.remaining R2.buys).2
  · intro hne
    have hpos1 : 0 < R1.remaining := by
      rcases hne with hne | hne
      · exact bnbPhase_pos_of_details pool dd pps R1.remaining R1.buys hne
      · have hpos2 : 0 < R2.remaining :=
          s104Phase_pos_of_details pool dd pps R2.remaining R2.buys hne
        have hs2nn : 0 ≤ sumQ R2.details := by
          rw [hsum2]
          exact le_min hnn1 (bnbAvail_nonneg dd R1.buys)
        linarith [hacc2.1]
    rcases le_total q (sameDayAvail dd buys) with hcase | hcase
    · exfalso
      rw [hsum1, min_eq_left hcase] at hacc1
      linarith [hacc1.1]
    · rw [hsum1, min_eq_right hcase]
  · intro hne
    have hpos2 : 0 < R2.remaining :=
      s104Phase_pos_of_details pool dd pps R2.remaining R2.buys hne
    rw [hbavail] at hsum2
    rcases le_total R1.remaining (bnbAvail dd buys) with hcase | hcase
    · exfalso
      rw [min_eq_left hcase] at hsum2
      linarith [hacc2.1, hsum2]
    · rw [hsum2, min_eq_right hcase]
  · linarith [hacc1.1, hacc2.1, hacc3.1]

/-! ## Claim C1 — three-rule matching precedence -/

/-- **C1**: for every disposal, the match details decompose as
`d1 ++ d2 ++ d3` where `d1` holds the same-day matches (all dated on the
disposal's own date), `d2` the bed-and-breakfast matches (acquired 1–30
days after the disposal, consumed in ascending acquisition-date order) and
`d3` the (at most one) Section 104 pool draw; a later rule only receives
quantity once the earlier rule's candidates are exhausted: if `d2` or `d3`
is non-empty then `d1` consumed the whole same-day availability, and if
`d3` is non-empty then `d2` consumed the whole B&B availability. -/
theorem same_day_bnb_s104_precedence (pool : Pool) (symbol : ℕ) (d : Txn)
    (buys : List Txn) (hq : 0 ≤ d.quantity) :
    ∃ d1 d2 d3 : List MatchDetail,
      (processDisposal pool symbol d buys).disposal.matchDetails =
        d1 ++ d2 ++ d3 ∧
      (∀ m ∈ d1, m.rule = .sameDay ∧ m.acquisitionDate = some d.date) ∧
      (∀ m ∈ d2, m.rule = .bedAndBreakfast ∧
        ∃ k, m.daysDifference = some k ∧ 0 < k ∧ k ≤ 30) ∧
      d2.Pairwise (fun a b => acqDays a ≤ acqDays b) ∧
      (∀ m ∈ d3, m.rule = .section104) ∧ d3.length ≤ 1 ∧
      ((d2 ≠ [] ∨ d3 ≠ []) → sumQ d1 = sameDayAvail d.date buys) ∧
      (d3 ≠ [] → sumQ d2 = bnbAvail d.date buys) := by
  set pps := round2dp (calculateProceeds d d.quantity / d.quantity) with hpps
  set R1 := sameDayLoop d.date pps d.quantity buys with hR1
  set R2 := bnbPhase pool d.date pps R1.remaining R1.buys with hR2
  set R3 := s104Phase pool d.date pps R2.remaining R2.buys with hR3
  obtain ⟨ha, hb, hc, hd, he, hf, hgg, hh, hi, hj1, hj2, hj3⟩ :=
    phases_spec pool d.date pps d.quantity buys R1 R2 R3 hR1 hR2 hR3 hq
  refine ⟨R1.details, R2.details, R3.details, rfl, ?_, ?_, hc, ?_, he, hf, hgg⟩
  · exact fun m hm => ⟨(ha m hm).1, (ha m hm).2.1⟩
  · exact fun m hm => ⟨(hb m hm).1, (hb m hm).2.2⟩
  · exact fun m hm => (hd m hm).1

/-! ## Claim C2 — full allocation or an UNMATCHED_DISPOSAL error -/

/-- **C2**: a disposal with no error has match details summing exactly to
the disposal quantity; a disposal with an error carries the symbol, the
disposal date, and a positive unmatched quantity equal to the shortfall;
either way the recorded disposal keeps the full quantity, and its total
cost is the sum of the match-detail costs only (the unmatched remainder
contributes nothing). -/
theorem full_allocation_or_error (pool : Pool) (symbol : ℕ) (d : Txn)
    (buys : List Txn) (hq : 0 ≤ d.quantity) :
    ((processDisposal pool symbol d buys).error = none →
      sumQ (processDisposal pool symbol d buys).disposal.matchDetails =
        d.quantity) ∧
    (∀ e, (processDisposal pool symbol d buys).error = some e →
      e.symbol = symbol ∧ e.date = d.date ∧ 0 < e.unmatchedQuantity ∧
      sumQ (processDisposal pool symbol d buys).disposal.matchDetails +
        e.unmatchedQuantity = d.quantity) ∧
    (processDisposal pool symbol d buys).disposal.cost =
      sumC (processDisposal pool symbol d buys).disposal.matchDetails ∧
    (processDisposal pool symbol d buys).disposal.quantity = d.quantity := by
  set pps := round2dp (calculateProceeds d d.quantity / d.quantity) with hpps
  set R1 := sameDayLoop d.date pps d.quantity buys with hR1
  set R2 := bnbPhase pool d.date pps R1.remaining R1.buys with hR2
  set R3 := s104Phase pool d.date pps R2.remaining R2.buys with hR3
  obtain ⟨ha, hb, hc, hd, he, hf, hgg, hh, hi, hj1, hj2, hj3⟩ :=
    phases_spec pool d.date pps d.quantity buys R1 R2 R3 hR1 hR2 hR3 hq
  have hmd : (processDisposal pool symbol d buys).disposal.matchDetails =
      R1.details ++ R2.details ++ R3.details := rfl
  have herr : (processDisposal pool symbol d buys).error =
      (if 0 < R3.remaining then
        some ({ symbol := symbol, date := d.date,
                unmatchedQuantity := R3.remaining } : CGTError)
      else none) := rfl
  have hcost : (processDisposal pool symbol d buys).disposal.cost =
      round2dp (R1.cost + R2.cost + R3.cost) := rfl
  have hsums : sumQ (R1.details ++ R2.details ++ R3.details) =
      sumQ R1.details + sumQ R2.details + sumQ R3.details := by
    rw [sumQ_append, sumQ_append]
  refine ⟨?_, ?_, ?_, rfl⟩
  · intro hnone
    rw [herr] at hnone
    by_cases hpos : 0 < R3.remaining
    · rw [if_pos hpos] at hnone
      cases hnone
    · have h0 : R3.remaining = 0 := le_antisymm (not_lt.mp hpos) hi
      rw [hmd, hsums]
      linarith [hh]
  · intro e he'
    rw [herr] at he'
    by_cases hpos : 0 < R3.remaining
    · rw [if_pos hpos] at he'
      have hee := Option.some.inj he'
      subst hee
      refine ⟨rfl, rfl, hpos, ?_⟩
      rw [hmd, hsums]
      show sumQ R1.details + sumQ R2.details + sumQ R3.details +
        R3.remaining = d.quantity
      linarith [hh]
    · rw [if_neg hpos] at he'
      cases he'
  · rw [hcost, hmd, hj1, hj2, hj3, sumC_append, sumC_append]
    exact round2dp_penny (((sumC_penny _ fun m hm => (ha m hm).2.2).add
      (sumC_penny _ fun m hm => (hb m hm).2.1)).add
      (sumC_penny _ fun m hm => (hd m hm).2))

/-- Witness for C1: the three-rule decomposition applied to the
demonstration sale of 100 units against a same-day buy of 60 and a buy of
30 nine days later. -/
theorem same_day_bnb_s104_precedence_witness :
    0 ≤ demoDispSell.quantity ∧
    ∃ d1 d2 d3 : List MatchDetail,
      (processDisposal ⟨0, 0⟩ 7 demoDispSell
        demoDispBuys).disposal.matchDetails = d1 ++ d2 ++ d3 ∧
      (∀ m ∈ d1, m.rule = .sameDay ∧
        m.acquisitionDate = some demoDispSell.date) ∧
      (∀ m ∈ d2, m.rule = .bedAndBreakfast ∧
        ∃ k, m.daysDifference = some k ∧ 0 < k ∧ k ≤ 30) ∧
      d2.Pairwise (fun a b => acqDays a ≤ acqDays b) ∧
      (∀ m ∈ d3, m.rule = .section104) ∧ d3.length ≤ 1 ∧
      ((d2 ≠ [] ∨ d3 ≠ []) →
        sumQ d1 = sameDayAvail demoDispSell.date demoDispBuys) ∧
      (d3 ≠ [] → sumQ d2 = bnbAvail demoDispSell.date demoDispBuys) :=
  ⟨by norm_num [demoDispSell],
   same_day_bnb_s104_precedence ⟨0, 0⟩ 7 demoDispSell demoDispBuys
     (by norm_num [demoDispSell])⟩

/-- Witness for C2: the allocation accounting applied to the demonstration
sale (60 same-day + 30 B&B matched, 10 left unmatched). -/
theorem full_allocation_or_error_witness :
    0 ≤ demoDispSell.quantity ∧
    (((processDisposal ⟨0, 0⟩ 7 demoDispSell demoDispBuys).error = none →
      sumQ (processDisposal ⟨0, 0⟩ 7 demoDispSell
        demoDispBuys).disposal.matchDetails = demoDispSell.quantity) ∧
    (∀ e, (processDisposal ⟨0, 0⟩ 7 demoDispSell
        demoDispBuys).error = some e →
      e.symbol = 7 ∧ e.date = demoDispSell.date ∧ 0 < e.unmatchedQuantity ∧
      sumQ (processDisposal ⟨0, 0⟩ 7 demoDispSell
        demoDispBuys).disposal.matchDetails + e.unmatchedQuantity =
        demoDispSell.quantity) ∧
    (processDisposal ⟨0, 0⟩ 7 demoDispSell demoDispBuys).disposal.cost =
      sumC (processDisposal ⟨0, 0⟩ 7 demoDispSell
        demoDispBuys).disposal.matchDetails ∧
    (processDisposal ⟨0, 0⟩ 7 demoDispSell
      demoDispBuys).disposal.quantity = demoDispSell.quantity) :=
  ⟨by norm_num [demoDispSell],
   full_allocation_or_error ⟨0, 0⟩ 7 demoDispSell demoDispBuys
     (by norm_num [demoDispSell])⟩

/-! ## The pool invariant along a whole run -/

theorem normalizeOne_remainingQty {p : ℕ × RawTxn} {t : Txn}
    (h : normalizeOne p = some t) : t.remainingQty = t.quantity := by
  unfold normalizeOne at h
  match hd : p.2.date with
  | none => rw [hd] at h; simp at h
  | some d =>
    rw [hd] at h
    simp only [Option.some.injEq] at h
    subst h
    rfl

theorem goodBuy_update {b : Txn} {q : ℚ} (hb : GoodBuy b) (hq : 0 ≤ q) :
    GoodBuy { b with remainingQty := q } :=
  ⟨hb.1, hb.2.1, hq⟩

theorem leftoverLoop_inv :
    ∀ (buys : List Txn) (pool : Pool), PoolInv pool →
      (∀ b ∈ buys, GoodBuy b) →
      PoolInv (leftoverLoop pool buys).1 ∧
        ∀ p ∈ (leftoverLoop pool buys).2, PoolInv p := by
  intro buys
  induction buys with
  | nil =>
    intro pool hp _
    exact ⟨hp, by intro p hpm; simp [leftoverLoop] at hpm⟩
  | cons b rest ih =>
    intro pool hp hg
    rw [leftoverLoop]
    by_cases hc : 0 < b.remainingQty
    · rw [if_pos hc]
      have hgb := hg b (List.mem_cons_self _ _)
      have hcost : 0 ≤ calculateCost b b.remainingQty :=
        calculateCost_nonneg b _ hgb.1 hgb.2.2 hgb.2.1
      have hp' : PoolInv ⟨pool.quantity + b.remainingQty,
          pool.cost + calculateCost b b.remainingQty⟩ :=
        ⟨by have := hp.1; dsimp only; linarith,
         by have := hp.2.1; dsimp only; linarith,
         hp.2.2.add (isPenny_round2dp _)⟩
      have hrec := ih _ hp' (fun x hx => hg x (List.mem_cons_of_mem _ hx))
      refine ⟨hrec.1, ?_⟩
      intro p hpm
      rcases List.mem_cons.mp hpm with h | h
      · rw [h]; exact hp'
      · exact hrec.2 p h
    · rw [if_neg hc]
      exact ih _ hp (fun x hx => hg x (List.mem_cons_of_mem _ hx))

theorem processDisposal_inv (pool : Pool) (symbol : ℕ) (d : Txn)
    (buys : List Txn) (hp : PoolInv pool) (hg : ∀ b ∈ buys, GoodBuy b) :
    PoolInv (processDisposal pool symbol d buys).pool ∧
    (∀ b ∈ (processDisposal pool symbol d buys).buys, GoodBuy b) ∧
    ∀ p ∈ (processDisposal pool symbol d buys).trace, PoolInv p := by
  set pps := round2dp (calculateProceeds d d.quantity / d.quantity) with hpps
  set R1 := sameDayLoop d.date pps d.quantity buys with hR1
  set R2 := bnbPhase pool d.date pps R1.remaining R1.buys with hR2
  set R3 := s104Phase pool d.date pps R2.remaining R2.buys with hR3
  have hgb1 : ∀ b' ∈ R1.buys, GoodBuy b' := by
    intro b' hb'
    obtain ⟨b, hb, hshape, _, hcase⟩ :=
      sameDayLoop_buys d.date pps buys d.quantity b' hb'
    rcases hcase with h | h
    · rw [h]; exact hg b hb
    · rw [hshape]; exact goodBuy_update (hg b hb) h.2
  have hgb2 : ∀ b' ∈ R2.buys, GoodBuy b' := by
    intro b' hb'
    obtain ⟨b, hb, hshape, _, hcase⟩ :=
      bnbPhase_buys pool d.date pps R1.remaining R1.buys b' hb'
    rcases hcase with h | h
    · rw [h]; exact hgb1 b hb
    · rw [hshape]; exact goodBuy_update (hgb1 b hb) h
  have hgb3 : ∀ b' ∈ R3.buys, GoodBuy b' := by
    intro b' hb'
    obtain ⟨b, hb, hcase⟩ :=
      s104Phase_buys pool d.date pps R2.remaining R2.buys b' hb'
    rcases hcase with h | h
    · rw [h]; exact hgb2 b hb
    · rw [h]; exact goodBuy_update (hgb2 b hb) (le_refl 0)
  obtain ⟨hp3, htr3⟩ :=
    s104Phase_pool pool d.date pps R2.remaining R2.buys hp hgb2
  exact ⟨hp3, hgb3, htr3⟩

theorem processSells_inv (symbol : ℕ) :
    ∀ (sells : List Txn) (pool : Pool) (buys : List Txn),
      PoolInv pool → (∀ b ∈ buys, GoodBuy b) →
      PoolInv (processSells symbol pool buys sells).pool ∧
      (∀ b ∈ (processSells symbol pool buys sells).buys, GoodBuy b) ∧
      ∀ p ∈ (processSells symbol pool buys sells).trace, PoolInv p := by
  intro sells
  induction sells with
  | nil =>
    intro pool buys hp hg
    exact ⟨hp, hg, by intro p hpm; simp [processSells] at hpm⟩
  | cons s rest ih =>
    intro pool buys hp hg
    obtain ⟨hp1, hg1, htr1⟩ := processDisposal_inv pool symbol s buys hp hg
    obtain ⟨hp2, hg2, htr2⟩ :=
      ih (processDisposal pool symbol s buys).pool
        (processDisposal pool symbol s buys).buys hp1 hg1
    refine ⟨hp2, hg2, ?_⟩
    intro p hpm
    have hpm' : p ∈ (processDisposal pool symbol s buys).trace ++
        (processSells symbol (processDisposal pool symbol s buys).pool
          (processDisposal pool symbol s buys).buys rest).trace := hpm
    rcases List.mem_append.mp hpm' with h | h
    · exact htr1 p h
    · exact htr2 p h

theorem processSymbol_trace (sym : ℕ) (txns : List Txn)
    (hg : ∀ t ∈ txns, GoodBuy t) :
    ∀ p ∈ (processSymbol sym txns).trace, 0 ≤ p.quantity ∧ 0 ≤ p.cost := by
  have hzero : PoolInv ⟨0, 0⟩ := ⟨le_refl 0, le_refl 0, isPenny_zero⟩
  have hbuys : ∀ b ∈ txns.filter (fun t => decide (t.typ = .buy)), GoodBuy b :=
    fun b hb => hg b (List.mem_filter.mp hb).1
  obtain ⟨hp1, hg1, htr1⟩ := processSells_inv sym
    (txns.filter fun t => decide (t.typ = .sell)) ⟨0, 0⟩
    (txns.filter fun t => decide (t.typ = .buy)) hzero hbuys
  obtain ⟨hp2, htr2⟩ := leftoverLoop_inv
    (processSells sym ⟨0, 0⟩ (txns.filter fun t => decide (t.typ = .buy))
      (txns.filter fun t => decide (t.typ = .sell))).buys
    (processSells sym ⟨0, 0⟩ (txns.filter fun t => decide (t.typ = .buy))
      (txns.filter fun t => decide (t.typ = .sell))).pool hp1 hg1
  intro p hp
  have hp' : p ∈ (⟨0, 0⟩ : Pool) ::
      ((processSells sym ⟨0, 0⟩
        (txns.filter fun t => decide (t.typ = .buy))
        (txns.filter fun t => decide (t.typ = .sell))).trace ++
      (leftoverLoop
        (processSells sym ⟨0, 0⟩
          (txns.filter fun t => decide (t.typ = .buy))
          (txns.filter fun t => decide (t.typ = .sell))).pool
        (processSells sym ⟨0, 0⟩
          (txns.filter fun t => decide (t.typ = .buy))
          (txns.filter fun t => decide (t.typ = .sell))).buys).2) := hp
  rcases List.mem_cons.mp hp' with h | h
  · rw [h]; exact ⟨le_refl 0, le_refl 0⟩
  · rcases List.mem_append.mp h with h | h
    · exact ⟨(htr1 p h).1, (htr1 p h).2.1⟩
    · exact ⟨(htr2 p h).1, (htr2 p h).2.1⟩

theorem runSymbols_trace :
    ∀ (groups : List (ℕ × List Txn)),
      (∀ g ∈ groups, ∀ t ∈ g.2, GoodBuy t) →
      ∀ p ∈ (runSymbols groups).trace, 0 ≤ p.quantity ∧ 0 ≤ p.cost := by
  intro groups
  induction groups with
  | nil => intro _ p hp; simp [runSymbols] at hp
  | cons g rest ih =>
    intro hg p hp
    have hp' : p ∈ (processSymbol g.1 g.2).trace ++
        (runSymbols rest).trace := hp
    rcases List.mem_append.mp hp' with h | h
    · exact processSymbol_trace g.1 g.2
        (hg g (List.mem_cons_self _ _)) p h
    · exact ih (fun x hx => hg x (List.mem_cons_of_mem _ hx)) p h

/-! ## Claim C3 — the pool invariant -/

set_option maxHeartbeats 1000000 in
/-- Counterexample to C3 as stated: the normaliser does not validate the
sign of `totalAmount`, so a buy recorded with `totalAmount = -50` rolls a
negative cost into the Section 104 pool when its leftover is pooled for a
later sale — the pool state `⟨10, -50⟩` appears in the run's trace. -/
theorem pool_negative_counterexample :
    ∃ p ∈ calculateTrace demoNegativeCost, p.cost < 0 := by
  refine ⟨⟨10, -50⟩, ?_, by norm_num⟩
  norm_num [demoNegativeCost, mkRawTxn, calculateTrace, calculate,
    normalizeTransactions, normalizeOne, withIdx, jsOr, jsStrOr, groupByKey,
    addToGroup, runSymbols, processSymbol, processSells, processDisposal,
    sameDayLoop, bnbPhase, bnbLoop, s104Phase, rollInLoop, leftoverLoop,
    calculateCost, calculateProceeds, round2dp, isSameDay,
    getDaysDifference, SDate.toDays, bnbEligible, dateLe, idxDateLe,
    setRemaining, List.insertionSort, List.orderedInsert, List.filter,
    List.filterMap, List.foldl]

/-- **C3 (amended)**: the claimed invariant holds for well-formed inputs:
if every record surviving normalisation has non-negative fees, price and
`totalAmount` and a positive FX rate, then every intermediate Section 104
pool state of the run — across every roll-in and every pool draw of every
symbol — has non-negative quantity and non-negative cost.  (Unvalidated
negative raw amounts violate it, see the counterexample.) -/
theorem pool_never_negative (raw : List RawTxn)
    (h : ∀ t ∈ normalizeTransactions raw, NonnegTxn t) :
    ∀ p ∈ calculateTrace raw, 0 ≤ p.quantity ∧ 0 ≤ p.cost := by
  intro p hp
  refine runSymbols_trace
    (groupByKey (fun t : Txn => t.symbol) (normalizeTransactions raw))
    ?_ p hp
  intro g hgmem t ht
  have hspec := groupByKey_spec hgmem
  rw [hspec] at ht
  have ht' : t ∈ normalizeTransactions raw := (List.mem_filter.mp ht).1
  obtain ⟨⟨pr, _, hnorm⟩, hqpos⟩ := mem_normalizeTransactions.mp ht'
  refine ⟨h t ht', hqpos, ?_⟩
  rw [normalizeOne_remainingQty hnorm]
  exact le_of_lt hqpos

/-- Witness for C3 (amended) on the same-day demonstration input, whose
normalised records are all well formed. -/
theorem pool_never_negative_witness :
    (∀ t ∈ normalizeTransactions demoSameDay, NonnegTxn t) ∧
    ∀ p ∈ calculateTrace demoSameDay, 0 ≤ p.quantity ∧ 0 ≤ p.cost := by
  have hn : ∀ t ∈ normalizeTransactions demoSameDay, NonnegTxn t := by
    intro t ht
    norm_num [normalizeTransactions, normalizeOne, demoSameDay, mkRawTxn,
      withIdx, jsOr, jsStrOr, List.filterMap, List.filter,
      List.insertionSort, List.orderedInsert, dateLe, SDate.toDays] at ht
    rcases ht with rfl | rfl <;>
      exact ⟨by norm_num [jsOr], by norm_num [jsOr], by norm_num [jsOr],
        fun a ha => by simp at ha⟩
  exact ⟨hn, pool_never_negative demoSameDay hn⟩

set_option maxHeartbeats 3000000 in
/-- Witness for C6 (amended): on the exemption demonstration input the
snapshot table is `[(2023, [], [])]`; the replay equations and the report
lookup equations hold for that entry. -/
theorem section104_snapshots_replay_witness :
    ((2023, (([] : List PoolRow), ([] : List PoolRow))) ∈
      calculateSection104Snapshots (calculateCGT 0 demoExemption).acquisitions
        (calculateCGT 0 demoExemption).allDisposals) ∧
    (∃ cfg, lookupConfig 2023 = some cfg ∧
      ((([] : List PoolRow), ([] : List PoolRow))).1 =
        snapshotRows (((sortedEvents
            (calculateCGT 0 demoExemption).acquisitions
            (calculateCGT 0 demoExemption).allDisposals).filter fun e =>
          decide (e.date.toDays < cfg.startDate.toDays)).foldl
            applyEvt []) ∧
      ((([] : List PoolRow), ([] : List PoolRow))).2 =
        snapshotRows (((sortedEvents
            (calculateCGT 0 demoExemption).acquisitions
            (calculateCGT 0 demoExemption).allDisposals).filter fun e =>
          decide (¬cfg.endDate.toDays < e.date.toDays)).foldl
            applyEvt [])) ∧
    ∃ s ∈ (calculateCGT 0 demoExemption).taxYears,
      s.section104Start =
        ((((calculateSection104Snapshots
            (calculateCGT 0 demoExemption).acquisitions
            (calculateCGT 0 demoExemption).allDisposals).find? fun x =>
          decide (x.1 = s.taxYear)).map (fun x => x.2)).map
            (fun x => x.1)).getD [] ∧
      s.section104End =
        ((((calculateSection104Snapshots
            (calculateCGT 0 demoExemption).acquisitions
            (calculateCGT 0 demoExemption).allDisposals).find? fun x =>
          decide (x.1 = s.taxYear)).map (fun x => x.2)).map
            (fun x => x.2)).getD [] := by
  have hmem : (2023, (([] : List PoolRow), ([] : List PoolRow))) ∈
      calculateSection104Snapshots (calculateCGT 0 demoExemption).acquisitions
        (calculateCGT 0 demoExemption).allDisposals := by
    norm_num [demoExemption, mkRawTxn, calculateCGT, calculate,
      normalizeTransactions, normalizeOne, withIdx, jsOr, jsStrOr, groupByKey,
      addToGroup, runSymbols, processSymbol, processSells, processDisposal,
      sameDayLoop, bnbPhase, bnbLoop, s104Phase, rollInLoop, leftoverLoop,
      calculateCost, calculateProceeds, round2dp, isSameDay,
      getDaysDifference, SDate.toDays, bnbEligible, dateLe, idxDateLe,
      generateReport, yearSummary, lookupConfig, TAX_YEARS, getTaxYear,
      fallbackStartYear, sumGains, sumLosses, calculateSection104Snapshots,
      allEvents, sortedEvents, applyEvt, snapshotRows, setRemaining, jsOr2,
      List.insertionSort, List.orderedInsert, evtDateLe, rowSymbolLe,
      yearDesc, List.dedup, List.filter, List.filterMap, List.foldl,
      List.takeWhile]
  have hs : (calculateCGT 0 demoExemption).taxYears.headI ∈
      (calculateCGT 0 demoExemption).taxYears := by
    norm_num [demoExemption, mkRawTxn, calculateCGT, calculate,
      normalizeTransactions, normalizeOne, withIdx, jsOr, jsStrOr, groupByKey,
      addToGroup, runSymbols, processSymbol, processSells, processDisposal,
      sameDayLoop, bnbPhase, bnbLoop, s104Phase, rollInLoop, leftoverLoop,
      calculateCost, calculateProceeds, round2dp, isSameDay,
      getDaysDifference, SDate.toDays, bnbEligible, dateLe, idxDateLe,
      generateReport, yearSummary, lookupConfig, TAX_YEARS, getTaxYear,
      fallbackStartYear, sumGains, sumLosses, calculateSection104Snapshots,
      allEvents, sortedEvents, applyEvt, snapshotRows, setRemaining, jsOr2,
      List.insertionSort, List.orderedInsert, evtDateLe, rowSymbolLe,
      yearDesc, List.dedup, List.filter, List.filterMap, List.foldl,
      List.takeWhile]
  exact ⟨hmem,
    section104_snapshots_replay.1 _ _ 2023 ([], []) hmem,
    (calculateCGT 0 demoExemption).taxYears.headI, hs,
    section104_snapshots_replay.2 0 demoExemption _ hs⟩
end CGT
